import Mathlib

/-!
# LRPC2 wire protocol of `platform-go-sdk` (`internal/lrpc`)

A shallow embedding of the typed value codec (`data.go`), the message header
codec (`header.go`) and the client and server request/response paths
(`lrpcclient.go`, `server.go`, `basesvc.go`), of the package `securemessage` and of
the package `cversion`, followed by theorems about them.

Conventions of the embedding:

* a Go `byte` is a `Fin 256`; a `bytes.Buffer` is the list of its unread bytes;
* fixed width integers are `Nat` or `Int` with explicit reduction modulo `2^w`;
* a Go slice, string or map carried as a value is modelled by its contents, so a
  nil slice and an empty slice are the same (empty) sequence; the untyped `nil`
  interface value is a value of its own, and so is the nil result list of a
  handler;
* a Go runtime panic is an explicit outcome.
-/

namespace Lrpc

/-! ## Bytes and little-endian integers (`encoding/binary`, `lrpc2ByteOrder`) -/

/-- Go `byte`. -/
abbrev Byte := Fin 256

/-- Go `string`: an immutable sequence of bytes. -/
abbrev GoString := List Byte

/-- Conversion `byte(n)`: the low eight bits. -/
def toByte (n : Nat) : Byte := ⟨n % 256, Nat.mod_lt n (by decide)⟩

/-- The first `n` bytes of the little-endian representation of `v`: what
`binary.Write(buf, binary.LittleEndian, x)` appends for an `n`-byte unsigned `x`. -/
def leBytes : Nat → Nat → List Byte
  | 0, _ => []
  | n + 1, v => toByte v :: leBytes n (v / 256)

/-- The unsigned value of a little-endian byte sequence. -/
def leNat : List Byte → Nat
  | [] => 0
  | b :: bs => b.val + 256 * leNat bs

/-- Reinterpretation of 32 bits as Go `int32` (two's complement). -/
def asInt32 (u : Nat) : Int :=
  if u % 4294967296 < 2147483648 then ((u % 4294967296 : Nat) : Int)
  else ((u % 4294967296 : Nat) : Int) - 4294967296

/-- The 32 bits of a Go `int32` as an unsigned number. -/
def int32Bits (v : Int) : Nat := (v % 4294967296).toNat

/-! ## Errors (`const.go`, package `io`) -/

/-- The error values the package returns. The sentinel errors of `const.go` are
distinct `errors.New` values; `readMsgID` and `readMsgType` are the two
formatted errors built in `decode`; `transport` stands for an error of the
network connection. -/
inductive Err where
  | EOF
  | ErrUnexpectedEOF
  | ErrLrpc2BadMagicNum
  | ErrLrpc2BadHeaderLen
  | ErrLrpc2MsgVerMismatch
  | ErrLrpc2BadMsgLen
  | ErrLrpc2ProcessIDMismatch
  | ErrLrpc2SeqNumMismatch
  | ErrLrpc2NameNotSupported
  | ErrLrpc2MsgTooLong
  | ErrLrpc2PELocalUser
  | ErrLrpc2TypeNotSupported
  | ErrMsgUnexpectedData
  | ErrMsgIncorrectType
  | ErrMsgAtMsgEnd
  | ErrMsgNotComplete
  | ErrMsgEncTypeNoSupp
  | ErrMsgEncError
  | ErrMsgInvalid
  | ErrMsgBadHandshakeSize
  | ErrMsgBadVersion
  | ErrMsgBadContext
  | ErrLrpcServerCommandOutOfRange
  | ErrLrpcServerNotConnected
  | ErrLrpcServerAlreadyConnected
  | readMsgID (cause : Err)
  | readMsgType (cmd : Nat) (cause : Err)
  | msgNotSupported (cmd : Nat)
  | msgIDTypeNotSupported
  | handshakeRejected
  | transport (msg : String)
  deriving DecidableEq, Repr

/-! ## Message type tags (`interfaces.go`) -/

def msgEnd : Byte := 0
def msgDataTypeBool : Byte := 1
def msgDataTypeInt32 : Byte := 2
def msgDataTypeUint32 : Byte := 3
def msgDataTypeString : Byte := 4
def msgDataTypePassword : Byte := 5
def msgDataTypeBlob : Byte := 6
def msgDataTypeStringSet : Byte := 7
def msgDataTypeKeyValueSet : Byte := 8
def msgDataTypeProtectedBlob : Byte := 9
def msgDataTypeByte : Byte := 10
def msgDataTypeUint64 : Byte := 11
def msgDataTypeInt64 : Byte := 12
def msgDataTypeInt : Byte := 13
def msgDataTypeNil : Byte := 14

/-! ## Values carried in a message -/

/-- The dynamic values of an argument or result list (`[]interface{}`), by the
cases of the type switch in `encode`. `other` is a value of any further dynamic
type (`float64`, `int`, `int64`, ...), named by its type. The pairs of a
`stringMap` are listed in the order in which a `range` loop visits them. -/
inductive Value where
  | bool (v : Bool)
  | int32 (v : Int)
  | uint32 (v : Nat)
  | uint32Slice (v : List Nat)
  | string (v : GoString)
  | stringSlice (v : List GoString)
  | nil
  | stringMap (v : List (GoString × GoString))
  | bytes (v : List Byte)
  | other (typeName : String)
  deriving DecidableEq, Repr

/-- Assignment `kvs[key] = value` on a map kept as the list of its pairs. -/
def mapSet : List (GoString × GoString) → GoString → GoString → List (GoString × GoString)
  | [], key, value => [(key, value)]
  | (k, v) :: rest, key, value =>
    if k = key then (k, value) :: rest else (k, v) :: mapSet rest key value

/-! ## `bytes.Buffer` and `binary.Read` -/

/-- The call `binary.Read(buf, lrpc2ByteOrder, &x)` for an unsigned `x` of `n` bytes
whose value before the call is `cur`. The read goes through `io.ReadFull`: with at
least `n` unread bytes it stores their little-endian value; otherwise it consumes
all unread bytes, leaves `x` as it was and fails with `io.EOF` (nothing unread) or
`io.ErrUnexpectedEOF`. Result: the value of `x`, the error, the unread bytes. -/
def binaryReadUint (n : Nat) (cur : Nat) (buf : List Byte) : Nat × Option Err × List Byte :=
  if n ≤ buf.length then (leNat (buf.take n), none, buf.drop n)
  else (cur, some (if buf.isEmpty then Err.EOF else Err.ErrUnexpectedEOF), [])

/-- The call `binary.Read(buf, lrpc2ByteOrder, &b)` for `b` of type `byte`. -/
def binaryReadByte (cur : Byte) (buf : List Byte) : Byte × Option Err × List Byte :=
  match buf with
  | [] => (cur, some Err.EOF, [])
  | b :: rest => (b, none, rest)

/-- The call `binary.Read(buf, lrpc2ByteOrder, &l)` for `l` of type `int32`. -/
def binaryReadInt32 (cur : Int) (buf : List Byte) : Int × Option Err × List Byte :=
  if 4 ≤ buf.length then (asInt32 (leNat (buf.take 4)), none, buf.drop 4)
  else (cur, some (if buf.isEmpty then Err.EOF else Err.ErrUnexpectedEOF), [])

/-- The call `buf.Next(n)`: the next `n` unread bytes, or all of them when fewer
remain. A negative `n` makes the slice expression panic (`none`). -/
def bufferNext (n : Int) (buf : List Byte) : Option (List Byte × List Byte) :=
  if n < 0 then none
  else some (buf.take (min n.toNat buf.length), buf.drop (min n.toNat buf.length))

/-- Outcome of `msgReadString2ByteBuffer`. -/
inductive ReadString where
  | value (sbuf : Option (List Byte)) (rest : List Byte)
  | error (err : Err)
  | panic
  deriving DecidableEq, Repr

/-- The function `msgReadString2ByteBuffer` of `data.go`. The error of the length
read is discarded, `-1` gives the nil slice (`value none`), `make([]byte, int(l))`
panics for any other negative `l`, and `buf.Read(sbuf)` returns `io.EOF` when no
byte is unread and `sbuf` is not empty. -/
def msgReadString2ByteBuffer (buf : List Byte) : ReadString :=
  match binaryReadInt32 0 buf with
  | (l, _, buf1) =>
    if l = -1 then ReadString.value none buf1
    else if l < 0 then ReadString.panic
    else if buf1.isEmpty then
      (if l.toNat = 0 then ReadString.value (some []) buf1 else ReadString.error Err.EOF)
    else if min l.toNat buf1.length ≠ l.toNat then ReadString.error Err.ErrMsgInvalid
    else ReadString.value (some (buf1.take l.toNat)) (buf1.drop l.toNat)

/-- The loop of the string set case of `decode`: `count` times, read a length and
take that many bytes; `none` is a panic. -/
def readStringSet : Nat → List Byte → Option (List GoString × List Byte)
  | 0, buf => some ([], buf)
  | n + 1, buf =>
    match binaryReadInt32 0 buf with
    | (l, _, buf1) =>
      match bufferNext l buf1 with
      | none => none
      | some (s, buf2) =>
        match readStringSet n buf2 with
        | none => none
        | some (ss, buf3) => some (s :: ss, buf3)

/-- The loop of the key/value set case of `decode`. The variable `l` is declared
once per iteration and is reused for the key and the value, so a failed read of
the value length leaves the key length in it. `none` is a panic. -/
def readKeyValueSet : Nat → List (GoString × GoString) → List Byte →
    Option (List (GoString × GoString) × List Byte)
  | 0, kvs, buf => some (kvs, buf)
  | n + 1, kvs, buf =>
    match binaryReadInt32 0 buf with
    | (l1, _, buf1) =>
      match bufferNext l1 buf1 with
      | none => none
      | some (key, buf2) =>
        match binaryReadInt32 l1 buf2 with
        | (l2, _, buf3) =>
          match bufferNext l2 buf3 with
          | none => none
          | some (value, buf4) => readKeyValueSet n (mapSet kvs key value) buf4

/-! ## `decode` and `encode` (`data.go`) -/

/-- Outcome of `decode`: the message ID with the values, the triple
`(0, nil, err)`, or a runtime panic. `outOfFuel` is the outcome of the loop
model when its iteration budget is used up; `decode` never yields it. -/
inductive DecodeResult where
  | ok (cmd : Nat) (ret : List Value)
  | error (err : Err)
  | panic
  | outOfFuel
  deriving DecidableEq, Repr

/-- The `for` loop of `decode`, with an iteration budget. -/
def decodeLoop : Nat → Nat → List Value → List Byte → DecodeResult
  | 0, _, _, _ => DecodeResult.outOfFuel
  | fuel + 1, cmd, ret, buf =>
    match binaryReadByte 0 buf with
    | (_, some err, _) => DecodeResult.error (Err.readMsgType cmd err)
    | (t, none, buf1) =>
      if t = msgDataTypeBool then
        match binaryReadByte 0 buf1 with
        | (b, _, buf2) => decodeLoop fuel cmd (ret ++ [Value.bool (b != 0)]) buf2
      else if t = msgDataTypeInt32 then
        match binaryReadInt32 0 buf1 with
        | (v, _, buf2) => decodeLoop fuel cmd (ret ++ [Value.int32 v]) buf2
      else if t = msgDataTypeUint32 then
        match binaryReadUint 4 0 buf1 with
        | (v, _, buf2) => decodeLoop fuel cmd (ret ++ [Value.uint32 v]) buf2
      else if t = msgDataTypeString then
        match msgReadString2ByteBuffer buf1 with
        | ReadString.panic => DecodeResult.panic
        | ReadString.error err => DecodeResult.error err
        | ReadString.value (some sbuf) buf2 => decodeLoop fuel cmd (ret ++ [Value.string sbuf]) buf2
        | ReadString.value none buf2 => decodeLoop fuel cmd (ret ++ [Value.nil]) buf2
      else if t = msgDataTypeBlob then
        match msgReadString2ByteBuffer buf1 with
        | ReadString.panic => DecodeResult.panic
        | ReadString.error err => DecodeResult.error err
        | ReadString.value sbuf buf2 => decodeLoop fuel cmd (ret ++ [Value.bytes (sbuf.getD [])]) buf2
      else if t = msgDataTypeStringSet then
        match binaryReadUint 4 0 buf1 with
        | (count, _, buf2) =>
          match readStringSet count buf2 with
          | none => DecodeResult.panic
          | some (sset, buf3) => decodeLoop fuel cmd (ret ++ [Value.stringSlice sset]) buf3
      else if t = msgDataTypeKeyValueSet then
        match binaryReadUint 4 0 buf1 with
        | (count, _, buf2) =>
          match readKeyValueSet count [] buf2 with
          | none => DecodeResult.panic
          | some (kvs, buf3) => decodeLoop fuel cmd (ret ++ [Value.stringMap kvs]) buf3
      else if t = msgEnd then DecodeResult.ok cmd ret
      else DecodeResult.error Err.ErrMsgIncorrectType

/-- The function `decode` of `data.go`. Every iteration of its loop consumes the
tag byte, so one more iteration than there are bytes is always enough. -/
def decode (buf : List Byte) : DecodeResult :=
  match binaryReadUint 2 0 buf with
  | (_, some err, _) => DecodeResult.error (Err.readMsgID err)
  | (cmd, none, buf1) => decodeLoop (buf1.length + 1) cmd [] buf1

/-- The `for _, e := range args` loop of `encode`: the buffer after the values, or
the error of the `default` case. -/
def encodeArgs : List Byte → List Value → Except Err (List Byte)
  | buf, [] => Except.ok buf
  | buf, Value.bool v :: rest =>
    encodeArgs (buf ++ [msgDataTypeBool] ++ [if v then (1 : Byte) else 0]) rest
  | buf, Value.int32 v :: rest =>
    encodeArgs (buf ++ [msgDataTypeInt32] ++ leBytes 4 (int32Bits v)) rest
  | buf, Value.uint32 v :: rest =>
    encodeArgs (buf ++ [msgDataTypeUint32] ++ leBytes 4 v) rest
  | buf, Value.uint32Slice v :: rest =>
    encodeArgs (v.foldl (fun b i => b ++ [msgDataTypeUint32] ++ leBytes 4 i) buf) rest
  | buf, Value.string v :: rest =>
    encodeArgs (buf ++ [msgDataTypeString] ++ leBytes 4 (v.length % 4294967296)
      ++ (if v.length > 0 then v else [])) rest
  | buf, Value.stringSlice v :: rest =>
    encodeArgs (v.foldl (fun b s => b ++ leBytes 4 (s.length % 4294967296) ++ s)
      (buf ++ [msgDataTypeStringSet] ++ leBytes 4 (v.length % 4294967296))) rest
  | buf, Value.nil :: rest =>
    encodeArgs (buf ++ [msgDataTypeString] ++ leBytes 4 (int32Bits (-1))) rest
  | buf, Value.stringMap v :: rest =>
    encodeArgs (v.foldl (fun b kv => b ++ leBytes 4 (kv.1.length % 4294967296) ++ kv.1
        ++ leBytes 4 (kv.2.length % 4294967296) ++ kv.2)
      (buf ++ [msgDataTypeKeyValueSet] ++ leBytes 4 (v.length % 4294967296))) rest
  | buf, Value.bytes v :: rest =>
    encodeArgs (buf ++ [msgDataTypeBlob] ++ leBytes 4 (v.length % 4294967296)
      ++ (if v.length > 0 then v else [])) rest
  | _, Value.other _ :: _ => Except.error Err.ErrLrpc2TypeNotSupported

/-- The function `encode` of `data.go`: the bytes of the returned buffer, or the
error returned with a nil buffer. -/
def encode (cmd : Nat) (args : List Value) : Except Err (List Byte) :=
  match encodeArgs (leBytes 2 cmd) args with
  | Except.error err => Except.error err
  | Except.ok buf => Except.ok (buf ++ [msgEnd])

/-! ## Protocol constants (`const.go`) -/

def lrpc2Nack : Nat := 0
def lrpc2Ack : Nat := 1
def lrpc2MagicNum : Nat := 0xABCD8012
def lrpc2MaxMsgLen : Nat := 1024 * 1024
def lrpc2HandshakeRequestSize : Nat := 4
def lrpc2Version4 : Nat := 4
def lrpc2HandshakeReplyV4Size : Nat := 8
def lrpc2HeaderLengthV4 : Nat := 34

/-! ## The message header (`header.go`) -/

/-- The struct `lrpc2HeaderV4`; the widths of the fields are those of
`lrpc2HeaderV4.InRange`. -/
structure lrpc2HeaderV4 where
  magicNum : Nat
  headerLen : Nat
  version : Nat
  pid : Nat
  sequenceNum : Nat
  timestamp : Nat
  msgDataLen : Nat
  deriving DecidableEq, Repr

/-- The field types: `uint32`, `uint16`, `uint32`, `uint64`, `uint32`, `uint64`,
`uint32`. -/
def lrpc2HeaderV4.InRange (h : lrpc2HeaderV4) : Prop :=
  h.magicNum < 2 ^ 32 ∧ h.headerLen < 2 ^ 16 ∧ h.version < 2 ^ 32 ∧ h.pid < 2 ^ 64 ∧
  h.sequenceNum < 2 ^ 32 ∧ h.timestamp < 2 ^ 64 ∧ h.msgDataLen < 2 ^ 32

instance (h : lrpc2HeaderV4) : Decidable h.InRange := by
  unfold lrpc2HeaderV4.InRange; infer_instance

/-- The method `encodeHeader`: the error it returns and the buffer after the call.
A `binary.Write` of a fixed size value into a `bytes.Buffer` does not fail. -/
def encodeHeader (h : lrpc2HeaderV4) (buf : List Byte) : Option Err × List Byte :=
  let buf1 := buf ++ leBytes 4 h.magicNum
  let buf2 := buf1 ++ leBytes 2 h.headerLen
  let buf3 := buf2 ++ leBytes 4 h.version
  let buf4 := buf3 ++ leBytes 8 h.pid
  let buf5 := buf4 ++ leBytes 4 h.sequenceNum
  let buf6 := buf5 ++ leBytes 8 h.timestamp
  let buf7 := buf6 ++ leBytes 4 h.msgDataLen
  (none, buf7)

/-- The method `decodeHeader`, which fills the receiver field by field and
returns at the first failed read: the header after the call, the error, the
unread bytes. -/
def decodeHeader (h : lrpc2HeaderV4) (buf : List Byte) :
    lrpc2HeaderV4 × Option Err × List Byte :=
  match binaryReadUint 4 h.magicNum buf with
  | (_, some err, buf1) => (h, some err, buf1)
  | (magicNum, none, buf1) =>
    let h1 := { h with magicNum := magicNum }
    match binaryReadUint 2 h1.headerLen buf1 with
    | (_, some err, buf2) => (h1, some err, buf2)
    | (headerLen, none, buf2) =>
      let h2 := { h1 with headerLen := headerLen }
      match binaryReadUint 4 h2.version buf2 with
      | (_, some err, buf3) => (h2, some err, buf3)
      | (version, none, buf3) =>
        let h3 := { h2 with version := version }
        match binaryReadUint 8 h3.pid buf3 with
        | (_, some err, buf4) => (h3, some err, buf4)
        | (pid, none, buf4) =>
          let h4 := { h3 with pid := pid }
          match binaryReadUint 4 h4.sequenceNum buf4 with
          | (_, some err, buf5) => (h4, some err, buf5)
          | (sequenceNum, none, buf5) =>
            let h5 := { h4 with sequenceNum := sequenceNum }
            match binaryReadUint 8 h5.timestamp buf5 with
            | (_, some err, buf6) => (h5, some err, buf6)
            | (timestamp, none, buf6) =>
              let h6 := { h5 with timestamp := timestamp }
              match binaryReadUint 4 h6.msgDataLen buf6 with
              | (_, some err, buf7) => (h6, some err, buf7)
              | (msgDataLen, none, buf7) => ({ h6 with msgDataLen := msgDataLen }, none, buf7)

/-- The method `verifyHeader`: `none` is the nil error. -/
def verifyHeader (h : lrpc2HeaderV4) : Option Err :=
  if h.magicNum ≠ lrpc2MagicNum then some Err.ErrLrpc2BadMagicNum
  else if h.headerLen ≠ lrpc2HeaderLengthV4 then some Err.ErrLrpc2BadHeaderLen
  else if h.version ≠ lrpc2Version4 then some Err.ErrLrpc2MsgVerMismatch
  else if h.msgDataLen > lrpc2MaxMsgLen then some Err.ErrLrpc2BadMsgLen
  else none

/-- The method `HeaderLen`. -/
def HeaderLen : Nat := lrpc2HeaderLengthV4

/-- Little-endian layout in words: byte number `i` of the `n` bytes is
`v / 256 ^ i` reduced modulo `256`, the least significant byte first. -/
def littleEndianLayout (n v : Nat) : List Byte :=
  (List.range n).map (fun i => toByte (v / 256 ^ i))


/-! ## The network connection (`net.Conn`) -/

/-- A connection as one of its ends sees it. `unread` is what the peer has sent and
this end has not read, in the pieces in which the transport hands it over: one call
of `Read` returns bytes of the first piece only. `deadlineErr` is what `SetDeadline`
returns, `readErr` what `Read` returns when nothing is unread (`io.EOF` once the
peer has closed, a timeout otherwise), `writeErr` what `Write` returns, and `written`
collects the bytes sent. -/
structure Conn where
  deadlineErr : Option Err
  unread : List (List Byte)
  readErr : Err
  writeErr : Option Err
  written : List Byte
  deriving DecidableEq, Repr

/-- The call `conn.Read(p)` with `len(p) = n`: the connection afterwards, the contents
of `p` (bytes beyond those read keep the zero of `make`), the count and the error. -/
def Conn.Read (conn : Conn) (n : Nat) : Conn × List Byte × Nat × Option Err :=
  if n = 0 then (conn, [], 0, none)
  else
    match conn.unread with
    | [] => (conn, List.replicate n 0, 0, some conn.readErr)
    | piece :: more =>
      ({ conn with unread := if piece.length ≤ n then more else piece.drop n :: more },
        piece.take n ++ List.replicate (n - piece.length) 0, min n piece.length, none)

/-- The call `conn.Write(b)`. -/
def Conn.Write (conn : Conn) (b : List Byte) : Conn × Option Err :=
  match conn.writeErr with
  | some err => (conn, some err)
  | none => ({ conn with written := conn.written ++ b }, none)

/-- The function `read` of `io.go`, called with a slice from `make`: the count is 0
when `conn.Read` fails. -/
def read (conn : Conn) (n : Nat) : Conn × List Byte × Nat × Option Err :=
  match conn.Read n with
  | (conn1, p, _, some err) => (conn1, p, 0, some err)
  | (conn1, p, k, none) => (conn1, p, k, none)

/-- The function `write` of `io.go`, called with the bytes of a buffer. -/
def write (conn : Conn) (bytes : List Byte) : Conn × Option Err :=
  conn.Write bytes

/-! ## The client session (`lrpcclient.go`, `client.go`) -/

/-- The dynamic value given as `cmd interface{}`: an `int` or `uint` (64 bits), a
`uint16`, a `uint32`, or a value of another type. -/
inductive Command where
  | int (v : Int)
  | uint (v : Nat)
  | uint16 (v : Nat)
  | uint32 (v : Nat)
  | other (typeName : String)
  deriving DecidableEq, Repr

/-- The struct `lrpc2Client`: the embedded header, the connection, the maximum
payload size from the handshake and the session pid. -/
structure lrpc2Client where
  hdr : lrpc2HeaderV4
  conn : Conn
  maxMsgDataLen : Nat
  sessionPid : Nat
  deriving DecidableEq, Repr

/-- The method `setupNextRequest`. -/
def setupNextRequest (c : lrpc2Client) (seqNum : Nat) : lrpc2Client :=
  { c with hdr := { c.hdr with sequenceNum := seqNum } }

/-- The `switch cmd.(type)` of `WriteRequest`: the `uint16` request ID, or the error
returned. A wider value is converted with `uint16(v)` and accepted when
`uint64(iReq) == uint64(v)`. -/
def requestID : Command → Except Err Nat
  | Command.int v =>
    if (v % 65536).toNat ≠ (v % 18446744073709551616).toNat
    then Except.error Err.ErrLrpcServerCommandOutOfRange else Except.ok (v % 65536).toNat
  | Command.uint v =>
    if v % 65536 ≠ v % 18446744073709551616
    then Except.error Err.ErrLrpcServerCommandOutOfRange else Except.ok (v % 65536)
  | Command.uint16 v => Except.ok v
  | Command.uint32 v =>
    if v % 65536 ≠ v % 18446744073709551616
    then Except.error Err.ErrLrpcServerCommandOutOfRange else Except.ok (v % 65536)
  | Command.other _ => Except.error Err.ErrLrpc2NameNotSupported

/-- The method `WriteRequest`; `now` is `time.Now().Unix()`. The deferred call
`setupNextRequest(c.sequenceNum + 1)` is registered after the deadline is set, with
its argument evaluated at that point, and runs at every later return. -/
def WriteRequest (c : lrpc2Client) (now : Nat) (cmd : Command) (args : List Value) :
    lrpc2Client × Option Err :=
  match c.conn.deadlineErr with
  | some err => (c, some err)
  | none =>
    let next := (c.hdr.sequenceNum + 1) % 4294967296
    match requestID cmd with
    | Except.error err => (setupNextRequest c next, some err)
    | Except.ok iReq =>
      match encode iReq args with
      | Except.error err => (setupNextRequest c next, some err)
      | Except.ok msgData =>
        if msgData.length > c.maxMsgDataLen then
          (setupNextRequest c next, some Err.ErrLrpc2MsgTooLong)
        else
          let c1 := { c with hdr := { c.hdr with msgDataLen := msgData.length % 4294967296 } }
          let c2 := { c1 with hdr := { c1.hdr with timestamp := now % 18446744073709551616 } }
          match encodeHeader c2.hdr [] with
          | (some err, _) => (setupNextRequest c2 next, some err)
          | (none, msg) =>
            match c2.conn.Write (msg ++ msgData) with
            | (conn1, err) => (setupNextRequest { c2 with conn := conn1 } next, err)

/-- What a call returns besides the state: the values, the error (with nil
values), or a panic; `outOfFuel` is handed on from the model of `decode`, which
never yields it. -/
inductive Reply where
  | ok (results : List Value)
  | error (err : Err)
  | panic
  | outOfFuel
  deriving DecidableEq, Repr

/-- The method `ReadResponse`. The reply header is decoded into the header embedded
in the client. -/
def ReadResponse (c : lrpc2Client) : lrpc2Client × Reply :=
  match c.conn.deadlineErr with
  | some err => (c, Reply.error err)
  | none =>
    let expectSeq := (c.hdr.sequenceNum + 4294967295) % 4294967296
    match c.conn.Read HeaderLen with
    | (conn1, _, _, some err) => ({ c with conn := conn1 }, Reply.error err)
    | (conn1, bytesMsgHeader, _, none) =>
      match decodeHeader c.hdr bytesMsgHeader with
      | (h1, some err, _) => ({ c with conn := conn1, hdr := h1 }, Reply.error err)
      | (h1, none, _) =>
        match verifyHeader h1 with
        | some err => ({ c with conn := conn1, hdr := h1 }, Reply.error err)
        | none =>
          if h1.sequenceNum ≠ expectSeq then
            ({ c with conn := conn1, hdr := h1 }, Reply.error Err.ErrLrpc2SeqNumMismatch)
          else
            match conn1.Read h1.msgDataLen with
            | (conn2, _, _, some err) => ({ c with conn := conn2, hdr := h1 }, Reply.error err)
            | (conn2, bytesMsgData, _, none) =>
              match decode bytesMsgData with
              | DecodeResult.ok _ rest => ({ c with conn := conn2, hdr := h1 }, Reply.ok rest)
              | DecodeResult.error err => ({ c with conn := conn2, hdr := h1 }, Reply.error err)
              | DecodeResult.panic => ({ c with conn := conn2, hdr := h1 }, Reply.panic)
              | DecodeResult.outOfFuel => ({ c with conn := conn2, hdr := h1 }, Reply.outOfFuel)

/-- The function `DoRequest` of `client.go`. `net` is what happens on the connection
between the two calls (the peer reads the request and sends its reply). -/
def DoRequest (cl : lrpc2Client) (now : Nat) (net : Conn → Conn) (cmd : Command)
    (args : List Value) : lrpc2Client × Reply :=
  match WriteRequest cl now cmd args with
  | (cl1, some err) => (cl1, Reply.error err)
  | (cl1, none) => ReadResponse { cl1 with conn := net cl1.conn }

/-! ## The server session (`server.go`, `basesvc.go`, `basicsvc.go`) -/

/-- The struct `lrpc2Server` of an accepted connection. -/
structure lrpc2Server where
  hdr : lrpc2HeaderV4
  conn : Conn
  connected : Bool
  inHandShake : Bool
  handShakeError : Option Err
  deriving DecidableEq, Repr

/-- Outcome of `ReadRequest`: the message context (the request header), the command
and the arguments; or the error; or a panic of `decode`. -/
inductive Request where
  | ok (msg : lrpc2HeaderV4) (cmd : Nat) (args : List Value)
  | error (err : Err)
  | panic
  | outOfFuel
  deriving DecidableEq, Repr

/-- The method `ReadRequest`. The state is the one found once the wait for the end of
the handshake is over. -/
def ReadRequest (s : lrpc2Server) : lrpc2Server × Request :=
  match s.conn.deadlineErr with
  | some err => (s, Request.error err)
  | none =>
    match (if s.inHandShake then s.handShakeError else none) with
    | some err => (s, Request.error err)
    | none =>
      if !s.connected then (s, Request.error Err.ErrLrpcServerNotConnected)
      else
        match read s.conn HeaderLen with
        | (conn1, _, _, some err) => ({ s with conn := conn1 }, Request.error err)
        | (conn1, bytesHeader, _, none) =>
          match decodeHeader (lrpc2HeaderV4.mk 0 0 0 0 0 0 0) bytesHeader with
          | (_, some err, _) => ({ s with conn := conn1 }, Request.error err)
          | (hdr, none, _) =>
            match verifyHeader hdr with
            | some err => ({ s with conn := conn1 }, Request.error err)
            | none =>
              match read conn1 hdr.msgDataLen with
              | (conn2, _, _, some err) => ({ s with conn := conn2 }, Request.error err)
              | (conn2, bytesMsgData, _, none) =>
                match decode bytesMsgData with
                | DecodeResult.ok cmd args => ({ s with conn := conn2 }, Request.ok hdr cmd args)
                | DecodeResult.error err => ({ s with conn := conn2 }, Request.error err)
                | DecodeResult.panic => ({ s with conn := conn2 }, Request.panic)
                | DecodeResult.outOfFuel => ({ s with conn := conn2 }, Request.outOfFuel)

/-- The method `WriteResponse`; `now` is `time.Now().Unix()`, `msg` is the message
context when its dynamic type is `lrpc2HeaderV4` and `none` otherwise. -/
def WriteResponse (s : lrpc2Server) (now : Nat) (msg : Option lrpc2HeaderV4)
    (command : Command) (results : List Value) : lrpc2Server × Option Err :=
  match s.conn.deadlineErr with
  | some err => (s, some err)
  | none =>
    if !s.connected then (s, some Err.ErrLrpcServerNotConnected)
    else
      match msg with
      | none => (s, some Err.ErrMsgBadContext)
      | some hdr =>
        match command with
        | Command.uint16 cmd =>
          match encode cmd results with
          | Except.error err => (s, some err)
          | Except.ok msgData =>
            let s1 := { s with hdr := { s.hdr with
              sequenceNum := hdr.sequenceNum, pid := hdr.pid,
              timestamp := now % 18446744073709551616,
              msgDataLen := msgData.length % 4294967296 } }
            match encodeHeader s1.hdr [] with
            | (some err, _) => (s1, some err)
            | (none, msgBuf) =>
              match write s1.conn (msgBuf ++ msgData) with
              | (conn1, err) => ({ s1 with conn := conn1 }, err)
        | _ => (s, some Err.ErrMsgBadContext)

/-- The struct `session` behind the interface `SessionCtxt`: the peer credentials
and the name of the client process. -/
structure SessionCtxt where
  uid : Nat
  gid : Nat
  pid : Int
  clientProcessName : GoString
  deriving DecidableEq, Repr

/-- The signature `func(ctxt SessionCtxt, args []interface{}) []interface{}` of a
handler, which is the underlying type of `CommandHandler`; the result `none` is the
nil slice. -/
abbrev CommandHandler := SessionCtxt → List Value → Option (List Value)

/-- A value of type `interface{}` stored in the map `messageMapByID`, by its dynamic
type: the nil interface; a function of the unnamed type
`func(SessionCtxt, []interface{}) []interface{}` (what the tests register), which is
not nil (`func`) or nil (`nilFunc`); a function of the named type `CommandHandler`;
a value of any other type. -/
inductive Registered where
  | nil
  | func (f : CommandHandler)
  | nilFunc
  | commandHandler (f : CommandHandler)
  | other (typeName : String)

/-- The struct `svrBase`, reduced to its map `messageMapByID`; `none` is a key that
the map does not hold. -/
structure svrBase where
  messageMapByID : Nat → Option Registered

/-- The method `RegisterMsgByID`. -/
def RegisterMsgByID (s : svrBase) (k : Nat) (v : Registered) : svrBase :=
  { s with messageMapByID := fun id => if id = k then some v else s.messageMapByID id }

/-- What `dispatch` returns: the reply of the handler (`none` is the nil slice) with a
nil error, or the error with a nil reply; or it panics. -/
inductive Dispatched where
  | ok (reply : Option (List Value))
  | error (err : Err)
  | panic
  deriving DecidableEq, Repr

/-- The method `dispatch`. A key that the map does not hold and a stored nil
interface give `f == nil`. The type assertion
`f.(func(SessionCtxt, []interface{}) []interface{})` panics for a value of the named
type `CommandHandler` and for a value of any other type (for some of these
`getFunctionName` panics before it); the call of a nil function panics. -/
def dispatch (s : svrBase) (ctxt : SessionCtxt) (cmd : Command) (args : List Value) :
    Dispatched :=
  match (match cmd with
    | Command.uint32 v =>
      if v ≠ v % 65536 then Except.error Err.ErrLrpcServerCommandOutOfRange
      else Except.ok (v % 65536, s.messageMapByID (v % 65536))
    | Command.uint16 v => Except.ok (v, s.messageMapByID v)
    | _ => Except.error Err.msgIDTypeNotSupported) with
  | Except.error err => Dispatched.error err
  | Except.ok (id, none) => Dispatched.error (Err.msgNotSupported id)
  | Except.ok (id, some Registered.nil) => Dispatched.error (Err.msgNotSupported id)
  | Except.ok (_, some (Registered.func ff)) => Dispatched.ok (ff ctxt args)
  | Except.ok (_, some Registered.nilFunc) => Dispatched.panic
  | Except.ok (_, some (Registered.commandHandler _)) => Dispatched.panic
  | Except.ok (_, some (Registered.other _)) => Dispatched.panic


/-- The handler `echo` of the test server (`server_test.go`): it appends every
argument to a nil slice, so it returns nil for an empty argument list. -/
def echo : CommandHandler :=
  fun _ args => args.foldl (fun ret val => some (ret.getD [] ++ [val])) none

/-- The function `initLrpc2ClientSession`, for a client that owns `conn`. -/
def initLrpc2ClientSession (conn : Conn) : lrpc2Client :=
  { hdr := lrpc2HeaderV4.mk lrpc2MagicNum lrpc2HeaderLengthV4 lrpc2Version4 0 0 0 0,
    conn := conn, maxMsgDataLen := 0, sessionPid := 0 }

/-- The function `initLrpc2ServerSession`, for a session that owns `conn`. -/
def initLrpc2ServerSession (conn : Conn) : lrpc2Server :=
  { hdr := lrpc2HeaderV4.mk lrpc2MagicNum lrpc2HeaderLengthV4 lrpc2Version4 0 0 0 0,
    conn := conn, connected := false, inHandShake := false, handShakeError := none }

/-! ## Handshake, registration and the connection loop -/

/-- The method `doHandShake` of the client; `rand` is `rand.Uint32()` and `pid` is
`os.Getpid()`. The reply buffer has 8 bytes and is filled by one `Read`. -/
def lrpc2Client.doHandShake (c : lrpc2Client) (rand pid : Nat) : lrpc2Client × Option Err :=
  match c.conn.deadlineErr with
  | some err => (c, some err)
  | none =>
    match c.conn.Write (leBytes 4 lrpc2Version4) with
    | (conn1, some err) => ({ c with conn := conn1 }, some err)
    | (conn1, none) =>
      match conn1.Read lrpc2HandshakeReplyV4Size with
      | (conn2, _, _, some err) => ({ c with conn := conn2 }, some err)
      | (conn2, bytesReply, _, none) =>
        match binaryReadUint 4 0 bytesReply with
        | (_, some err, _) => ({ c with conn := conn2 }, some err)
        | (answer, none, reply) =>
          if answer = lrpc2Nack then ({ c with conn := conn2 }, some Err.handshakeRejected)
          else
            match binaryReadUint 4 0 reply with
            | (_, some err, _) => ({ c with conn := conn2 }, some err)
            | (maxMsgDataLen, none, _) =>
              ({ c with
                  conn := conn2, maxMsgDataLen := maxMsgDataLen,
                  hdr := { c.hdr with
                    sequenceNum := rand % 4294967296, pid := pid % 18446744073709551616 },
                  sessionPid := pid % 18446744073709551616 }, none)

/-- The method `sendBuf`, called with `uint32` values: each is written to a buffer in
little-endian order and the buffer is sent with `write`. -/
def sendBuf (s : lrpc2Server) (data : List Nat) : lrpc2Server × Option Err :=
  match write s.conn (data.foldl (fun buf v => buf ++ leBytes 4 v) []) with
  | (conn1, err) => ({ s with conn := conn1 }, err)

/-- The method `replyNACK`: its data is the single value `uint32(lrpc2Nack)`. -/
def replyNACK (s : lrpc2Server) : lrpc2Server × Option Err :=
  sendBuf s [lrpc2Nack]

/-- The method `replyACK`: its data is `uint32(lrpc2Ack)`, `uint32(lrpc2MaxMsgLen)`. -/
def replyACK (s : lrpc2Server) : lrpc2Server × Option Err :=
  sendBuf s [lrpc2Ack, lrpc2MaxMsgLen]

/-- The method `RegisterMsgsByID`; the pairs of the map are listed in the order in
which the `range` loop visits them. -/
def RegisterMsgsByID (s : svrBase) (m : List (Nat × Registered)) : svrBase :=
  m.foldl (fun b kv => RegisterMsgByID b kv.1 kv.2) s

/-- How one pass through the loop of `handleConnection` ends: the loop goes on to the
next request, or it is left (`break`), or `decode` or `dispatch` panicked. -/
inductive LoopStep where
  | next
  | done
  | panic
  | outOfFuel
  deriving DecidableEq, Repr

/-- The body of the `for s.listenerOK` loop of `handleConnection`: read a request,
dispatch it, and write the response when the results are not nil. `now` is the time
at which the response is written. -/
def handleConnectionBody (s : svrBase) (ctxt : SessionCtxt) (now : Nat)
    (msgsvr : lrpc2Server) : lrpc2Server × LoopStep :=
  match ReadRequest msgsvr with
  | (m1, Request.error _) => (m1, LoopStep.done)
  | (m1, Request.panic) => (m1, LoopStep.panic)
  | (m1, Request.outOfFuel) => (m1, LoopStep.outOfFuel)
  | (m1, Request.ok msgctxt cmd args) =>
    match dispatch s ctxt (Command.uint16 cmd) args with
    | Dispatched.error _ => (m1, LoopStep.done)
    | Dispatched.panic => (m1, LoopStep.panic)
    | Dispatched.ok none => (m1, LoopStep.next)
    | Dispatched.ok (some results) =>
      match WriteResponse m1 now (some msgctxt) (Command.uint16 cmd) results with
      | (m2, some _) => (m2, LoopStep.done)
      | (m2, none) => (m2, LoopStep.next)

/-- The loop of `handleConnection` with a budget of passes, for a session context
that was obtained; `listenerOK` is the flag of the session server and `clock` gives
the time of each pass. The call of `Close` that follows the loop is left out. -/
def handleConnection : Nat → svrBase → SessionCtxt → Bool → (Nat → Nat) → lrpc2Server →
    lrpc2Server × LoopStep
  | 0, _, _, _, _, msgsvr => (msgsvr, LoopStep.outOfFuel)
  | fuel + 1, s, ctxt, listenerOK, clock, msgsvr =>
    if !listenerOK then (msgsvr, LoopStep.done)
    else
      match handleConnectionBody s ctxt (clock fuel) msgsvr with
      | (m, LoopStep.next) => handleConnection fuel s ctxt listenerOK clock m
      | (m, step) => (m, step)

/-! ## The test fixture (`lrpcclient_test.go`, `server_test.go`) and scenarios -/

def MsgEcho : Nat := 100
def MsgAsync : Nat := 102

/-- The handler `async` of the test server: it returns nil. -/
def async : CommandHandler := fun _ _ => none

/-- The map `msgs` of the test server, with its entries for `echo` and `async`, which
are stored as functions of the unnamed type. -/
def msgs : List (Nat × Registered) :=
  [(MsgEcho, Registered.func echo), (MsgAsync, Registered.func async)]

/-- A connection on which nothing is unread, nothing was written and nothing fails. -/
def idleConn : Conn := Conn.mk none [] Err.EOF none []

/-- A client after `Connect` to this server: the constants of
`initLrpc2ClientSession`, the maximum payload size that `replyACK` sends, and the
sequence number and pid given. -/
def connectedClient (seq pid : Nat) : lrpc2Client :=
  { hdr := lrpc2HeaderV4.mk lrpc2MagicNum lrpc2HeaderLengthV4 lrpc2Version4 pid seq 0 0,
    conn := idleConn, maxMsgDataLen := lrpc2MaxMsgLen, sessionPid := pid }

/-- An accepted session after a handshake that went well. -/
def connectedSession : lrpc2Server :=
  { initLrpc2ServerSession idleConn with connected := true }

/-- One request and its reply when the transport hands every message over in one
piece: the client writes the request, the server runs one pass of its loop on what
was written, and the client reads what the server wrote. -/
def requestCycle (s : svrBase) (ctxt : SessionCtxt) (cl : lrpc2Client) (msgsvr : lrpc2Server)
    (nowC nowS : Nat) (cmd : Command) (args : List Value) :
    lrpc2Client × lrpc2Server × Reply :=
  match WriteRequest cl nowC cmd args with
  | (cl1, some err) => (cl1, msgsvr, Reply.error err)
  | (cl1, none) =>
    match handleConnectionBody s ctxt nowS
      { msgsvr with conn := { msgsvr.conn with
        unread := [cl1.conn.written.drop cl.conn.written.length] } } with
    | (m1, _) =>
      match ReadResponse { cl1 with conn := { cl1.conn with
          unread := [m1.conn.written.drop msgsvr.conn.written.length] } } with
      | (cl2, r) => (cl2, m1, r)

/-! ## The handshake of the server (`server.go`) -/

/-- The session that `Accept` hands to `doHandShake`: the constants of
`initLrpc2ServerSession`, in handshake, on the connection accepted. -/
def acceptedSession (conn : Conn) : lrpc2Server :=
  { initLrpc2ServerSession conn with inHandShake := true }

/-- The method `setHandShakeErr`. The second component is the number of values it
sends on the channel `doneHandShake`. -/
def setHandShakeErr (s : lrpc2Server) (err : Err) : lrpc2Server × Nat :=
  ({ s with inHandShake := false, connected := false, handShakeError := some err }, 1)

/-- The method `doHandShake` of the server: the session afterwards and the number of
values sent on the channel `doneHandShake`. An error `Err.transport msg` of the read
is a `*net.OpError` whose inner error prints `msg`; every other error takes the
`default` case of the type switch. The result of `replyNACK` is dropped as in the
source. -/
def lrpc2Server.doHandShake (s : lrpc2Server) : lrpc2Server × Nat :=
  match s.conn.deadlineErr with
  | some _ => (s, 0)
  | none =>
    match read s.conn lrpc2HandshakeRequestSize with
    | (conn1, _, _, some err) =>
      match err with
      | Err.transport msg =>
        if msg = "i/o timeout" ∨ msg = "broken pipe" then
          setHandShakeErr { s with conn := conn1 } err
        else setHandShakeErr (replyNACK { s with conn := conn1 }).1 err
      | _ => setHandShakeErr { s with conn := conn1 } err
    | (conn1, bytesRequest, n, none) =>
      if n ≠ lrpc2HandshakeRequestSize then
        setHandShakeErr (replyNACK { s with conn := conn1 }).1 Err.ErrMsgBadHandshakeSize
      else
        match binaryReadUint 4 0 bytesRequest with
        | (_, some err, _) => setHandShakeErr { s with conn := conn1 } err
        | (protocolVersion, none, _) =>
          if protocolVersion ≠ lrpc2Version4 then
            setHandShakeErr (replyNACK { s with conn := conn1 }).1 Err.ErrMsgBadVersion
          else
            match replyACK { s with conn := conn1 } with
            | (s1, some err) => setHandShakeErr s1 err
            | (s1, none) => ({ s1 with inHandShake := false, connected := true }, 1)

/-! ## The wire layout of a payload, in words -/

/-- The entries of a string set on the wire: per entry a 4-byte length and the
bytes. -/
def wireEntries : List GoString → List Byte
  | [] => []
  | s :: ss => littleEndianLayout 4 s.length ++ s ++ wireEntries ss

/-- The entries of a key/value set on the wire: per entry key length, key bytes,
value length, value bytes. -/
def wirePairs : List (GoString × GoString) → List Byte
  | [] => []
  | kv :: kvs =>
    littleEndianLayout 4 kv.1.length ++ kv.1 ++ littleEndianLayout 4 kv.2.length ++ kv.2
      ++ wirePairs kvs

/-- A run of individually tagged `uint32` values. -/
def wireUint32s : List Nat → List Byte
  | [] => []
  | i :: is => (3 : Byte) :: littleEndianLayout 4 i ++ wireUint32s is

/-- One tagged value on the wire: the tag byte and the data. A `[]uint32` is the
run of its elements, each tagged as `uint32`; a value of another type has no
encoding. -/
def wireValue : Value → List Byte
  | Value.bool v => [1, if v then 1 else 0]
  | Value.int32 v => (2 : Byte) :: littleEndianLayout 4 (int32Bits v)
  | Value.uint32 v => (3 : Byte) :: littleEndianLayout 4 v
  | Value.uint32Slice v => wireUint32s v
  | Value.string v => (4 : Byte) :: littleEndianLayout 4 v.length ++ v
  | Value.nil => [4, 0xFF, 0xFF, 0xFF, 0xFF]
  | Value.bytes v => (6 : Byte) :: littleEndianLayout 4 v.length ++ v
  | Value.stringSlice v => (7 : Byte) :: littleEndianLayout 4 v.length ++ wireEntries v
  | Value.stringMap v => (8 : Byte) :: littleEndianLayout 4 v.length ++ wirePairs v
  | Value.other _ => []

/-- The tagged values of a list, in order. -/
def wireValues : List Value → List Byte
  | [] => []
  | v :: vs => wireValue v ++ wireValues vs

/-- A payload on the wire: the message ID in 2 bytes, the tagged values, the end
tag; nothing around it. -/
def wireFormat (cmd : Nat) (vals : List Value) : List Byte :=
  littleEndianLayout 2 cmd ++ wireValues vals ++ [0]

/-- The value kinds of the typed value codec: bool, int32, uint32, string, blob,
string set, key/value set and nil. -/
def Value.IsCodecKind : Value → Prop
  | Value.uint32Slice _ => False
  | Value.other _ => False
  | _ => True

instance (v : Value) : Decidable v.IsCodecKind := by
  cases v <;> unfold Value.IsCodecKind <;> infer_instance

/-- A value whose dynamic type is none of the cases of the type switch in
`encode`. -/
def Value.IsOther : Value → Prop
  | Value.other _ => True
  | _ => False

instance (v : Value) : Decidable v.IsOther := by
  cases v <;> unfold Value.IsOther <;> infer_instance

/-- A value of the codec kinds that fits its Go type and the signed 32-bit length
fields of the wire format: an `int32` or `uint32` in range, every string, blob,
list and map shorter than `2^31`, and the keys of a map pairwise different. -/
def Value.Representable : Value → Prop
  | Value.bool _ => True
  | Value.int32 v => -2147483648 ≤ v ∧ v < 2147483648
  | Value.uint32 v => v < 4294967296
  | Value.uint32Slice _ => False
  | Value.string v => v.length < 2147483648
  | Value.stringSlice v => v.length < 2147483648 ∧ ∀ s ∈ v, s.length < 2147483648
  | Value.nil => True
  | Value.stringMap v => v.length < 2147483648 ∧
      (∀ kv ∈ v, kv.1.length < 2147483648 ∧ kv.2.length < 2147483648) ∧ (v.map Prod.fst).Nodup
  | Value.bytes v => v.length < 2147483648
  | Value.other _ => False

instance (v : Value) : Decidable v.Representable := by
  cases v <;> unfold Value.Representable <;> infer_instance

end Lrpc

/-! # Package `securemessage` (`internal/securemessage/securemessage.go`) -/

namespace Securemessage

/-- Go `string` and `[]byte`: a sequence of bytes. -/
abbrev GoString := List (Fin 256)

def keysize : Nat := 1024
def msgLimit : Nat := 62

/-- The error values the package returns: its own `ErrNoPublicKey`, and the errors
that the calls into `crypto/rsa` and `encoding/base64` return. -/
inductive Err where
  | ErrNoPublicKey
  | library (msg : String)
  deriving DecidableEq, Repr

/-- The struct `rsa.PublicKey`. -/
structure PublicKey where
  N : Nat
  E : Int
  deriving DecidableEq, Repr

/-- The struct `rsa.PrivateKey`, without its precomputed values. -/
structure PrivateKey where
  PublicKey : PublicKey
  D : Nat
  Primes : List Nat
  deriving DecidableEq, Repr

/-- The functions of `crypto/rsa` and `encoding/base64` that the package calls; they
are not part of the repository and are taken as given. `EncryptOAEP` (with
`sha256.New()` and `rand.Reader`) gets the number of the chunk first, since what it
draws from `rand.Reader` differs from call to call; the other arguments are the
public key, the message and the label. `DecryptOAEP` gets the pointer to the private
key (`none` is nil), the ciphertext and the label. `EncodeToString` and
`DecodeString` are those of `base64.StdEncoding`. -/
structure Library where
  EncryptOAEP : Nat → PublicKey → GoString → GoString → Except Err GoString
  DecryptOAEP : Option PrivateKey → GoString → GoString → Except Err GoString
  EncodeToString : GoString → GoString
  DecodeString : GoString → Except Err GoString

/-- The struct `keyInfo`, without its mutex: calls are taken one after the other. -/
structure keyInfo where
  hasKey : Bool
  err : Option Err
  priv : Option PrivateKey
  keyID : Nat
  deriving DecidableEq, Repr

/-- The variable `keyStore` at the start of the process: the zero value. -/
def keyStore0 : keyInfo := { hasKey := false, err := none, priv := none, keyID := 0 }

/-- The function `checkKey`. `generated` is what `rsa.GenerateKey(rand.Reader, keysize)`
returns if it is called, and `int31` what `random.Int31()` returns if it is called.
Result: the key store afterwards and the error (`none` is nil). -/
def checkKey (keyStore : keyInfo) (generated : Except Err PrivateKey) (int31 : Nat) :
    keyInfo × Option Err :=
  match keyStore.err with
  | some e => (keyStore, some e)
  | none =>
    if !keyStore.hasKey then
      match generated with
      | Except.error e => ({ keyStore with err := some e }, some e)
      | Except.ok priv =>
        ({ keyStore with priv := some priv, hasKey := true, keyID := int31 % 4294967296 }, none)
    else (keyStore, none)

/-- What `GetPublicKey` returns: the public key and the key ID, or the error; `panic`
is the nil dereference in `&keyStore.priv.PublicKey`. -/
inductive KeyResult where
  | ok (pubKey : PublicKey) (keyID : Nat)
  | error (err : Err)
  | panic
  deriving DecidableEq, Repr

/-- The function `GetPublicKey`. -/
def GetPublicKey (keyStore : keyInfo) (generated : Except Err PrivateKey) (int31 : Nat) :
    keyInfo × KeyResult :=
  match checkKey keyStore generated int31 with
  | (ks, some err) => (ks, KeyResult.error err)
  | (ks, none) =>
    match ks.priv with
    | none => (ks, KeyResult.panic)
    | some priv => (ks, KeyResult.ok priv.PublicKey ks.keyID)

/-- What `EncryptString` returns: the chunks, or the error with a nil slice; `panic`
is a slice expression `src[index:endIndex]` out of range. -/
inductive EncryptResult where
  | ok (chunks : List GoString)
  | error (err : Err)
  | panic
  deriving DecidableEq, Repr

/-- The loop `for chunk := 0; chunk < chunks; chunk++` of `EncryptString`, with the
number of passes that are left as first argument. -/
def encryptLoop (lib : Library) (pubKey : PublicKey) (src label : GoString) (msglen : Nat) :
    Nat → Nat → Nat → List GoString → EncryptResult
  | 0, _, _, ret => EncryptResult.ok ret
  | n + 1, chunk, index, ret =>
    let endIndex := if index + msgLimit > msglen then msglen else index + msgLimit
    if endIndex < index ∨ src.length < endIndex then EncryptResult.panic
    else
      match lib.EncryptOAEP chunk pubKey ((src.take endIndex).drop index) label with
      | Except.error err => EncryptResult.error err
      | Except.ok cipher =>
        encryptLoop lib pubKey src label msglen n (chunk + 1) endIndex
          (ret.set chunk (lib.EncodeToString cipher))

/-- The function `EncryptString`; `pubKey` is `none` for a nil pointer. The division
is that of Go `int`, which truncates toward zero. -/
def EncryptString (lib : Library) (payload label : GoString) (pubKey : Option PublicKey) :
    EncryptResult :=
  match pubKey with
  | none => EncryptResult.error Err.ErrNoPublicKey
  | some pub =>
    let msglen : Int := payload.length
    let chunks : Int := Int.tdiv (msglen - 1) msgLimit + 1
    let chunks : Int := if chunks < 1 then 1 else chunks
    encryptLoop lib pub payload label payload.length chunks.toNat 0 0
      (List.replicate chunks.toNat [])

/-- The loop `for _, cipherText := range ciphers` of `DecryptString`: the text and the
error. -/
def decryptLoop (lib : Library) (priv : Option PrivateKey) (label : GoString) :
    List GoString → GoString → GoString × Option Err
  | [], ret => (ret, none)
  | cipherText :: rest, ret =>
    match lib.DecodeString cipherText with
    | Except.error err => ([], some err)
    | Except.ok cipher =>
      match lib.DecryptOAEP priv cipher label with
      | Except.error err => ([], some err)
      | Except.ok plain => decryptLoop lib priv label rest (ret ++ plain)

/-- The function `DecryptString`: the key store afterwards, the text and the error. -/
def DecryptString (lib : Library) (keyStore : keyInfo) (generated : Except Err PrivateKey)
    (int31 : Nat) (ciphers : List GoString) (label : GoString) :
    keyInfo × GoString × Option Err :=
  match checkKey keyStore generated int31 with
  | (ks, some err) => (ks, [], some err)
  | (ks, none) =>
    match decryptLoop lib ks.priv label ciphers [] with
    | (text, err) => (ks, text, err)

/-- A stand-in for the libraries in examples: encryption reverses a message of at most
`msgLimit` bytes and refuses a longer one, decryption reverses again when there is a
private key, and the base64 functions leave the bytes as they are. -/
def exampleLibrary : Library :=
  { EncryptOAEP := fun _ _ msg _ =>
      if msg.length ≤ msgLimit then Except.ok msg.reverse
      else Except.error (Err.library "message too long for RSA public key size"),
    DecryptOAEP := fun priv cipher _ =>
      match priv with
      | none => Except.error (Err.library "decryption error")
      | some _ => Except.ok cipher.reverse,
    EncodeToString := fun b => b,
    DecodeString := fun s => Except.ok s }

/-- A private key for examples. -/
def examplePrivateKey : PrivateKey :=
  { PublicKey := { N := 3233, E := 17 }, D := 2753, Primes := [61, 53] }

/-! ## The chunks of a payload, in words -/

/-- The number of chunks of a payload of `L` bytes: `ceil(max(L,1)/62)`. -/
def chunkCount (L : Nat) : Nat := (max L 1 + 61) / 62

/-- Chunk `i` of a payload: the bytes from position `62*i` up to `min(62*(i+1), L)`. -/
def chunkText (payload : GoString) (i : Nat) : GoString :=
  (payload.take (min (62 * (i + 1)) payload.length)).drop (62 * i)

/-- The text that `EncryptString` stores for chunk `i`: the encoding of what
`EncryptOAEP` returns for the bytes of the chunk (the empty text if it fails). -/
def encryptedChunk (lib : Library) (pubKey : PublicKey) (payload label : GoString)
    (i : Nat) : GoString :=
  match lib.EncryptOAEP i pubKey (chunkText payload i) label with
  | Except.ok cipher => lib.EncodeToString cipher
  | Except.error _ => []

end Securemessage

/-! # Package `cversion` (`internal/cversion/cversion.go`) -/

namespace Cversion

/-- Go `string`: a sequence of bytes. -/
abbrev GoString := List (Fin 256)

/-- The struct `Version`; a Go `int` has 64 bits. -/
structure Version where
  Major : Int
  Minor : Int
  BuildNumber : Int
  Debug : Bool
  NotYet : Bool
  deriving DecidableEq, Repr

/-- The fields of a `Version` are values of Go `int`. -/
def Version.InRange (v : Version) : Prop :=
  -9223372036854775808 ≤ v.Major ∧ v.Major < 9223372036854775808 ∧
  -9223372036854775808 ≤ v.Minor ∧ v.Minor < 9223372036854775808 ∧
  -9223372036854775808 ≤ v.BuildNumber ∧ v.BuildNumber < 9223372036854775808

instance (v : Version) : Decidable v.InRange := by
  unfold Version.InRange; infer_instance

/-- The type `ComparisonResult`, an `int`. -/
abbrev ComparisonResult := Int

def Earlier : ComparisonResult := -1
def Equal : ComparisonResult := 0
def Subsequent : ComparisonResult := 1

/-- The method `Compare`. -/
def Version.Compare (version otherVersion : Version) : ComparisonResult :=
  if version.Major < otherVersion.Major then Earlier
  else if version.Major > otherVersion.Major then Subsequent
  else if version.Minor < otherVersion.Minor then Earlier
  else if version.Minor > otherVersion.Minor then Subsequent
  else if version.BuildNumber < otherVersion.BuildNumber then Earlier
  else if version.BuildNumber > otherVersion.BuildNumber then Subsequent
  else Equal

/-! ## Library functions (`fmt`, `strconv`, `strings`, `regexp`)

These are not part of the repository; they are written out here for the inputs that
the package gives them. -/

/-- The digits of `n` in base 10 put before `acc`, most significant first; `fuel`
bounds the number of digits. -/
def formatDigits : Nat → Nat → GoString → GoString
  | 0, _, acc => acc
  | fuel + 1, n, acc =>
    if n < 10 then ⟨48 + n % 10, by omega⟩ :: acc
    else formatDigits fuel (n / 10) (⟨48 + n % 10, by omega⟩ :: acc)

/-- The verb `%d` of `fmt.Sprintf` for an `int`: a minus sign for a negative value,
then the decimal digits without leading zeros. -/
def formatInt (n : Int) : GoString :=
  if n < 0 then 45 :: formatDigits (n.natAbs + 1) n.natAbs []
  else formatDigits (n.natAbs + 1) n.natAbs []

/-- The errors that `Parse` returns: the input does not match, a wrong number of
sub-matches or of build number separators (its own errors), and the two errors of
`strconv.Atoi`. -/
inductive Err where
  | noMatch
  | submatchCount (got : Nat)
  | separatorCount (expected got : Nat)
  | ErrSyntax (s : GoString)
  | ErrRange (s : GoString)
  deriving DecidableEq, Repr

/-- The class `\d`: an ASCII digit. -/
def isDigit (c : Fin 256) : Bool := decide (48 ≤ c.val ∧ c.val ≤ 57)

/-- The value of a sequence of decimal digits. -/
def digitsValue (s : GoString) : Nat :=
  s.foldl (fun v c => 10 * v + (c.val - 48)) 0

/-- The function `strconv.Atoi` on a 64-bit platform: the value and the error. With
a syntax error the value is 0, with a range error it is the nearest `int`. -/
def Atoi (s : GoString) : Int × Option Err :=
  let neg : Bool := s.head? = some 45
  let ds : GoString := if s.head? = some 45 ∨ s.head? = some 43 then s.drop 1 else s
  if ds = [] ∨ ds.all isDigit = false then (0, some (Err.ErrSyntax s))
  else if neg then
    if digitsValue ds > 9223372036854775808 then (-9223372036854775808, some (Err.ErrRange s))
    else (-(digitsValue ds : Int), none)
  else
    if digitsValue ds > 9223372036854775807 then (9223372036854775807, some (Err.ErrRange s))
    else ((digitsValue ds : Int), none)

/-- ASCII lower case of a byte. -/
def lower (c : Fin 256) : Fin 256 :=
  if 65 ≤ c.val ∧ c.val ≤ 90 then ⟨(c.val + 32) % 256, Nat.mod_lt _ (by decide)⟩ else c

/-- One character `l` of a literal of a regular expression under the flag `(?i)`, at
the start of `s`: the text matched and the rest. The letter is matched in either
case; `s` is also matched by the long s (U+017F) and `k` by the Kelvin sign
(U+212A), which fold to them. -/
def matchFoldByte (l : Fin 256) (s : GoString) : Option (GoString × GoString) :=
  match s with
  | [] => none
  | c :: rest =>
    if lower c = lower l then some ([c], rest)
    else if lower l = 115 then
      match s with
      | 0xC5 :: 0xBF :: rest2 => some ([0xC5, 0xBF], rest2)
      | _ => none
    else if lower l = 107 then
      match s with
      | 0xE2 :: 0x84 :: 0xAA :: rest3 => some ([0xE2, 0x84, 0xAA], rest3)
      | _ => none
    else none

/-- The literal `lit` under the flag `(?i)` at the start of `s`: the text matched and
the rest. -/
def matchFold : GoString → GoString → Option (GoString × GoString)
  | [], s => some ([], s)
  | l :: ls, s =>
    match matchFoldByte l s with
    | none => none
    | some (m, r) =>
      match matchFold ls r with
      | none => none
      | some (m2, r2) => some (m ++ m2, r2)

/-- The texts `-Debug`, `-Release` and `-NotYet`. -/
def tagDebug : GoString := [45, 68, 101, 98, 117, 103]
def tagRelease : GoString := [45, 82, 101, 108, 101, 97, 115, 101]
def tagNotYet : GoString := [45, 78, 111, 116, 89, 101, 116]

/-- The call `versionRegex.FindStringSubmatch(s)` for the expression
`(?i)^(\d+)\.(\d+)([\.-])?(\d+)?(-Debug|-Release)?(-NotYet)?`: the whole match and the
six groups, an unmatched group being the empty text, or `none` for nil. Every
quantifier is greedy and everything after the second group is optional, so the first
choice of each part is the one of the match. -/
def FindStringSubmatch (s : GoString) : Option (List GoString) :=
  let major := s.takeWhile isDigit
  if major = [] then none
  else
    match s.dropWhile isDigit with
    | [] => none
    | dot :: r2 =>
      if dot ≠ 46 then none
      else
        let minor := r2.takeWhile isDigit
        if minor = [] then none
        else
          let r3 := r2.dropWhile isDigit
          let sep : GoString := if r3.head? = some 46 ∨ r3.head? = some 45 then r3.take 1 else []
          let r4 := r3.drop sep.length
          let build := r4.takeWhile isDigit
          let r5 := r4.dropWhile isDigit
          let tag : GoString × GoString :=
            match matchFold tagDebug r5 with
            | some m => m
            | none =>
              match matchFold tagRelease r5 with
              | some m => m
              | none => ([], r5)
          let notYet : GoString :=
            match matchFold tagNotYet tag.2 with
            | some m => m.1
            | none => []
          some [major ++ [46] ++ minor ++ sep ++ build ++ tag.1 ++ notYet,
            major, minor, sep, build, tag.1, notYet]

/-- The function `strings.EqualFold` on texts of ASCII characters: equality without
regard to the case of letters. -/
def EqualFold (a b : GoString) : Bool := a.map lower = b.map lower

/-! ## The functions of the package -/

/-- The method `MajorMinorString`. -/
def Version.MajorMinorString (version : Version) : GoString :=
  formatInt version.Major ++ [46] ++ formatInt version.Minor

/-- The method `String`. -/
def Version.String (version : Version) : GoString :=
  formatInt version.Major ++ [46] ++ formatInt version.Minor ++ [46]
    ++ formatInt version.BuildNumber
    ++ (if version.Debug then tagDebug else []) ++ (if version.NotYet then tagNotYet else [])

/-- The function `Parse`: the version and the error (`none` is nil). With an error
the version holds the fields set so far. -/
def Parse (versionStr : GoString) : Version × Option Err :=
  match FindStringSubmatch versionStr with
  | none => (Version.mk 0 0 0 false false, some Err.noMatch)
  | some submatches =>
    if submatches.length ≠ 7 then
      (Version.mk 0 0 0 false false, some (Err.submatchCount submatches.length))
    else
      let buildNumberPresent : Bool := submatches.getD 4 [] ≠ []
      let expectedBuildNumSeparatorCount : Nat := if buildNumberPresent then 1 else 0
      let buildNumSeparatorCount : Nat := (submatches.getD 3 []).length
      if buildNumSeparatorCount ≠ expectedBuildNumSeparatorCount then
        (Version.mk 0 0 0 false false,
          some (Err.separatorCount expectedBuildNumSeparatorCount buildNumSeparatorCount))
      else
        match Atoi (submatches.getD 1 []) with
        | (major, some err) => (Version.mk major 0 0 false false, some err)
        | (major, none) =>
          match Atoi (submatches.getD 2 []) with
          | (minor, some err) => (Version.mk major minor 0 false false, some err)
          | (minor, none) =>
            match (if buildNumberPresent then Atoi (submatches.getD 4 []) else (0, none)) with
            | (build, some err) => (Version.mk major minor build false false, some err)
            | (build, none) =>
              (Version.mk major minor build (EqualFold (submatches.getD 5 []) tagDebug)
                (decide (submatches.getD 6 [] ≠ [])), none)

end Cversion

/-! # Theorems -/

namespace Lrpc

/-! ## Little-endian integers -/

theorem leBytes_length (n v : Nat) : (leBytes n v).length = n := by
  induction n generalizing v with
  | zero => rfl
  | succ n ih => simp [leBytes, ih]

theorem leNat_leBytes (n v : Nat) : leNat (leBytes n v) = v % 256 ^ n := by
  induction n generalizing v with
  | zero => simp [leBytes, leNat, Nat.mod_one]
  | succ n ih =>
    simp only [leBytes, leNat, toByte, ih]
    rw [pow_succ', Nat.mod_mul]

theorem leBytes_eq_layout (n v : Nat) : leBytes n v = littleEndianLayout n v := by
  induction n generalizing v with
  | zero => rfl
  | succ n ih =>
    simp only [leBytes, littleEndianLayout, List.range_succ_eq_map, List.map_cons, List.map_map,
      pow_zero, Nat.div_one, ih]
    congr 1
    apply List.map_congr_left
    intro i _
    simp only [Function.comp, pow_succ, Nat.div_div_eq_div_mul]
    rw [Nat.mul_comm]

theorem binaryReadUint_leBytes (n cur v : Nat) (rest : List Byte) :
    binaryReadUint n cur (leBytes n v ++ rest) = (v % 256 ^ n, none, rest) := by
  have hl := leBytes_length n v
  simp only [binaryReadUint, List.length_append, hl, Nat.le_add_right, if_true,
    List.take_left' hl, List.drop_left' hl, leNat_leBytes]

/-! ## The message header -/

theorem littleEndianLayout_length (n v : Nat) : (littleEndianLayout n v).length = n := by
  simp [littleEndianLayout]

/-- C8: for every header and every buffer, `encodeHeader` returns no error and
appends exactly 34 bytes: magic number (4 bytes), header length (2), version (4),
pid (8), sequence number (4), timestamp (8), payload length (4), in that order,
each least significant byte first; and 34 is `lrpc2HeaderLengthV4`. -/
theorem encodeHeader_layout (h : lrpc2HeaderV4) (buf : List Byte) :
    encodeHeader h buf =
      (none, buf ++ (littleEndianLayout 4 h.magicNum ++ littleEndianLayout 2 h.headerLen ++
        littleEndianLayout 4 h.version ++ littleEndianLayout 8 h.pid ++
        littleEndianLayout 4 h.sequenceNum ++ littleEndianLayout 8 h.timestamp ++
        littleEndianLayout 4 h.msgDataLen)) ∧
    (encodeHeader h buf).2.length = buf.length + 34 ∧
    lrpc2HeaderLengthV4 = 34 := by
  refine ⟨?_, ?_, rfl⟩
  · simp only [encodeHeader, leBytes_eq_layout, List.append_assoc]
  · simp only [encodeHeader, List.length_append, leBytes_length]

theorem decodeHeader_encodeHeader (h h0 : lrpc2HeaderV4) (rest : List Byte) (hr : h.InRange) :
    decodeHeader h0 ((encodeHeader h []).2 ++ rest) = (h, none, rest) := by
  obtain ⟨h1, h2, h3, h4, h5, h6, h7⟩ := hr
  simp only [encodeHeader, List.nil_append, List.append_assoc, decodeHeader,
    binaryReadUint_leBytes]
  cases h
  simp only [lrpc2HeaderV4.mk.injEq, Prod.mk.injEq, and_true] at *
  refine ⟨?_, ?_, ?_, ?_, ?_, ?_, ?_⟩ <;> apply Nat.mod_eq_of_lt <;> omega

theorem binaryReadUint_none {n cur v : Nat} {buf rest : List Byte}
    (h : binaryReadUint n cur buf = (v, none, rest)) :
    n ≤ buf.length ∧ v = leNat (buf.take n) ∧ rest = buf.drop n := by
  unfold binaryReadUint at h
  by_cases hc : n ≤ buf.length
  · simp only [hc, if_true, Prod.mk.injEq, true_and] at h
    exact ⟨hc, h.1.symm, h.2.symm⟩
  · simp [hc] at h

theorem decodeHeader_short (h0 : lrpc2HeaderV4) (buf : List Byte) (hlen : buf.length < 34) :
    ∃ err, (decodeHeader h0 buf).2.1 = some err := by
  simp only [decodeHeader]
  split
  · exact ⟨_, rfl⟩
  next _ b1 e1 =>
  obtain ⟨l1, -, r1⟩ := binaryReadUint_none e1
  split
  · exact ⟨_, rfl⟩
  next _ b2 e2 =>
  obtain ⟨l2, -, r2⟩ := binaryReadUint_none e2
  split
  · exact ⟨_, rfl⟩
  next _ b3 e3 =>
  obtain ⟨l3, -, r3⟩ := binaryReadUint_none e3
  split
  · exact ⟨_, rfl⟩
  next _ b4 e4 =>
  obtain ⟨l4, -, r4⟩ := binaryReadUint_none e4
  split
  · exact ⟨_, rfl⟩
  next _ b5 e5 =>
  obtain ⟨l5, -, r5⟩ := binaryReadUint_none e5
  split
  · exact ⟨_, rfl⟩
  next _ b6 e6 =>
  obtain ⟨l6, -, r6⟩ := binaryReadUint_none e6
  split
  · exact ⟨_, rfl⟩
  next _ b7 e7 =>
  obtain ⟨l7, -, r7⟩ := binaryReadUint_none e7
  subst r1 r2 r3 r4 r5 r6
  simp only [List.length_drop] at l2 l3 l4 l5 l6 l7
  omega

/-- C9: for every header `h` with fields in the ranges of their types,
`decodeHeader` applied (to any receiver) to the bytes that `encodeHeader` produces
for `h` returns no error and leaves a header equal to `h`, consuming exactly those
bytes; and `decodeHeader` applied to any buffer of fewer than 34 bytes returns an
error. -/
theorem decodeHeader_roundtrip (h : lrpc2HeaderV4) (hr : h.InRange) :
    (∀ (h0 : lrpc2HeaderV4) (rest : List Byte),
      decodeHeader h0 ((encodeHeader h []).2 ++ rest) = (h, none, rest)) ∧
    (∀ (h0 : lrpc2HeaderV4) (buf : List Byte), buf.length < 34 →
      ∃ err, (decodeHeader h0 buf).2.1 = some err) :=
  ⟨fun h0 rest => decodeHeader_encodeHeader h h0 rest hr, decodeHeader_short⟩

/-- Witness of C9 at a concrete header. -/
theorem decodeHeader_roundtrip_witness :
    (lrpc2HeaderV4.mk 0xABCD8012 34 4 1234 77 1600000000 3).InRange ∧
    ((∀ (h0 : lrpc2HeaderV4) (rest : List Byte),
      decodeHeader h0 ((encodeHeader (lrpc2HeaderV4.mk 0xABCD8012 34 4 1234 77 1600000000 3) []).2
        ++ rest) = (lrpc2HeaderV4.mk 0xABCD8012 34 4 1234 77 1600000000 3, none, rest)) ∧
    (∀ (h0 : lrpc2HeaderV4) (buf : List Byte), buf.length < 34 →
      ∃ err, (decodeHeader h0 buf).2.1 = some err)) :=
  ⟨by decide, decodeHeader_roundtrip (lrpc2HeaderV4.mk 0xABCD8012 34 4 1234 77 1600000000 3)
    (by decide)⟩

/-- C10: `verifyHeader` returns no error exactly when the magic number is
0xABCD8012, the header length 34, the version 4 and the payload length at most
1048576 (so 1048576 itself is accepted); otherwise it returns the error of the
first failing check in the order magic number, header length, version, payload
length; and the four errors are pairwise distinct. -/
theorem verifyHeader_spec (h : lrpc2HeaderV4) :
    (verifyHeader h = none ↔
      (h.magicNum = 0xABCD8012 ∧ h.headerLen = 34 ∧ h.version = 4 ∧ h.msgDataLen ≤ 1048576)) ∧
    (h.magicNum ≠ 0xABCD8012 → verifyHeader h = some Err.ErrLrpc2BadMagicNum) ∧
    (h.magicNum = 0xABCD8012 → h.headerLen ≠ 34 →
      verifyHeader h = some Err.ErrLrpc2BadHeaderLen) ∧
    (h.magicNum = 0xABCD8012 → h.headerLen = 34 → h.version ≠ 4 →
      verifyHeader h = some Err.ErrLrpc2MsgVerMismatch) ∧
    (h.magicNum = 0xABCD8012 → h.headerLen = 34 → h.version = 4 → 1048576 < h.msgDataLen →
      verifyHeader h = some Err.ErrLrpc2BadMsgLen) ∧
    verifyHeader (lrpc2HeaderV4.mk 0xABCD8012 34 4 h.pid h.sequenceNum h.timestamp 1048576)
      = none ∧
    Err.ErrLrpc2BadMagicNum ≠ Err.ErrLrpc2BadHeaderLen ∧
    Err.ErrLrpc2BadMagicNum ≠ Err.ErrLrpc2MsgVerMismatch ∧
    Err.ErrLrpc2BadMagicNum ≠ Err.ErrLrpc2BadMsgLen ∧
    Err.ErrLrpc2BadHeaderLen ≠ Err.ErrLrpc2MsgVerMismatch ∧
    Err.ErrLrpc2BadHeaderLen ≠ Err.ErrLrpc2BadMsgLen ∧
    Err.ErrLrpc2MsgVerMismatch ≠ Err.ErrLrpc2BadMsgLen := by
  have hM : lrpc2MagicNum = 0xABCD8012 := rfl
  have hL : lrpc2HeaderLengthV4 = 34 := rfl
  have hV : lrpc2Version4 = 4 := rfl
  have hX : lrpc2MaxMsgLen = 1048576 := rfl
  simp only [verifyHeader, hM, hL, hV, hX]
  refine ⟨?_, ?_, ?_, ?_, ?_, ?_, by decide, by decide, by decide, by decide, by decide,
    by decide⟩
  · split_ifs <;> simp_all
  · intro h1; simp [h1]
  · intro h1 h2; simp [h1, h2]
  · intro h1 h2 h3; simp [h1, h2, h3]
  · intro h1 h2 h3 h4; simp [h1, h2, h3, h4]
  · simp

/-! ## `encode` -/

theorem leBytes_four_mod (n : Nat) : leBytes 4 (n % 4294967296) = leBytes 4 n := by
  simp only [leBytes, toByte, List.cons.injEq, Fin.mk.injEq, and_true]
  refine ⟨?_, ?_, ?_, ?_⟩ <;> omega

theorem layout_four_mod (n : Nat) :
    littleEndianLayout 4 (n % 4294967296) = littleEndianLayout 4 n := by
  rw [← leBytes_eq_layout, ← leBytes_eq_layout, leBytes_four_mod]

theorem ite_length_pos (v : List Byte) : (if v.length > 0 then v else []) = v := by
  cases v <;> simp

theorem foldl_wireEntries (v : List GoString) (buf : List Byte) :
    v.foldl (fun b s => b ++ leBytes 4 (s.length % 4294967296) ++ s) buf
      = buf ++ wireEntries v := by
  induction v generalizing buf with
  | nil => simp [wireEntries]
  | cons s ss ih =>
    rw [List.foldl_cons, ih]
    simp only [wireEntries, leBytes_four_mod, leBytes_eq_layout, layout_four_mod, List.append_assoc]

theorem foldl_wirePairs (v : List (GoString × GoString)) (buf : List Byte) :
    v.foldl (fun b kv => b ++ leBytes 4 (kv.1.length % 4294967296) ++ kv.1
        ++ leBytes 4 (kv.2.length % 4294967296) ++ kv.2) buf
      = buf ++ wirePairs v := by
  induction v generalizing buf with
  | nil => simp [wirePairs]
  | cons s ss ih =>
    rw [List.foldl_cons, ih]
    simp only [wirePairs, leBytes_four_mod, leBytes_eq_layout, layout_four_mod, List.append_assoc]

theorem foldl_wireUint32s (v : List Nat) (buf : List Byte) :
    v.foldl (fun b i => b ++ [msgDataTypeUint32] ++ leBytes 4 i) buf
      = buf ++ wireUint32s v := by
  induction v generalizing buf with
  | nil => simp [wireUint32s]
  | cons s ss ih =>
    rw [List.foldl_cons, ih]
    simp only [wireUint32s, leBytes_eq_layout, List.append_assoc,
      msgDataTypeUint32, List.singleton_append, List.cons_append, List.nil_append]

theorem int32Bits_neg_one : leBytes 4 (int32Bits (-1)) = [0xFF, 0xFF, 0xFF, 0xFF] := by
  decide

/-- The loop of `encode` appends the wire layout of the values, as long as no value
is of a type outside the type switch. -/
theorem encodeArgs_eq_wire (vals : List Value) (buf : List Byte)
    (h : ∀ v ∈ vals, ¬ v.IsOther) :
    encodeArgs buf vals = Except.ok (buf ++ wireValues vals) := by
  induction vals generalizing buf with
  | nil => simp [encodeArgs, wireValues]
  | cons v vs ih =>
    have hvs : ∀ w ∈ vs, ¬ w.IsOther := fun w hw => h w (List.mem_cons_of_mem _ hw)
    have hv : ¬ v.IsOther := h v (List.mem_cons_self _ _)
    cases v with
    | other t => exact absurd trivial hv
    | bool b =>
      cases b <;>
        simp [encodeArgs, ih _ hvs, wireValues, wireValue, msgDataTypeBool]
    | int32 i =>
      simp [encodeArgs, ih _ hvs, wireValues, wireValue, msgDataTypeInt32, leBytes_eq_layout]
    | uint32 i =>
      simp [encodeArgs, ih _ hvs, wireValues, wireValue, msgDataTypeUint32, leBytes_eq_layout]
    | uint32Slice l =>
      rw [encodeArgs, foldl_wireUint32s, ih _ hvs]
      simp [wireValues, wireValue]
    | string x =>
      rw [encodeArgs, ih _ hvs]
      simp [wireValues, wireValue, msgDataTypeString, leBytes_four_mod, leBytes_eq_layout, layout_four_mod,
        ite_length_pos]
    | stringSlice l =>
      rw [encodeArgs, foldl_wireEntries, ih _ hvs]
      simp [wireValues, wireValue, msgDataTypeStringSet, leBytes_four_mod, leBytes_eq_layout, layout_four_mod]
    | nil =>
      rw [encodeArgs, ih _ hvs, int32Bits_neg_one]
      simp [wireValues, wireValue, msgDataTypeString]
    | stringMap l =>
      rw [encodeArgs, foldl_wirePairs, ih _ hvs]
      simp [wireValues, wireValue, msgDataTypeKeyValueSet, leBytes_four_mod, leBytes_eq_layout, layout_four_mod]
    | bytes x =>
      rw [encodeArgs, ih _ hvs]
      simp [wireValues, wireValue, msgDataTypeBlob, leBytes_four_mod, leBytes_eq_layout, layout_four_mod,
        ite_length_pos]

theorem encode_eq_wire (cmd : Nat) (vals : List Value) (h : ∀ v ∈ vals, ¬ v.IsOther) :
    encode cmd vals = Except.ok (wireFormat cmd vals) := by
  simp only [encode, encodeArgs_eq_wire vals _ h, wireFormat, leBytes_eq_layout, msgEnd]

theorem not_isOther_of_isCodecKind {v : Value} (h : v.IsCodecKind) : ¬ v.IsOther := by
  cases v <;> simp_all [Value.IsCodecKind, Value.IsOther]

/-- C7: for every message ID and every list of values of the codec kinds, `encode`
succeeds and returns exactly the wire layout of the claim: the ID in 2 bytes
little-endian, then per value its tag byte and data (bool: tag 1, one byte 0 or 1;
int32: tag 2, 4 bytes; uint32: tag 3, 4 bytes; string: tag 4, 4-byte length, bytes;
nil: tag 4 and FF FF FF FF; blob: tag 6, length, bytes; string set: tag 7, count,
per entry length and bytes; map: tag 8, count, per entry key length, key, value
length, value), then the end tag 0, with nothing around the payload; the empty
list encodes to exactly 3 bytes. -/
theorem encode_wireFormat (cmd : Nat) (vals : List Value) (h : ∀ v ∈ vals, v.IsCodecKind) :
    encode cmd vals = Except.ok (wireFormat cmd vals) ∧
    encode cmd [] = Except.ok (littleEndianLayout 2 cmd ++ [0]) ∧
    (littleEndianLayout 2 cmd ++ [(0 : Byte)]).length = 3 := by
  refine ⟨encode_eq_wire cmd vals (fun v hv => not_isOther_of_isCodecKind (h v hv)), ?_, ?_⟩
  · rw [encode_eq_wire cmd [] (by simp)]
    simp [wireFormat, wireValues]
  · simp [littleEndianLayout_length]

/-- Witness of C7: the request of the echo test. -/
theorem encode_wireFormat_witness :
    (∀ v ∈ [Value.uint32 12345, Value.bool true, Value.string [116, 101], Value.int32 (-3456)],
      v.IsCodecKind) ∧
    encode 100 [Value.uint32 12345, Value.bool true, Value.string [116, 101], Value.int32 (-3456)]
      = Except.ok (wireFormat 100
        [Value.uint32 12345, Value.bool true, Value.string [116, 101], Value.int32 (-3456)]) :=
  ⟨by decide, (encode_wireFormat 100 _ (by decide)).1⟩

theorem encodeArgs_other (args : List Value) (buf : List Byte)
    (h : ∃ v ∈ args, v.IsOther) :
    encodeArgs buf args = Except.error Err.ErrLrpc2TypeNotSupported := by
  induction args generalizing buf with
  | nil => simp at h
  | cons v vs ih =>
    cases v with
    | other t => simp [encodeArgs]
    | _ =>
      simp only [encodeArgs]
      apply ih
      obtain ⟨w, hw, ho⟩ := h
      rcases List.mem_cons.mp hw with rfl | hw
      · exact absurd ho (by simp [Value.IsOther])
      · exact ⟨w, hw, ho⟩

theorem encode_other (cmd : Nat) (args : List Value) (h : ∃ v ∈ args, v.IsOther) :
    encode cmd args = Except.error Err.ErrLrpc2TypeNotSupported := by
  simp only [encode, encodeArgs_other args _ h]

/-! ## `decode`: the loop, tag by tag -/

theorem binaryReadByte_cons (cur : Byte) (t : Byte) (rest : List Byte) :
    binaryReadByte cur (t :: rest) = (t, none, rest) := rfl

theorem decodeLoop_bool (f cmd : Nat) (ret : List Value) (b : Byte) (rest : List Byte) :
    decodeLoop (f + 1) cmd ret (1 :: b :: rest) = decodeLoop f cmd (ret ++ [Value.bool (b != 0)]) rest := by
  rw [decodeLoop]
  simp [binaryReadByte_cons, msgDataTypeBool]

theorem decodeLoop_str (f cmd : Nat) (ret : List Value) (rest : List Byte) :
    decodeLoop (f + 1) cmd ret (4 :: rest) = 
        match msgReadString2ByteBuffer rest with
        | ReadString.panic => DecodeResult.panic
        | ReadString.error err => DecodeResult.error err
        | ReadString.value (some sbuf) buf2 => decodeLoop f cmd (ret ++ [Value.string sbuf]) buf2
        | ReadString.value none buf2 => decodeLoop f cmd (ret ++ [Value.nil]) buf2 := by
  rw [decodeLoop]
  simp [binaryReadByte_cons, msgDataTypeBool, msgDataTypeInt32, msgDataTypeUint32, msgDataTypeString]

theorem decodeLoop_end (f cmd : Nat) (ret : List Value) (rest : List Byte) :
    decodeLoop (f + 1) cmd ret (0 :: rest) = DecodeResult.ok cmd ret := by
  rw [decodeLoop]
  simp [binaryReadByte_cons, msgDataTypeBool, msgDataTypeInt32, msgDataTypeUint32, msgDataTypeString, msgDataTypeBlob, msgDataTypeStringSet, msgDataTypeKeyValueSet, msgEnd]

theorem decodeLoop_unknown (f cmd : Nat) (ret : List Value) (t : Byte) (rest : List Byte)
   (h : t ≠ 0 ∧ t ≠ 1 ∧ t ≠ 2 ∧ t ≠ 3 ∧ t ≠ 4 ∧ t ≠ 6 ∧ t ≠ 7 ∧ t ≠ 8) :
    decodeLoop (f + 1) cmd ret (t :: rest) = DecodeResult.error Err.ErrMsgIncorrectType := by
  rw [decodeLoop]
  obtain ⟨h0, h1, h2, h3, h4, h6, h7, h8⟩ := h
  simp [binaryReadByte_cons, msgDataTypeBool, msgDataTypeInt32, msgDataTypeUint32, msgDataTypeString, msgDataTypeBlob, msgDataTypeStringSet, msgDataTypeKeyValueSet, msgEnd, h0, h1, h2, h3, h4, h6, h7, h8]

/-! ## `decode` on the wire layout -/


theorem asInt32_of_lt {n : Nat} (h : n < 2147483648) : asInt32 n = (n : Int) := by
  unfold asInt32
  have : n % 4294967296 = n := Nat.mod_eq_of_lt (by omega)
  simp [this, h]

theorem asInt32_int32Bits {v : Int} (h1 : -2147483648 ≤ v) (h2 : v < 2147483648) :
    asInt32 (int32Bits v) = v := by
  unfold asInt32 int32Bits
  split_ifs <;> omega

theorem asInt32_mod (u : Nat) : asInt32 (u % 256 ^ 4) = asInt32 u := by
  unfold asInt32
  have : u % 256 ^ 4 % 4294967296 = u % 4294967296 := by omega
  rw [this]

theorem binaryReadInt32_layout (cur : Int) (u : Nat) (rest : List Byte) :
    binaryReadInt32 cur (littleEndianLayout 4 u ++ rest) = (asInt32 u, none, rest) := by
  have hl := leBytes_length 4 u
  rw [← leBytes_eq_layout]
  simp only [binaryReadInt32, List.length_append, hl, Nat.le_add_right, if_true,
    List.take_left' hl, List.drop_left' hl, leNat_leBytes, asInt32_mod]

theorem binaryReadUint_layout (n cur v : Nat) (rest : List Byte) :
    binaryReadUint n cur (littleEndianLayout n v ++ rest) = (v % 256 ^ n, none, rest) := by
  rw [← leBytes_eq_layout, binaryReadUint_leBytes]

theorem bufferNext_append (s rest : List Byte) :
    bufferNext (s.length : Int) (s ++ rest) = some (s, rest) := by
  simp [bufferNext]

theorem msgReadString_wire (s rest : List Byte) (h : s.length < 2147483648) :
    msgReadString2ByteBuffer (littleEndianLayout 4 s.length ++ (s ++ rest))
      = ReadString.value (some s) rest := by
  simp only [msgReadString2ByteBuffer, binaryReadInt32_layout, asInt32_of_lt h]
  have h1 : ((s.length : Nat) : Int) ≠ -1 := by omega
  have h2 : ¬ ((s.length : Nat) : Int) < 0 := by omega
  simp only [h1, h2, if_false, Int.toNat_ofNat]
  by_cases he : (s ++ rest).isEmpty
  · simp only [he, if_true]
    simp only [List.isEmpty_iff, List.append_eq_nil] at he
    simp [he.1, he.2]
  · simp [he]

theorem msgReadString_nil (rest : List Byte) :
    msgReadString2ByteBuffer ((0xFF : Byte) :: 0xFF :: 0xFF :: 0xFF :: rest)
      = ReadString.value none rest := by
  have : ((0xFF : Byte) :: 0xFF :: 0xFF :: 0xFF :: rest) = littleEndianLayout 4 4294967295 ++ rest := by
    rw [← leBytes_eq_layout]; rfl
  rw [this]
  simp only [msgReadString2ByteBuffer, binaryReadInt32_layout]
  have : asInt32 4294967295 = -1 := by decide
  simp [this]

theorem readStringSet_wire (ss : List GoString) (rest : List Byte)
    (h : ∀ s ∈ ss, s.length < 2147483648) :
    readStringSet ss.length (wireEntries ss ++ rest) = some (ss, rest) := by
  induction ss with
  | nil => simp [readStringSet, wireEntries]
  | cons s ss ih =>
    have hs : s.length < 2147483648 := h s (List.mem_cons_self _ _)
    have hss : ∀ x ∈ ss, x.length < 2147483648 := fun x hx => h x (List.mem_cons_of_mem _ hx)
    simp only [List.length_cons, readStringSet, wireEntries, List.append_assoc,
      binaryReadInt32_layout, asInt32_of_lt hs, bufferNext_append, ih hss]

theorem mapSet_new (acc : List (GoString × GoString)) (k v : GoString)
    (h : k ∉ acc.map Prod.fst) : mapSet acc k v = acc ++ [(k, v)] := by
  induction acc with
  | nil => rfl
  | cons a acc ih =>
    obtain ⟨k1, v1⟩ := a
    simp only [List.map_cons, List.mem_cons, not_or] at h
    have hne : ¬ k1 = k := fun e => h.1 e.symm
    simp only [mapSet, hne, if_false, ih h.2, List.cons_append]

theorem readKeyValueSet_wire (kvs acc : List (GoString × GoString)) (rest : List Byte)
    (h : ∀ kv ∈ kvs, kv.1.length < 2147483648 ∧ kv.2.length < 2147483648)
    (hn : ((acc ++ kvs).map Prod.fst).Nodup) :
    readKeyValueSet kvs.length acc (wirePairs kvs ++ rest) = some (acc ++ kvs, rest) := by
  induction kvs generalizing acc with
  | nil => simp [readKeyValueSet, wirePairs]
  | cons kv kvs ih =>
    have hkv := h kv (List.mem_cons_self _ _)
    have hkvs : ∀ x ∈ kvs, x.1.length < 2147483648 ∧ x.2.length < 2147483648 :=
      fun x hx => h x (List.mem_cons_of_mem _ hx)
    have hnew : kv.1 ∉ acc.map Prod.fst := by
      intro hmem
      simp only [List.map_append, List.map_cons] at hn
      have := (List.nodup_append.mp hn).2.2
      exact this hmem (List.mem_cons_self _ _)
    have hn2 : (((acc ++ [kv]) ++ kvs).map Prod.fst).Nodup := by
      simpa using hn
    simp only [List.length_cons, readKeyValueSet, wirePairs, List.append_assoc,
      binaryReadInt32_layout, asInt32_of_lt hkv.1, asInt32_of_lt hkv.2, bufferNext_append,
      mapSet_new acc kv.1 kv.2 hnew]
    rw [ih (acc ++ [kv]) hkvs hn2]
    simp

theorem decodeLoop_nil (f cmd : Nat) (ret : List Value) :
    decodeLoop (f + 1) cmd ret [] = DecodeResult.error (Err.readMsgType cmd Err.EOF) := by
  rw [decodeLoop]; rfl

theorem decodeLoop_int32 (f cmd : Nat) (ret : List Value) (rest : List Byte) :
    decodeLoop (f + 1) cmd ret (2 :: rest) =
      decodeLoop f cmd (ret ++ [Value.int32 (binaryReadInt32 0 rest).1])
        (binaryReadInt32 0 rest).2.2 := by
  rw [decodeLoop]
  simp [binaryReadByte_cons, msgDataTypeBool, msgDataTypeInt32]

theorem decodeLoop_uint32 (f cmd : Nat) (ret : List Value) (rest : List Byte) :
    decodeLoop (f + 1) cmd ret (3 :: rest) =
      decodeLoop f cmd (ret ++ [Value.uint32 (binaryReadUint 4 0 rest).1])
        (binaryReadUint 4 0 rest).2.2 := by
  rw [decodeLoop]
  simp [binaryReadByte_cons, msgDataTypeBool, msgDataTypeInt32, msgDataTypeUint32]

theorem decodeLoop_blob (f cmd : Nat) (ret : List Value) (rest : List Byte) :
    decodeLoop (f + 1) cmd ret (6 :: rest) =
      match msgReadString2ByteBuffer rest with
      | ReadString.panic => DecodeResult.panic
      | ReadString.error err => DecodeResult.error err
      | ReadString.value sbuf buf2 => decodeLoop f cmd (ret ++ [Value.bytes (sbuf.getD [])]) buf2 := by
  rw [decodeLoop]
  simp [binaryReadByte_cons, msgDataTypeBool, msgDataTypeInt32, msgDataTypeUint32,
    msgDataTypeString, msgDataTypeBlob]

theorem decodeLoop_stringSet (f cmd : Nat) (ret : List Value) (rest : List Byte) :
    decodeLoop (f + 1) cmd ret (7 :: rest) =
      match readStringSet (binaryReadUint 4 0 rest).1 (binaryReadUint 4 0 rest).2.2 with
      | none => DecodeResult.panic
      | some (sset, buf3) => decodeLoop f cmd (ret ++ [Value.stringSlice sset]) buf3 := by
  rw [decodeLoop]
  simp [binaryReadByte_cons, msgDataTypeBool, msgDataTypeInt32, msgDataTypeUint32,
    msgDataTypeString, msgDataTypeBlob, msgDataTypeStringSet]

theorem decodeLoop_keyValueSet (f cmd : Nat) (ret : List Value) (rest : List Byte) :
    decodeLoop (f + 1) cmd ret (8 :: rest) =
      match readKeyValueSet (binaryReadUint 4 0 rest).1 [] (binaryReadUint 4 0 rest).2.2 with
      | none => DecodeResult.panic
      | some (kvs, buf3) => decodeLoop f cmd (ret ++ [Value.stringMap kvs]) buf3 := by
  rw [decodeLoop]
  simp [binaryReadByte_cons, msgDataTypeBool, msgDataTypeInt32, msgDataTypeUint32,
    msgDataTypeString, msgDataTypeBlob, msgDataTypeStringSet, msgDataTypeKeyValueSet]

/-- One iteration of the loop of `decode` on the wire layout of a representable
value appends exactly that value. -/
theorem decodeLoop_wireValue (f cmd : Nat) (ret : List Value) (v : Value) (rest : List Byte)
    (hv : v.Representable) :
    decodeLoop (f + 1) cmd ret (wireValue v ++ rest) = decodeLoop f cmd (ret ++ [v]) rest := by
  cases v with
  | other t => exact absurd hv (by simp [Value.Representable])
  | uint32Slice l => exact absurd hv (by simp [Value.Representable])
  | bool b =>
    cases b <;> simp [wireValue, decodeLoop_bool]
  | int32 i =>
    obtain ⟨h1, h2⟩ := hv
    simp only [wireValue, List.cons_append, decodeLoop_int32, binaryReadInt32_layout,
      asInt32_int32Bits h1 h2]
  | uint32 i =>
    have hi : i % 256 ^ 4 = i := Nat.mod_eq_of_lt (by simpa [Value.Representable] using hv)
    simp only [wireValue, List.cons_append, decodeLoop_uint32, binaryReadUint_layout, hi]
  | string s =>
    have hs : s.length < 2147483648 := hv
    simp only [wireValue, List.cons_append, List.append_assoc, decodeLoop_str,
      msgReadString_wire s rest hs]
  | nil =>
    simp only [wireValue, List.cons_append, List.nil_append, decodeLoop_str, msgReadString_nil]
  | bytes s =>
    have hs : s.length < 2147483648 := hv
    simp only [wireValue, List.cons_append, List.append_assoc, decodeLoop_blob,
      msgReadString_wire s rest hs, Option.getD_some]
  | stringSlice l =>
    obtain ⟨h1, h2⟩ := hv
    have hl : l.length % 256 ^ 4 = l.length := Nat.mod_eq_of_lt (by omega)
    simp only [wireValue, List.cons_append, List.append_assoc, decodeLoop_stringSet,
      binaryReadUint_layout, hl, readStringSet_wire l rest h2]
  | stringMap l =>
    obtain ⟨h1, h2, h3⟩ := hv
    have hl : l.length % 256 ^ 4 = l.length := Nat.mod_eq_of_lt (by omega)
    simp only [wireValue, List.cons_append, List.append_assoc, decodeLoop_keyValueSet,
      binaryReadUint_layout, hl, readKeyValueSet_wire l [] rest h2 (by simpa using h3),
      List.nil_append]

theorem decodeLoop_wireValues (vals : List Value) (f cmd : Nat) (ret : List Value)
    (rest : List Byte) (h : ∀ v ∈ vals, v.Representable) :
    decodeLoop (vals.length + f) cmd ret (wireValues vals ++ rest)
      = decodeLoop f cmd (ret ++ vals) rest := by
  induction vals generalizing ret with
  | nil => simp [wireValues]
  | cons v vs ih =>
    have hv := h v (List.mem_cons_self _ _)
    have hvs : ∀ w ∈ vs, w.Representable := fun w hw => h w (List.mem_cons_of_mem _ hw)
    have e : (v :: vs).length + f = (vs.length + f) + 1 := by simp; omega
    rw [e, wireValues, List.append_assoc, decodeLoop_wireValue _ _ _ _ _ hv, ih _ hvs]
    simp

theorem wireValue_length_pos (v : Value) (hv : v.Representable) : 1 ≤ (wireValue v).length := by
  cases v <;> simp_all [wireValue, Value.Representable]

theorem wireValues_length_ge (vals : List Value) (h : ∀ v ∈ vals, v.Representable) :
    vals.length ≤ (wireValues vals).length := by
  induction vals with
  | nil => simp
  | cons v vs ih =>
    have hv := wireValue_length_pos v (h v (List.mem_cons_self _ _))
    have hvs := ih (fun w hw => h w (List.mem_cons_of_mem _ hw))
    simp only [wireValues, List.length_cons, List.length_append]
    omega

/-- `decode` started on a payload that begins with the ID and the wire layout of
representable values continues its loop behind them with those values read. -/
theorem decode_wireValues (cmd : Nat) (vals : List Value) (rest : List Byte)
    (hcmd : cmd < 65536) (h : ∀ v ∈ vals, v.Representable) :
    decode (littleEndianLayout 2 cmd ++ (wireValues vals ++ rest))
      = decodeLoop (rest.length + 1 + ((wireValues vals).length - vals.length)) cmd vals rest := by
  have hc : cmd % 256 ^ 2 = cmd := Nat.mod_eq_of_lt (by omega)
  have hge := wireValues_length_ge vals h
  simp only [decode, binaryReadUint_layout, hc]
  have e : (wireValues vals ++ rest).length + 1
      = vals.length + (rest.length + 1 + ((wireValues vals).length - vals.length)) := by
    simp only [List.length_append]; omega
  rw [e, decodeLoop_wireValues vals _ _ _ _ h]
  simp

theorem decode_wireFormat (cmd : Nat) (vals : List Value)
    (hcmd : cmd < 65536) (h : ∀ v ∈ vals, v.Representable) :
    decode (wireFormat cmd vals) = DecodeResult.ok cmd vals := by
  simp only [wireFormat, List.append_assoc]
  rw [decode_wireValues cmd vals _ hcmd h]
  simp only [List.length_singleton]
  rw [show 1 + 1 + ((wireValues vals).length - vals.length)
    = (1 + ((wireValues vals).length - vals.length)) + 1 by omega, decodeLoop_end]

/-! ## `decode` always returns or panics -/

theorem binaryReadByte_rest_le (cur : Byte) (buf : List Byte) :
    (binaryReadByte cur buf).2.2.length ≤ buf.length := by
  cases buf <;> simp [binaryReadByte]

theorem binaryReadUint_rest_le (n cur : Nat) (buf : List Byte) :
    (binaryReadUint n cur buf).2.2.length ≤ buf.length := by
  unfold binaryReadUint
  split_ifs <;> simp

theorem binaryReadInt32_rest_le (cur : Int) (buf : List Byte) :
    (binaryReadInt32 cur buf).2.2.length ≤ buf.length := by
  unfold binaryReadInt32
  split_ifs <;> simp

theorem bufferNext_rest_le {n : Int} {buf s r : List Byte} (h : bufferNext n buf = some (s, r)) :
    r.length ≤ buf.length := by
  unfold bufferNext at h
  split_ifs at h
  simp only [Option.some.injEq, Prod.mk.injEq] at h
  rw [← h.2]
  simp

theorem msgReadString_rest_le {buf r : List Byte} {sb : Option (List Byte)}
    (h : msgReadString2ByteBuffer buf = ReadString.value sb r) : r.length ≤ buf.length := by
  have hle := binaryReadInt32_rest_le 0 buf
  unfold msgReadString2ByteBuffer at h
  generalize binaryReadInt32 0 buf = x at h hle
  obtain ⟨l, e, b1⟩ := x
  simp only at h hle
  split_ifs at h <;> simp only [ReadString.value.injEq, reduceCtorEq] at h
  · rw [← h.2]; exact hle
  · rw [← h.2]; exact hle
  · rw [← h.2]; simp only [List.length_drop]; omega

theorem readStringSet_rest_le (n : Nat) (buf r : List Byte) (ss : List GoString)
    (h : readStringSet n buf = some (ss, r)) : r.length ≤ buf.length := by
  induction n generalizing buf ss with
  | zero =>
    simp only [readStringSet, Option.some.injEq, Prod.mk.injEq] at h
    rw [← h.2]
  | succ n ih =>
    have hle := binaryReadInt32_rest_le 0 buf
    simp only [readStringSet] at h
    generalize binaryReadInt32 0 buf = x at h hle
    obtain ⟨l, e, b1⟩ := x
    simp only at h hle
    cases hb : bufferNext l b1 with
    | none => simp [hb] at h
    | some sb =>
      obtain ⟨s, b2⟩ := sb
      have h2 := bufferNext_rest_le hb
      simp only [hb] at h
      cases hr : readStringSet n b2 with
      | none => simp [hr] at h
      | some y =>
        obtain ⟨ss2, b3⟩ := y
        simp only [hr, Option.some.injEq, Prod.mk.injEq] at h
        obtain ⟨-, rfl⟩ := h
        have h3 := ih b2 ss2 hr
        omega

theorem readKeyValueSet_rest_le (n : Nat) (buf r : List Byte)
    (acc kvs : List (GoString × GoString))
    (h : readKeyValueSet n acc buf = some (kvs, r)) : r.length ≤ buf.length := by
  induction n generalizing buf acc with
  | zero =>
    simp only [readKeyValueSet, Option.some.injEq, Prod.mk.injEq] at h
    rw [← h.2]
  | succ n ih =>
    have hle := binaryReadInt32_rest_le 0 buf
    simp only [readKeyValueSet] at h
    generalize binaryReadInt32 0 buf = x at h hle
    obtain ⟨l, e, b1⟩ := x
    simp only at h hle
    cases hb : bufferNext l b1 with
    | none => simp [hb] at h
    | some sb =>
      obtain ⟨s, b2⟩ := sb
      have h2 := bufferNext_rest_le hb
      simp only [hb] at h
      have hle2 := binaryReadInt32_rest_le l b2
      generalize binaryReadInt32 l b2 = x2 at h hle2
      obtain ⟨l2, e2, b3⟩ := x2
      simp only at h hle2
      cases hb2 : bufferNext l2 b3 with
      | none => simp [hb2] at h
      | some sb2 =>
        obtain ⟨s2, b4⟩ := sb2
        have h4 := bufferNext_rest_le hb2
        simp only [hb2] at h
        have h5 := ih b4 _ h
        omega

/-- The loop of `decode` ends within one more iteration than there are unread
bytes: with that budget the loop model never runs out of fuel. -/
theorem decodeLoop_total (fuel cmd : Nat) (ret : List Value) (buf : List Byte)
    (h : buf.length < fuel) : decodeLoop fuel cmd ret buf ≠ DecodeResult.outOfFuel := by
  induction fuel generalizing ret buf with
  | zero => omega
  | succ f ih =>
    cases buf with
    | nil => rw [decodeLoop_nil]; simp
    | cons t rest =>
      simp only [List.length_cons] at h
      have hr : rest.length < f := by omega
      rw [decodeLoop]
      simp only [binaryReadByte_cons]
      split_ifs
      · exact ih _ _ (Nat.lt_of_le_of_lt (binaryReadByte_rest_le 0 rest) hr)
      · exact ih _ _ (Nat.lt_of_le_of_lt (binaryReadInt32_rest_le 0 rest) hr)
      · exact ih _ _ (Nat.lt_of_le_of_lt (binaryReadUint_rest_le 4 0 rest) hr)
      · split
        · simp
        · simp
        · next sbuf b2 hm => exact ih _ _ (by have := msgReadString_rest_le hm; omega)
        · next b2 hm => exact ih _ _ (by have := msgReadString_rest_le hm; omega)
      · split
        · simp
        · simp
        · next sbuf b2 hm => exact ih _ _ (by have := msgReadString_rest_le hm; omega)
      · split
        · simp
        · next sset b3 hm =>
          exact ih _ _ (Nat.lt_of_le_of_lt (Nat.le_trans (readStringSet_rest_le _ _ _ _ hm)
            (binaryReadUint_rest_le 4 0 rest)) hr)
      · split
        · simp
        · next kvs b3 hm =>
          exact ih _ _ (Nat.lt_of_le_of_lt (Nat.le_trans (readKeyValueSet_rest_le _ _ _ _ _ hm)
            (binaryReadUint_rest_le 4 0 rest)) hr)
      · simp
      · simp

/-- The function `decode` returns or panics on every buffer. -/
theorem decode_total (buf : List Byte) : decode buf ≠ DecodeResult.outOfFuel := by
  unfold decode
  split
  · simp
  · exact decodeLoop_total _ _ _ _ (by omega)

/-! ## `decode` on a message that is cut short -/

theorem binaryReadInt32_short (cur : Int) (buf : List Byte) (h : buf.length < 4) :
    binaryReadInt32 cur buf
      = (cur, some (if buf.isEmpty then Err.EOF else Err.ErrUnexpectedEOF), []) := by
  have : ¬ 4 ≤ buf.length := by omega
  simp [binaryReadInt32, this]

theorem binaryReadUint_short (n cur : Nat) (buf : List Byte) (h : buf.length < n) :
    binaryReadUint n cur buf
      = (cur, some (if buf.isEmpty then Err.EOF else Err.ErrUnexpectedEOF), []) := by
  have : ¬ n ≤ buf.length := by omega
  simp [binaryReadUint, this]

theorem take_layout_append (j x : Nat) (B : List Byte) (h : 4 ≤ j) :
    (littleEndianLayout 4 x ++ B).take j = littleEndianLayout 4 x ++ B.take (j - 4) := by
  rw [List.take_append_eq_append_take, littleEndianLayout_length,
    List.take_of_length_le (by rw [littleEndianLayout_length]; exact h)]

theorem take_layout_short (j x : Nat) (B : List Byte) (h : j < 4) :
    ((littleEndianLayout 4 x ++ B).take j).length < 4 := by
  rw [List.length_take]
  omega

theorem bufferNext_nat (n : Nat) (B : List Byte) :
    bufferNext (n : Int) B = some (B.take n, B.drop n) := by
  have h : ¬ ((n : Int) < 0) := by omega
  simp only [bufferNext, h, if_false, Int.toNat_ofNat]
  by_cases hc : n ≤ B.length
  · rw [Nat.min_eq_left hc]
  · have hc2 : B.length ≤ n := by omega
    rw [Nat.min_eq_right hc2, List.take_of_length_le hc2, List.take_of_length_le (le_refl _),
      List.drop_eq_nil_of_le hc2, List.drop_eq_nil_of_le (le_refl _)]

theorem binaryReadInt32_nil (cur : Int) :
    binaryReadInt32 cur [] = (cur, some Err.EOF, []) := rfl

theorem bufferNext_nil (n : Nat) : bufferNext (n : Int) [] = some ([], []) := by
  rw [bufferNext_nat]; simp

theorem bufferNext_zero (B : List Byte) : bufferNext 0 B = some ([], B) := by
  rw [show (0 : Int) = ((0 : Nat) : Int) from rfl, bufferNext_nat]; simp

theorem readStringSet_empty (n : Nat) : ∃ ss, readStringSet n [] = some (ss, []) := by
  induction n with
  | zero => exact ⟨[], rfl⟩
  | succ n ih =>
    obtain ⟨ss, hss⟩ := ih
    simp only [readStringSet, binaryReadInt32_nil, bufferNext_zero, hss]
    exact ⟨_, rfl⟩

theorem readKeyValueSet_empty (n : Nat) (acc : List (GoString × GoString)) :
    ∃ kvs, readKeyValueSet n acc [] = some (kvs, []) := by
  induction n generalizing acc with
  | zero => exact ⟨acc, rfl⟩
  | succ n ih =>
    obtain ⟨kvs, hk⟩ := ih (mapSet acc [] [])
    simp only [readKeyValueSet, binaryReadInt32_nil, bufferNext_zero, hk]
    exact ⟨_, rfl⟩

/-- The string set loop on entries that are cut short reads to the end of the
buffer and does not panic. -/
theorem readStringSet_take (ss : List GoString) (j : Nat)
    (h : ∀ s ∈ ss, s.length < 2147483648) :
    ∃ ss2, readStringSet ss.length ((wireEntries ss).take j) = some (ss2, []) := by
  induction ss generalizing j with
  | nil => exact ⟨[], by simp [readStringSet, wireEntries]⟩
  | cons s ss ih =>
    have hs : s.length < 2147483648 := h s (List.mem_cons_self _ _)
    have hss : ∀ x ∈ ss, x.length < 2147483648 := fun x hx => h x (List.mem_cons_of_mem _ hx)
    simp only [List.length_cons, wireEntries, List.append_assoc]
    by_cases hj : j < 4
    · obtain ⟨r, hr⟩ := readStringSet_empty ss.length
      simp only [readStringSet, binaryReadInt32_short 0 _ (take_layout_short j _ _ hj),
        bufferNext_zero, hr]
      exact ⟨_, rfl⟩
    · obtain ⟨r, hr⟩ := ih (j - 4 - s.length) hss
      rw [take_layout_append j _ _ (by omega)]
      simp only [readStringSet, binaryReadInt32_layout, asInt32_of_lt hs, bufferNext_nat,
        List.drop_take, List.drop_left, hr]
      exact ⟨_, rfl⟩

/-- The key/value set loop on entries that are cut short reads to the end of the
buffer and does not panic. -/
theorem readKeyValueSet_take (kvs : List (GoString × GoString)) (j : Nat)
    (acc : List (GoString × GoString))
    (h : ∀ kv ∈ kvs, kv.1.length < 2147483648 ∧ kv.2.length < 2147483648) :
    ∃ r, readKeyValueSet kvs.length acc ((wirePairs kvs).take j) = some (r, []) := by
  induction kvs generalizing j acc with
  | nil => exact ⟨acc, by simp [readKeyValueSet, wirePairs]⟩
  | cons kv kvs ih =>
    have hkv := h kv (List.mem_cons_self _ _)
    have hkvs : ∀ x ∈ kvs, x.1.length < 2147483648 ∧ x.2.length < 2147483648 :=
      fun x hx => h x (List.mem_cons_of_mem _ hx)
    simp only [List.length_cons, wirePairs, List.append_assoc]
    by_cases hj : j < 4
    · obtain ⟨r, hr⟩ := readKeyValueSet_empty kvs.length (mapSet acc [] [])
      simp only [readKeyValueSet, binaryReadInt32_short 0 _ (take_layout_short j _ _ hj),
        bufferNext_zero, binaryReadInt32_nil, hr]
      exact ⟨_, rfl⟩
    · rw [take_layout_append j _ _ (by omega)]
      simp only [readKeyValueSet, binaryReadInt32_layout, asInt32_of_lt hkv.1, bufferNext_nat,
        List.drop_take, List.drop_left]
      by_cases hj2 : j - 4 - kv.1.length < 4
      · obtain ⟨r, hr⟩ := readKeyValueSet_empty kvs.length
          (mapSet acc (List.take kv.1.length (List.take (j - 4) (kv.1 ++
            (littleEndianLayout 4 kv.2.length ++ (kv.2 ++ wirePairs kvs))))) [])
        simp only [binaryReadInt32_short _ _ (take_layout_short _ _ _ hj2), bufferNext_nil, hr]
        exact ⟨_, rfl⟩
      · obtain ⟨r, hr⟩ := ih (j - 4 - kv.1.length - 4 - kv.2.length)
          (mapSet acc (List.take kv.1.length (List.take (j - 4) (kv.1 ++
            (littleEndianLayout 4 kv.2.length ++ (kv.2 ++ wirePairs kvs)))))
            (List.take kv.2.length (List.take (j - 4 - kv.1.length - 4) (kv.2 ++ wirePairs kvs))))
          hkvs
        rw [take_layout_append _ _ _ (by omega)]
        simp only [binaryReadInt32_layout, asInt32_of_lt hkv.2, bufferNext_nat,
          List.drop_take, List.drop_left, hr]
        exact ⟨_, rfl⟩

theorem decodeLoop_bool_any (f cmd : Nat) (ret : List Value) (rest : List Byte) :
    decodeLoop (f + 1) cmd ret (1 :: rest) =
      decodeLoop f cmd (ret ++ [Value.bool ((binaryReadByte 0 rest).1 != 0)])
        (binaryReadByte 0 rest).2.2 := by
  rw [decodeLoop]
  simp [binaryReadByte_cons, msgDataTypeBool]

theorem msgReadString_short (buf : List Byte) (h : buf.length < 4) :
    msgReadString2ByteBuffer buf = ReadString.value (some []) [] := by
  simp only [msgReadString2ByteBuffer, binaryReadInt32_short 0 buf h]
  simp

theorem msgReadString_cut (n : Nat) (B : List Byte) (hn : n < 2147483648)
    (hB : B.length < n) :
    ∃ e, msgReadString2ByteBuffer (littleEndianLayout 4 n ++ B) = ReadString.error e := by
  simp only [msgReadString2ByteBuffer, binaryReadInt32_layout, asInt32_of_lt hn]
  have h1 : ((n : Nat) : Int) ≠ -1 := by omega
  have h2 : ¬ ((n : Nat) : Int) < 0 := by omega
  have h3 : n ≠ 0 := by omega
  have h4 : min n B.length ≠ n := by omega
  simp only [h1, h2, if_false, Int.toNat_ofNat, h3, ne_eq, h4, not_false_eq_true, if_true]
  split_ifs <;> exact ⟨_, rfl⟩

theorem length_take_layout_lt (k x : Nat) (h : k < 4) :
    ((littleEndianLayout 4 x).take k).length < 4 := by
  rw [List.length_take]; omega

/-- The loop of `decode` on the wire layout of a representable value that is cut
short returns an error. -/
theorem decodeLoop_take_wireValue (f cmd : Nat) (ret : List Value) (v : Value) (m : Nat)
    (hv : v.Representable) (hm : m < (wireValue v).length) (hf : m < f) :
    ∃ e, decodeLoop f cmd ret ((wireValue v).take m) = DecodeResult.error e := by
  cases m with
  | zero =>
    obtain ⟨f1, rfl⟩ : ∃ f1, f = f1 + 1 := ⟨f - 1, by omega⟩
    rw [List.take_zero, decodeLoop_nil]
    exact ⟨_, rfl⟩
  | succ k =>
    obtain ⟨f1, rfl⟩ : ∃ f1, f = f1 + 2 := ⟨f - 2, by omega⟩
    cases v with
    | other t => exact absurd hv (by simp [Value.Representable])
    | uint32Slice l => exact absurd hv (by simp [Value.Representable])
    | bool b =>
      have hk : k = 0 := by simp [wireValue] at hm; omega
      subst hk
      simp only [wireValue, List.take_succ_cons, List.take_zero,
        decodeLoop_bool_any, binaryReadByte, decodeLoop_nil]
      exact ⟨_, rfl⟩
    | int32 i =>
      have hk : k < 4 := by simp [wireValue, littleEndianLayout_length] at hm; omega
      simp only [wireValue, List.take_succ_cons, decodeLoop_int32,
        binaryReadInt32_short 0 _ (length_take_layout_lt k _ hk), decodeLoop_nil]
      exact ⟨_, rfl⟩
    | uint32 i =>
      have hk : k < 4 := by simp [wireValue, littleEndianLayout_length] at hm; omega
      simp only [wireValue, List.take_succ_cons, decodeLoop_uint32,
        binaryReadUint_short 4 0 _ (length_take_layout_lt k _ hk), decodeLoop_nil]
      exact ⟨_, rfl⟩
    | nil =>
      have hk : k < 4 := by simp [wireValue] at hm; omega
      have hl : (([0xFF, 0xFF, 0xFF, 0xFF] : List Byte).take k).length < 4 := by
        rw [List.length_take]; simp; omega
      simp only [wireValue, List.take_succ_cons, decodeLoop_str,
        msgReadString_short _ hl, decodeLoop_nil]
      exact ⟨_, rfl⟩
    | string s =>
      have hs : s.length < 2147483648 := hv
      have hk : k < 4 + s.length := by
        simp [wireValue, littleEndianLayout_length] at hm; omega
      simp only [wireValue, List.cons_append, List.take_succ_cons, decodeLoop_str]
      by_cases h4 : k < 4
      · simp only [msgReadString_short _ (take_layout_short k _ _ h4), decodeLoop_nil]
        exact ⟨_, rfl⟩
      · rw [take_layout_append k _ _ (by omega)]
        obtain ⟨e, he⟩ := msgReadString_cut s.length (s.take (k - 4)) hs
          (by rw [List.length_take]; omega)
        simp only [he]
        exact ⟨_, rfl⟩
    | bytes s =>
      have hs : s.length < 2147483648 := hv
      have hk : k < 4 + s.length := by
        simp [wireValue, littleEndianLayout_length] at hm; omega
      simp only [wireValue, List.cons_append, List.take_succ_cons, decodeLoop_blob]
      by_cases h4 : k < 4
      · simp only [msgReadString_short _ (take_layout_short k _ _ h4), Option.getD_some,
          decodeLoop_nil]
        exact ⟨_, rfl⟩
      · rw [take_layout_append k _ _ (by omega)]
        obtain ⟨e, he⟩ := msgReadString_cut s.length (s.take (k - 4)) hs
          (by rw [List.length_take]; omega)
        simp only [he]
        exact ⟨_, rfl⟩
    | stringSlice l =>
      obtain ⟨h1, h2⟩ := hv
      have hl : l.length % 256 ^ 4 = l.length := Nat.mod_eq_of_lt (by omega)
      simp only [wireValue, List.cons_append, List.take_succ_cons, decodeLoop_stringSet]
      by_cases h4 : k < 4
      · simp only [binaryReadUint_short 4 0 _ (take_layout_short k _ _ h4),
          readStringSet, decodeLoop_nil]
        exact ⟨_, rfl⟩
      · rw [take_layout_append k _ _ (by omega)]
        obtain ⟨r, hr⟩ := readStringSet_take l (k - 4) h2
        simp only [binaryReadUint_layout, hl, hr, decodeLoop_nil]
        exact ⟨_, rfl⟩
    | stringMap l =>
      obtain ⟨h1, h2, h3⟩ := hv
      have hl : l.length % 256 ^ 4 = l.length := Nat.mod_eq_of_lt (by omega)
      simp only [wireValue, List.cons_append, List.take_succ_cons, decodeLoop_keyValueSet]
      by_cases h4 : k < 4
      · simp only [binaryReadUint_short 4 0 _ (take_layout_short k _ _ h4),
          readKeyValueSet, decodeLoop_nil]
        exact ⟨_, rfl⟩
      · rw [take_layout_append k _ _ (by omega)]
        obtain ⟨r, hr⟩ := readKeyValueSet_take l (k - 4) [] h2
        simp only [binaryReadUint_layout, hl, hr, decodeLoop_nil]
        exact ⟨_, rfl⟩

theorem decodeLoop_take_wireValues (vals : List Value) (f cmd m : Nat) (ret : List Value)
    (h : ∀ v ∈ vals, v.Representable) (hf : ((wireValues vals).take m).length < f) :
    ∃ e, decodeLoop f cmd ret ((wireValues vals).take m) = DecodeResult.error e := by
  induction vals generalizing f m ret with
  | nil =>
    obtain ⟨f1, rfl⟩ : ∃ f1, f = f1 + 1 := ⟨f - 1, by omega⟩
    simp only [wireValues, List.take_nil, decodeLoop_nil]
    exact ⟨_, rfl⟩
  | cons v vs ih =>
    have hv := h v (List.mem_cons_self _ _)
    have hvs : ∀ w ∈ vs, w.Representable := fun w hw => h w (List.mem_cons_of_mem _ hw)
    have hpos := wireValue_length_pos v hv
    simp only [wireValues, List.take_append_eq_append_take, List.length_append,
      List.length_take] at hf ⊢
    by_cases hm : m < (wireValue v).length
    · have h0 : m - (wireValue v).length = 0 := by omega
      rw [h0, List.take_zero, List.append_nil]
      exact decodeLoop_take_wireValue f cmd ret v m hv hm (by omega)
    · rw [List.take_of_length_le (by omega)]
      obtain ⟨f1, rfl⟩ : ∃ f1, f = f1 + 1 := ⟨f - 1, by omega⟩
      rw [decodeLoop_wireValue _ _ _ _ _ hv]
      exact ih f1 _ _ hvs (by rw [List.length_take]; omega)

/-- Every proper beginning of the payload that `encode` returns for representable
values makes `decode` return an error: a message that is cut short never decodes. -/
theorem decode_take_wireFormat (cmd : Nat) (vals : List Value) (m : Nat)
    (hcmd : cmd < 65536) (h : ∀ v ∈ vals, v.Representable)
    (hm : m < (wireFormat cmd vals).length) :
    ∃ e, decode ((wireFormat cmd vals).take m) = DecodeResult.error e := by
  simp only [wireFormat, List.append_assoc] at hm ⊢
  have hc : cmd % 256 ^ 2 = cmd := Nat.mod_eq_of_lt (by omega)
  by_cases h2 : m < 2
  · have hl : ((littleEndianLayout 2 cmd ++ (wireValues vals ++ [0])).take m).length < 2 := by
      rw [List.length_take]; omega
    simp only [decode, binaryReadUint_short 2 0 _ hl]
    exact ⟨_, rfl⟩
  · have e1 : (littleEndianLayout 2 cmd ++ (wireValues vals ++ [0])).take m
        = littleEndianLayout 2 cmd ++ (wireValues vals).take (m - 2) := by
      simp only [List.length_append, littleEndianLayout_length, List.length_singleton] at hm
      rw [List.take_append_eq_append_take, littleEndianLayout_length,
        List.take_of_length_le (by rw [littleEndianLayout_length]; omega),
        List.take_append_eq_append_take]
      have : m - 2 - (wireValues vals).length = 0 := by omega
      rw [this, List.take_zero, List.append_nil]
    rw [e1]
    simp only [decode, binaryReadUint_layout, hc]
    exact decodeLoop_take_wireValues vals _ cmd _ [] h (by omega)


/-! ## Claims about the typed value codec -/

theorem not_isOther_of_representable {v : Value} (h : v.Representable) : ¬ v.IsOther := by
  cases v <;> simp_all [Value.Representable, Value.IsOther]

/-- C1: for every 16-bit message ID and every list of values in which each value is
a bool, an int32, a uint32, a string, a blob, a list of strings, a string map or
nil, with every string, blob, list and map shorter than `2^31`, `encode` succeeds and
`decode` applied to the bytes it returns yields the same message ID and the same
value list, element for element and type for type. -/
theorem decode_encode_roundtrip (cmd : Nat) (vals : List Value) (hcmd : cmd < 65536)
    (h : ∀ v ∈ vals, v.Representable) :
    ∃ bytes, encode cmd vals = Except.ok bytes ∧ decode bytes = DecodeResult.ok cmd vals :=
  ⟨wireFormat cmd vals,
    encode_eq_wire cmd vals (fun v hv => not_isOther_of_representable (h v hv)),
    decode_wireFormat cmd vals hcmd h⟩

/-- Witness of C1 at the edge values: nil comes back as nil and not as the empty
string, and the empty string, the zero-length blob, the empty list, the empty map
and a map with an empty key or an empty value come back unchanged. -/
theorem decode_encode_roundtrip_witness :
    (100 < 65536) ∧
    (∀ v ∈ [Value.nil, Value.string [], Value.bytes [], Value.stringSlice [],
        Value.stringMap [], Value.stringMap [([], [118]), ([107], [])],
        Value.stringSlice [[97], [], [98, 99]], Value.bool true, Value.int32 (-3456),
        Value.uint32 12345, Value.string [97, 98, 99]], v.Representable) ∧
    Value.nil ≠ Value.string [] ∧
    ∃ bytes, encode 100 [Value.nil, Value.string [], Value.bytes [], Value.stringSlice [],
        Value.stringMap [], Value.stringMap [([], [118]), ([107], [])],
        Value.stringSlice [[97], [], [98, 99]], Value.bool true, Value.int32 (-3456),
        Value.uint32 12345, Value.string [97, 98, 99]] = Except.ok bytes ∧
      decode bytes = DecodeResult.ok 100 [Value.nil, Value.string [], Value.bytes [],
        Value.stringSlice [], Value.stringMap [], Value.stringMap [([], [118]), ([107], [])],
        Value.stringSlice [[97], [], [98, 99]], Value.bool true, Value.int32 (-3456),
        Value.uint32 12345, Value.string [97, 98, 99]] :=
  ⟨by decide, by decide, by decide, decode_encode_roundtrip 100 _ (by decide) (by decide)⟩

/-- C3 fails on the code: `decode` panics on a string or a blob whose length field
is negative and not `-1` (`make([]byte, int(l))`), and on a string set entry, a map
key or a map value whose length field is negative (`buf.Next(int(l))`). -/
theorem decode_negative_length_panics :
    decode [0, 0, 4, 0xFE, 0xFF, 0xFF, 0xFF] = DecodeResult.panic ∧
    decode [0, 0, 6, 0xFE, 0xFF, 0xFF, 0xFF, 0] = DecodeResult.panic ∧
    decode [0, 0, 7, 1, 0, 0, 0, 0xFF, 0xFF, 0xFF, 0xFF, 0] = DecodeResult.panic ∧
    decode [0, 0, 8, 1, 0, 0, 0, 0xFF, 0xFF, 0xFF, 0xFF, 0] = DecodeResult.panic ∧
    decode [0, 0, 8, 1, 0, 0, 0, 1, 0, 0, 0, 107, 0xFF, 0xFF, 0xFF, 0xFF, 0]
      = DecodeResult.panic := by
  decide

/-- C4 fails on the code: the buffer `00 00 01 01 04 00 00 00 80` ends before any end
tag, and `decode` panics on it instead of returning an error; the buffer is a proper
beginning of what `encode` returns for a bool followed by a string of `2^31` bytes.
(For values shorter than `2^31` every proper beginning does give an error, see
`decode_take_wireFormat`.) -/
theorem decode_truncated_panics :
    decode [0, 0, 1, 1, 4, 0, 0, 0, 0x80] = DecodeResult.panic ∧
    ∀ s : GoString, s.length = 2147483648 →
      encode 0 [Value.bool true, Value.string s]
        = Except.ok ([0, 0, 1, 1, 4, 0, 0, 0, 0x80] ++ s ++ [0]) := by
  refine ⟨by decide, ?_⟩
  intro s hs
  rw [encode_eq_wire 0 _ (by simp [Value.IsOther])]
  simp only [wireFormat, wireValues, wireValue, hs]
  have e1 : littleEndianLayout 2 0 = [0, 0] := by decide
  have e2 : littleEndianLayout 4 2147483648 = [0, 0, 0, 0x80] := by decide
  rw [e1, e2]
  simp

/-- C5: when `decode`, after the message ID and zero or more well-formed values,
meets a tag byte that is none of 0, 1, 2, 3, 4, 6, 7, 8, it returns
`ErrMsgIncorrectType` with message ID 0 and no values (the outcome `error`); the same
holds in whatever state the loop meets such a tag. -/
theorem decode_unknown_tag (cmd : Nat) (vals : List Value) (t : Byte) (rest : List Byte)
    (hcmd : cmd < 65536) (h : ∀ v ∈ vals, v.Representable)
    (ht : t ≠ 0 ∧ t ≠ 1 ∧ t ≠ 2 ∧ t ≠ 3 ∧ t ≠ 4 ∧ t ≠ 6 ∧ t ≠ 7 ∧ t ≠ 8) :
    decode (littleEndianLayout 2 cmd ++ (wireValues vals ++ t :: rest))
      = DecodeResult.error Err.ErrMsgIncorrectType ∧
    ∀ (fuel c : Nat) (ret : List Value),
      decodeLoop (fuel + 1) c ret (t :: rest) = DecodeResult.error Err.ErrMsgIncorrectType := by
  refine ⟨?_, fun fuel c ret => decodeLoop_unknown fuel c ret t rest ht⟩
  rw [decode_wireValues cmd vals _ hcmd h]
  rw [show (t :: rest).length + 1 + ((wireValues vals).length - vals.length)
    = ((t :: rest).length + ((wireValues vals).length - vals.length)) + 1 by omega,
    decodeLoop_unknown _ _ _ t rest ht]

/-- Witness of C5: the deprecated password tag 5 after two values. -/
theorem decode_unknown_tag_witness :
    decode (littleEndianLayout 2 100 ++
        (wireValues [Value.uint32 7, Value.string [97]] ++ msgDataTypePassword :: [1, 2, 3]))
      = DecodeResult.error Err.ErrMsgIncorrectType :=
  (decode_unknown_tag 100 [Value.uint32 7, Value.string [97]] msgDataTypePassword [1, 2, 3]
    (by decide) (by decide) (by decide)).1

/-! ## Requests and replies -/

theorem encodeHeader_fst (h : lrpc2HeaderV4) (buf : List Byte) : (encodeHeader h buf).1 = none := rfl

theorem encodeHeader_eq (h : lrpc2HeaderV4) (buf : List Byte) :
    encodeHeader h buf = (none, (encodeHeader h buf).2) := rfl

theorem encodeHeader_length (h : lrpc2HeaderV4) : (encodeHeader h []).2.length = 34 := by
  simp only [encodeHeader, List.length_append, leBytes_length, List.nil_append]

theorem Conn_Read_front (conn : Conn) (a b : List Byte) (more : List (List Byte))
    (ha : 0 < a.length) (hb : 0 < b.length) (hu : conn.unread = (a ++ b) :: more) :
    conn.Read a.length = ({ conn with unread := b :: more }, a, a.length, none) := by
  have h0 : a.length ≠ 0 := by omega
  have h1 : ¬ (a.length + b.length ≤ a.length) := by omega
  simp [Conn.Read, h0, hu, h1]

theorem Conn_Read_whole (conn : Conn) (a : List Byte) (more : List (List Byte))
    (ha : 0 < a.length) (hu : conn.unread = a :: more) :
    conn.Read a.length = ({ conn with unread := more }, a, a.length, none) := by
  have h0 : a.length ≠ 0 := by omega
  simp [Conn.Read, h0, hu]

theorem wireFormat_length_pos (cmd : Nat) (vals : List Value) :
    0 < (wireFormat cmd vals).length := by
  simp [wireFormat]

/-- C6: when an argument list holds a value whose type is none of the cases of the
type switch (a float64, an int, an int64, ...), `encode` returns
`ErrLrpc2TypeNotSupported` and no buffer for every message ID, whatever precedes
that value; and on a connection whose deadline can be set, `DoRequest` with a
command that fits 16 bits returns that error and nil results. -/
theorem encode_unsupported_type (c : lrpc2Client) (now : Nat) (net : Conn → Conn)
    (cmd : Command) (id : Nat) (args : List Value)
    (hother : ∃ v ∈ args, v.IsOther)
    (hdl : c.conn.deadlineErr = none) (hcmd : requestID cmd = Except.ok id) :
    (∀ msgID : Nat, encode msgID args = Except.error Err.ErrLrpc2TypeNotSupported) ∧
    (DoRequest c now net cmd args).2 = Reply.error Err.ErrLrpc2TypeNotSupported := by
  refine ⟨fun msgID => encode_other msgID args hother, ?_⟩
  simp only [DoRequest, WriteRequest, hdl, hcmd, encode_other id args hother]

/-- Witness of C6: the arguments of the unsupported type test. -/
theorem encode_unsupported_type_witness :
    (∀ msgID : Nat, encode msgID [Value.uint32 123, Value.other "float64"]
      = Except.error Err.ErrLrpc2TypeNotSupported) ∧
    (DoRequest
      (lrpc2Client.mk (lrpc2HeaderV4.mk 0xABCD8012 34 4 4321 7 0 0)
        (Conn.mk none [] Err.EOF none []) 1048576 4321)
      1600000000 id (Command.int 100) [Value.uint32 123, Value.other "float64"]).2
      = Reply.error Err.ErrLrpc2TypeNotSupported :=
  encode_unsupported_type _ 1600000000 id (Command.int 100) 100
    [Value.uint32 123, Value.other "float64"]
    ⟨Value.other "float64", by simp, trivial⟩ rfl rfl

theorem verifyHeader_consts (pid seq ts len : Nat) (hlen : len ≤ 1048576) :
    verifyHeader (lrpc2HeaderV4.mk lrpc2MagicNum lrpc2HeaderLengthV4 lrpc2Version4 pid seq ts len)
      = none := by
  have : ¬ len > lrpc2MaxMsgLen := by simp only [lrpc2MaxMsgLen]; omega
  simp [verifyHeader, this]

/-- Reading a message that arrives in one piece: the header, then the payload. -/
theorem read_message (conn : Conn) (h : lrpc2HeaderV4) (payload : List Byte)
    (hp : 0 < payload.length) (hu : conn.unread = [(encodeHeader h []).2 ++ payload]) :
    conn.Read HeaderLen = ({ conn with unread := [payload] }, (encodeHeader h []).2, 34, none) ∧
    ({ conn with unread := [payload] } : Conn).Read payload.length
      = ({ conn with unread := [] }, payload, payload.length, none) := by
  have hl := encodeHeader_length h
  constructor
  · have := Conn_Read_front conn (encodeHeader h []).2 payload [] (by omega) hp hu
    rw [hl] at this
    exact this
  · exact Conn_Read_whole _ payload [] hp rfl

theorem decodeHeader_encodeHeader_nil (h h0 : lrpc2HeaderV4) (hr : h.InRange) :
    decodeHeader h0 (encodeHeader h []).2 = (h, none, []) := by
  have := decodeHeader_encodeHeader h h0 [] hr
  rwa [List.append_nil] at this

theorem WriteRequest_uint16 (c : lrpc2Client) (now id : Nat) (args : List Value)
    (payload : List Byte) (hdl : c.conn.deadlineErr = none) (hw : c.conn.writeErr = none)
    (henc : encode id args = Except.ok payload) (hfit : payload.length ≤ c.maxMsgDataLen) :
    WriteRequest c now (Command.uint16 id) args =
      ({ c with
          hdr := { c.hdr with
            msgDataLen := payload.length % 4294967296,
            timestamp := now % 18446744073709551616,
            sequenceNum := (c.hdr.sequenceNum + 1) % 4294967296 },
          conn := { c.conn with
            written := c.conn.written ++ ((encodeHeader { c.hdr with
              msgDataLen := payload.length % 4294967296,
              timestamp := now % 18446744073709551616 } []).2 ++ payload) } }, none) := by
  have hfit2 : ¬ payload.length > c.maxMsgDataLen := by omega
  simp only [WriteRequest, hdl, requestID, henc, hfit2, if_false, Conn.Write, hw,
    setupNextRequest]
  rw [encodeHeader_eq]

theorem ReadRequest_message (s : lrpc2Server) (h : lrpc2HeaderV4) (payload : List Byte)
    (cmd : Nat) (args : List Value)
    (hdl : s.conn.deadlineErr = none) (hconn : s.connected = true)
    (hhs : s.inHandShake = false)
    (hr : h.InRange) (hv : verifyHeader h = none) (hlen : h.msgDataLen = payload.length)
    (hp : 0 < payload.length) (hdec : decode payload = DecodeResult.ok cmd args)
    (hu : s.conn.unread = [(encodeHeader h []).2 ++ payload]) :
    ReadRequest s = ({ s with conn := { s.conn with unread := [] } }, Request.ok h cmd args) := by
  obtain ⟨r1, r2⟩ := read_message s.conn h payload hp hu
  simp only [hdl] at r1 r2
  simp only [ReadRequest, hdl, hhs, hconn, read, r1, decodeHeader_encodeHeader_nil h _ hr, hv,
    hlen, r2, hdec]
  simp

theorem WriteResponse_uint16 (s : lrpc2Server) (now id : Nat) (msg : lrpc2HeaderV4)
    (results : List Value) (payload : List Byte)
    (hdl : s.conn.deadlineErr = none) (hw : s.conn.writeErr = none)
    (hconn : s.connected = true) (henc : encode id results = Except.ok payload) :
    WriteResponse s now (some msg) (Command.uint16 id) results =
      ({ s with
          hdr := { s.hdr with
            sequenceNum := msg.sequenceNum, pid := msg.pid,
            timestamp := now % 18446744073709551616,
            msgDataLen := payload.length % 4294967296 },
          conn := { s.conn with
            written := s.conn.written ++ ((encodeHeader { s.hdr with
              sequenceNum := msg.sequenceNum, pid := msg.pid,
              timestamp := now % 18446744073709551616,
              msgDataLen := payload.length % 4294967296 } []).2 ++ payload) } }, none) := by
  simp only [WriteResponse, hdl, hconn, henc, write, Conn.Write, hw]
  rw [encodeHeader_eq]
  simp

theorem ReadResponse_message (c : lrpc2Client) (h : lrpc2HeaderV4) (payload : List Byte)
    (cmd : Nat) (results : List Value)
    (hdl : c.conn.deadlineErr = none)
    (hr : h.InRange) (hv : verifyHeader h = none) (hlen : h.msgDataLen = payload.length)
    (hseq : h.sequenceNum = (c.hdr.sequenceNum + 4294967295) % 4294967296)
    (hp : 0 < payload.length) (hdec : decode payload = DecodeResult.ok cmd results)
    (hu : c.conn.unread = [(encodeHeader h []).2 ++ payload]) :
    ReadResponse c
      = ({ c with conn := { c.conn with unread := [] }, hdr := h }, Reply.ok results) := by
  obtain ⟨r1, r2⟩ := read_message c.conn h payload hp hu
  simp only [hdl] at r1 r2
  simp only [ReadResponse, hdl, r1, decodeHeader_encodeHeader_nil h _ hr, hv, hlen, r2, hdec,
    hseq]
  simp

theorem inRange_consts (pid seq ts len : Nat) (h1 : pid < 2 ^ 64) (h2 : seq < 2 ^ 32)
    (h3 : ts < 2 ^ 64) (h4 : len < 2 ^ 32) :
    (lrpc2HeaderV4.mk lrpc2MagicNum lrpc2HeaderLengthV4 lrpc2Version4 pid seq ts len).InRange :=
  ⟨(by decide : lrpc2MagicNum < 2 ^ 32), (by decide : lrpc2HeaderLengthV4 < 2 ^ 16),
    (by decide : lrpc2Version4 < 2 ^ 32), h1, h2, h3, h4⟩

theorem dispatch_registered (base : svrBase) (ctxt : SessionCtxt) (id : Nat)
    (h : CommandHandler) (args : List Value)
    (hreg : base.messageMapByID id = some (Registered.func h)) :
    dispatch base ctxt (Command.uint16 id) args = Dispatched.ok (h ctxt args) := by
  simp only [dispatch, hreg]

/-- The round trip when the transport hands every message over in one piece: for a
message ID registered to a handler that returns a non-nil list equal to its arguments,
and arguments of the codec kinds whose encoding fits the maximum payload size the server
advertises (`lrpc2MaxMsgLen`): `WriteRequest` returns no error; the bytes it sends,
handed to the server in one piece, make `ReadRequest` return the
request header, the ID and the arguments; `dispatch` returns the arguments;
`WriteResponse` returns no error; and the bytes it sends, handed to the client in one
piece, make `ReadResponse` return the arguments, element for element and type for
type, with no error. -/
theorem echo_roundtrip (c : lrpc2Client) (s : lrpc2Server) (base : svrBase)
    (ctxt : SessionCtxt) (h : CommandHandler) (id now1 now2 : Nat) (args : List Value)
    (hid : id < 65536)
    (hreg : base.messageMapByID id = some (Registered.func h))
    (hecho : h ctxt args = some args)
    (hargs : ∀ v ∈ args, v.Representable)
    (hmax : c.maxMsgDataLen = lrpc2MaxMsgLen)
    (hfit : ∀ bytes, encode id args = Except.ok bytes → bytes.length ≤ c.maxMsgDataLen)
    (hc : c.hdr.magicNum = lrpc2MagicNum ∧ c.hdr.headerLen = lrpc2HeaderLengthV4 ∧
      c.hdr.version = lrpc2Version4 ∧ c.hdr.pid < 2 ^ 64 ∧ c.hdr.sequenceNum < 2 ^ 32)
    (hcconn : c.conn.deadlineErr = none ∧ c.conn.writeErr = none)
    (hs : s.hdr.magicNum = lrpc2MagicNum ∧ s.hdr.headerLen = lrpc2HeaderLengthV4 ∧
      s.hdr.version = lrpc2Version4)
    (hsconn : s.conn.deadlineErr = none ∧ s.conn.writeErr = none ∧ s.connected = true ∧
      s.inHandShake = false) :
    ∃ (request reply : List Byte) (c1 : lrpc2Client) (s1 s2 : lrpc2Server)
      (msg : lrpc2HeaderV4),
      WriteRequest c now1 (Command.uint16 id) args = (c1, none) ∧
      c1.conn.written = c.conn.written ++ request ∧
      ReadRequest { s with conn := { s.conn with unread := [request] } }
        = (s1, Request.ok msg id args) ∧
      dispatch base ctxt (Command.uint16 id) args = Dispatched.ok (some args) ∧
      WriteResponse s1 now2 (some msg) (Command.uint16 id) args = (s2, none) ∧
      s2.conn.written = s.conn.written ++ reply ∧
      (ReadResponse { c1 with conn := { c1.conn with unread := [reply] } }).2
        = Reply.ok args := by
  obtain ⟨hc1, hc2, hc3, hc4, hc5⟩ := hc
  obtain ⟨hcd, hcw⟩ := hcconn
  obtain ⟨hs1, hs2, hs3⟩ := hs
  obtain ⟨hsd, hsw, hsc, hsh⟩ := hsconn
  have henc : encode id args = Except.ok (wireFormat id args) :=
    encode_eq_wire id args (fun v hv => not_isOther_of_representable (hargs v hv))
  have hdec : decode (wireFormat id args) = DecodeResult.ok id args :=
    decode_wireFormat id args hid hargs
  have hpos := wireFormat_length_pos id args
  have hlen : (wireFormat id args).length ≤ 1048576 := by
    have := hfit _ henc
    rw [hmax] at this
    exact this
  have hmod : (wireFormat id args).length % 4294967296 = (wireFormat id args).length :=
    Nat.mod_eq_of_lt (by omega)
  have hA := WriteRequest_uint16 c now1 id args _ hcd hcw henc (hfit _ henc)
  rw [hmod] at hA
  -- the request header
  obtain ⟨chdr, cconn, cmax, cpid⟩ := c
  obtain ⟨cm, chl, cv, cp, csq, cts, cdl⟩ := chdr
  obtain ⟨shdr, sconn, sconnected, shs, serr⟩ := s
  obtain ⟨sm, shl, sv, sp, ssq, sts, sdl⟩ := shdr
  simp only at hc1 hc2 hc3 hc4 hc5 hcd hcw hs1 hs2 hs3 hsd hsw hsc hsh hA hmax
  subst hc1 hc2 hc3 hs1 hs2 hs3 hsc hsh
  have hts1 : now1 % 18446744073709551616 < 2 ^ 64 := Nat.mod_lt _ (by norm_num)
  have hts2 : now2 % 18446744073709551616 < 2 ^ 64 := Nat.mod_lt _ (by norm_num)
  have hreqRange : (lrpc2HeaderV4.mk lrpc2MagicNum lrpc2HeaderLengthV4 lrpc2Version4 cp csq
      (now1 % 18446744073709551616) (wireFormat id args).length).InRange := by
    exact inRange_consts _ _ _ _ hc4 hc5 hts1 (by omega)
  have hrepRange : (lrpc2HeaderV4.mk lrpc2MagicNum lrpc2HeaderLengthV4 lrpc2Version4 cp csq
      (now2 % 18446744073709551616) (wireFormat id args).length).InRange := by
    exact inRange_consts _ _ _ _ hc4 hc5 hts2 (by omega)
  have hB := ReadRequest_message
    (lrpc2Server.mk (lrpc2HeaderV4.mk lrpc2MagicNum lrpc2HeaderLengthV4 lrpc2Version4 sp ssq sts sdl)
      { sconn with unread := [(encodeHeader (lrpc2HeaderV4.mk lrpc2MagicNum lrpc2HeaderLengthV4
        lrpc2Version4 cp csq (now1 % 18446744073709551616) (wireFormat id args).length) []).2
        ++ wireFormat id args] } true false serr)
    _ (wireFormat id args) id args hsd rfl rfl hreqRange
    (verifyHeader_consts _ _ _ _ hlen) rfl hpos hdec rfl
  have hC := WriteResponse_uint16
    (lrpc2Server.mk (lrpc2HeaderV4.mk lrpc2MagicNum lrpc2HeaderLengthV4 lrpc2Version4 sp ssq sts sdl)
      { sconn with unread := [] } true false serr) now2 id
    (lrpc2HeaderV4.mk lrpc2MagicNum lrpc2HeaderLengthV4 lrpc2Version4 cp csq
      (now1 % 18446744073709551616) (wireFormat id args).length)
    args _ hsd hsw rfl henc
  rw [hmod] at hC
  have hseq : csq = ((csq + 1) % 4294967296 + 4294967295) % 4294967296 := by omega
  have hD := ReadResponse_message
    (lrpc2Client.mk (lrpc2HeaderV4.mk lrpc2MagicNum lrpc2HeaderLengthV4 lrpc2Version4 cp
        ((csq + 1) % 4294967296) (now1 % 18446744073709551616) (wireFormat id args).length)
      { cconn with
        written := cconn.written ++ ((encodeHeader (lrpc2HeaderV4.mk lrpc2MagicNum
          lrpc2HeaderLengthV4 lrpc2Version4 cp csq (now1 % 18446744073709551616)
          (wireFormat id args).length) []).2 ++ wireFormat id args),
        unread := [(encodeHeader (lrpc2HeaderV4.mk lrpc2MagicNum lrpc2HeaderLengthV4
          lrpc2Version4 cp csq (now2 % 18446744073709551616) (wireFormat id args).length) []).2
          ++ wireFormat id args] } cmax cpid)
    _ (wireFormat id args) id args hcd hrepRange
    (verifyHeader_consts _ _ _ _ hlen) rfl hseq hpos hdec rfl
  refine ⟨_, _, _, _, _, _, hA, rfl, hB, ?_, hC, rfl, ?_⟩
  · rw [dispatch_registered base ctxt id h args hreg, hecho]
  · exact congrArg Prod.snd hD

/-- An instance of the round trip in one piece: the request of the echo test, sent by
a freshly connected client whose sequence number is the largest `uint32`, to the test
handler `echo`. -/
theorem echo_roundtrip_witness :
    echo (SessionCtxt.mk 0 0 4321 [])
        [Value.uint32 12345, Value.bool true, Value.string [116, 101], Value.int32 (-3456)]
      = some [Value.uint32 12345, Value.bool true, Value.string [116, 101], Value.int32 (-3456)] ∧
    ∃ (request reply : List Byte) (c1 : lrpc2Client) (s1 s2 : lrpc2Server)
      (msg : lrpc2HeaderV4),
      WriteRequest
          (lrpc2Client.mk (lrpc2HeaderV4.mk lrpc2MagicNum lrpc2HeaderLengthV4 lrpc2Version4
            4321 4294967295 0 0) (Conn.mk none [] Err.EOF none []) lrpc2MaxMsgLen 4321)
          1600000000 (Command.uint16 100)
          [Value.uint32 12345, Value.bool true, Value.string [116, 101], Value.int32 (-3456)]
        = (c1, none) ∧
      c1.conn.written = [] ++ request ∧
      ReadRequest { ({ initLrpc2ServerSession (Conn.mk none [] Err.EOF none []) with
            connected := true }) with
          conn := { (Conn.mk none [] Err.EOF none []) with unread := [request] } }
        = (s1, Request.ok msg 100
          [Value.uint32 12345, Value.bool true, Value.string [116, 101], Value.int32 (-3456)]) ∧
      dispatch (RegisterMsgByID (svrBase.mk (fun _ => none)) 100 (Registered.func echo))
          (SessionCtxt.mk 0 0 4321 []) (Command.uint16 100)
          [Value.uint32 12345, Value.bool true, Value.string [116, 101], Value.int32 (-3456)]
        = Dispatched.ok (some
          [Value.uint32 12345, Value.bool true, Value.string [116, 101], Value.int32 (-3456)]) ∧
      WriteResponse s1 1600000001 (some msg) (Command.uint16 100)
          [Value.uint32 12345, Value.bool true, Value.string [116, 101], Value.int32 (-3456)]
        = (s2, none) ∧
      s2.conn.written = [] ++ reply ∧
      (ReadResponse { c1 with conn := { c1.conn with unread := [reply] } }).2
        = Reply.ok
          [Value.uint32 12345, Value.bool true, Value.string [116, 101], Value.int32 (-3456)] :=
  ⟨rfl, echo_roundtrip
    (lrpc2Client.mk (lrpc2HeaderV4.mk lrpc2MagicNum lrpc2HeaderLengthV4 lrpc2Version4
      4321 4294967295 0 0) (Conn.mk none [] Err.EOF none []) lrpc2MaxMsgLen 4321)
    ({ initLrpc2ServerSession (Conn.mk none [] Err.EOF none []) with connected := true })
    (RegisterMsgByID (svrBase.mk (fun _ => none)) 100 (Registered.func echo))
    (SessionCtxt.mk 0 0 4321 []) echo 100 1600000000 1600000001
    [Value.uint32 12345, Value.bool true, Value.string [116, 101], Value.int32 (-3456)]
    (by decide) rfl rfl (by decide) rfl
    (by
      intro bytes hb
      rw [encode_eq_wire 100 _ (by decide)] at hb
      injection hb with hb
      subst hb
      decide)
    ⟨rfl, rfl, rfl, by decide, by decide⟩ ⟨rfl, rfl⟩ ⟨rfl, rfl, rfl⟩ ⟨rfl, rfl, rfl, rfl⟩⟩

/-! ## The sequence number of the client -/

theorem WriteRequest_deadline_failed (c : lrpc2Client) (now : Nat) (cmd : Command)
    (args : List Value) (err : Err) (hdl : c.conn.deadlineErr = some err) :
    WriteRequest c now cmd args = (c, some err) := by
  simp only [WriteRequest, hdl]

theorem WriteRequest_sequenceNum (c : lrpc2Client) (now : Nat) (cmd : Command)
    (args : List Value) (hdl : c.conn.deadlineErr = none) :
    (WriteRequest c now cmd args).1.hdr.sequenceNum
      = (c.hdr.sequenceNum + 1) % 4294967296 := by
  simp only [WriteRequest, hdl]
  split
  · rfl
  · split
    · rfl
    · split
      · rfl
      · rfl

/-- A call of `WriteRequest` that returns no error has sent one header, which carries
the sequence number the client had before the call, followed by the payload. -/
theorem WriteRequest_ok_inv (c c1 : lrpc2Client) (now : Nat) (cmd : Command)
    (args : List Value) (h : WriteRequest c now cmd args = (c1, none)) :
    c.conn.deadlineErr = none ∧
    ∃ (id : Nat) (payload : List Byte) (sent : lrpc2HeaderV4),
      requestID cmd = Except.ok id ∧ encode id args = Except.ok payload ∧
      sent.sequenceNum = c.hdr.sequenceNum ∧
      c1.conn.written = c.conn.written ++ ((encodeHeader sent []).2 ++ payload) ∧
      c1.hdr.sequenceNum = (c.hdr.sequenceNum + 1) % 4294967296 := by
  cases hdl : c.conn.deadlineErr with
  | some err => rw [WriteRequest_deadline_failed c now cmd args err hdl] at h; simp at h
  | none =>
    refine ⟨rfl, ?_⟩
    simp only [WriteRequest, hdl] at h
    split at h
    · simp at h
    · next id hid =>
      split at h
      · simp at h
      · next payload henc =>
        split at h
        · simp at h
        · rw [encodeHeader_eq] at h
          simp only [Conn.Write] at h
          cases hw : c.conn.writeErr with
          | some err => simp [hw] at h
          | none =>
            simp only [hw, Prod.mk.injEq, and_true] at h
            subst h
            exact ⟨id, payload,
              { c.hdr with
                timestamp := now % 18446744073709551616,
                msgDataLen := payload.length % 4294967296 },
              hid, henc, rfl, rfl, rfl⟩

theorem ReadResponse_ok_inv (c c2 : lrpc2Client) (res : List Value)
    (h : ReadResponse c = (c2, Reply.ok res)) :
    c2.hdr.sequenceNum = (c.hdr.sequenceNum + 4294967295) % 4294967296 := by
  simp only [ReadResponse] at h
  split at h
  · simp at h
  · split at h
    · simp at h
    · split at h
      · simp at h
      · split at h
        · simp at h
        · split at h
          · simp at h
          · next hseq =>
            split at h
            · simp at h
            · split at h <;> simp only [Prod.mk.injEq, Reply.ok.injEq, reduceCtorEq, and_false] at h
              rw [← h.1]
              simpa using hseq

/-- A `Read` of as many bytes as the beginning `a` of the first unread piece. -/
theorem Conn_Read_prefix (conn : Conn) (a b : List Byte) (more : List (List Byte))
    (ha : 0 < a.length) (hu : conn.unread = (a ++ b) :: more) :
    conn.Read a.length
      = ({ conn with unread := if b.length = 0 then more else b :: more }, a, a.length, none) := by
  have h0 : a.length ≠ 0 := by omega
  by_cases hb : b.length = 0
  · have : b = [] := List.eq_nil_of_length_eq_zero hb
    subst this
    simp [Conn.Read, h0, hu]
  · have h1 : ¬ (a.length + b.length ≤ a.length) := by omega
    simp [Conn.Read, h0, hu, h1, hb]

theorem decodeLoop_error_ne (fuel cmd : Nat) (ret : List Value) (buf : List Byte) :
    decodeLoop fuel cmd ret buf ≠ DecodeResult.error Err.ErrLrpc2SeqNumMismatch := by
  induction fuel generalizing ret buf with
  | zero => simp [decodeLoop]
  | succ f ih =>
    cases buf with
    | nil => rw [decodeLoop_nil]; simp
    | cons t rest =>
      rw [decodeLoop]
      simp only [binaryReadByte_cons]
      split_ifs
      · exact ih _ _
      · exact ih _ _
      · exact ih _ _
      · split
        · simp
        · next err hm =>
          have : err = Err.EOF ∨ err = Err.ErrMsgInvalid := by
            simp only [msgReadString2ByteBuffer] at hm
            split_ifs at hm <;> simp_all
          rcases this with rfl | rfl <;> simp
        · exact ih _ _
        · exact ih _ _
      · split
        · simp
        · next err hm =>
          have : err = Err.EOF ∨ err = Err.ErrMsgInvalid := by
            simp only [msgReadString2ByteBuffer] at hm
            split_ifs at hm <;> simp_all
          rcases this with rfl | rfl <;> simp
        · exact ih _ _
      · split
        · simp
        · exact ih _ _
      · split
        · simp
        · exact ih _ _
      · simp
      · simp

/-- The function `decode` never returns `ErrLrpc2SeqNumMismatch`. -/
theorem decode_error_ne (buf : List Byte) :
    decode buf ≠ DecodeResult.error Err.ErrLrpc2SeqNumMismatch := by
  unfold decode
  split
  · simp
  · exact decodeLoop_error_ne _ _ _ _

theorem Conn_Read_err (conn conn1 : Conn) (n k : Nat) (p : List Byte) (e : Err)
    (h : conn.Read n = (conn1, p, k, some e)) : e = conn.readErr := by
  unfold Conn.Read at h
  split_ifs at h
  · simp at h
  · split at h
    · simp only [Prod.mk.injEq, Option.some.injEq] at h
      exact h.2.2.2.symm
    · simp at h

/-- The method `ReadResponse` once the whole reply header `h` has been handed over
by the first `Read`: what is left is the checks on `h` and the read of the payload. -/
theorem ReadResponse_header (c : lrpc2Client) (h : lrpc2HeaderV4) (rest : List Byte)
    (more : List (List Byte))
    (hdl : c.conn.deadlineErr = none) (hr : h.InRange)
    (hu : c.conn.unread = ((encodeHeader h []).2 ++ rest) :: more) :
    ReadResponse c =
      match verifyHeader h with
      | some err =>
        ({ c with
            conn := { c.conn with unread := if rest.length = 0 then more else rest :: more },
            hdr := h }, Reply.error err)
      | none =>
        if h.sequenceNum ≠ (c.hdr.sequenceNum + 4294967295) % 4294967296 then
          ({ c with
              conn := { c.conn with unread := if rest.length = 0 then more else rest :: more },
              hdr := h }, Reply.error Err.ErrLrpc2SeqNumMismatch)
        else
          match ({ c.conn with unread := if rest.length = 0 then more else rest :: more }
              : Conn).Read h.msgDataLen with
          | (conn2, _, _, some err) => ({ c with conn := conn2, hdr := h }, Reply.error err)
          | (conn2, bytesMsgData, _, none) =>
            match decode bytesMsgData with
            | DecodeResult.ok _ res => ({ c with conn := conn2, hdr := h }, Reply.ok res)
            | DecodeResult.error err => ({ c with conn := conn2, hdr := h }, Reply.error err)
            | DecodeResult.panic => ({ c with conn := conn2, hdr := h }, Reply.panic)
            | DecodeResult.outOfFuel => ({ c with conn := conn2, hdr := h }, Reply.outOfFuel) := by
  have hl := encodeHeader_length h
  have r1 := Conn_Read_prefix c.conn (encodeHeader h []).2 rest more (by omega) hu
  rw [hl] at r1
  have hH : HeaderLen = 34 := rfl
  simp only [ReadResponse, hdl, hH, r1, decodeHeader_encodeHeader_nil h _ hr]

/-- C11 fails on the code: in two consecutive successful request/reply cycles of one
client with the test handler `echo`, both request headers carry the sequence number
7. In general a successful `ReadResponse` leaves the echoed number in the header
embedded in the client, so the next request is sent with the number of the previous
one and not with one more. -/
theorem sequence_number_repeats :
    (requestCycle (RegisterMsgsByID (svrBase.mk (fun _ => none)) msgs)
        (SessionCtxt.mk 0 0 4321 []) (connectedClient 7 4321) connectedSession
        1600000000 1600000001 (Command.uint16 MsgEcho) [Value.uint32 123]).2.2
      = Reply.ok [Value.uint32 123] ∧
    (requestCycle (RegisterMsgsByID (svrBase.mk (fun _ => none)) msgs)
        (SessionCtxt.mk 0 0 4321 [])
        (requestCycle (RegisterMsgsByID (svrBase.mk (fun _ => none)) msgs)
          (SessionCtxt.mk 0 0 4321 []) (connectedClient 7 4321) connectedSession
          1600000000 1600000001 (Command.uint16 MsgEcho) [Value.uint32 123]).1
        (requestCycle (RegisterMsgsByID (svrBase.mk (fun _ => none)) msgs)
          (SessionCtxt.mk 0 0 4321 []) (connectedClient 7 4321) connectedSession
          1600000000 1600000001 (Command.uint16 MsgEcho) [Value.uint32 123]).2.1
        1600000002 1600000003 (Command.uint16 MsgEcho) [Value.uint32 124]).2.2
      = Reply.ok [Value.uint32 124] ∧
    (decodeHeader (lrpc2HeaderV4.mk 0 0 0 0 0 0 0)
      (requestCycle (RegisterMsgsByID (svrBase.mk (fun _ => none)) msgs)
        (SessionCtxt.mk 0 0 4321 []) (connectedClient 7 4321) connectedSession
        1600000000 1600000001 (Command.uint16 MsgEcho)
        [Value.uint32 123]).1.conn.written).1.sequenceNum = 7 ∧
    (decodeHeader (lrpc2HeaderV4.mk 0 0 0 0 0 0 0)
      ((requestCycle (RegisterMsgsByID (svrBase.mk (fun _ => none)) msgs)
        (SessionCtxt.mk 0 0 4321 [])
        (requestCycle (RegisterMsgsByID (svrBase.mk (fun _ => none)) msgs)
          (SessionCtxt.mk 0 0 4321 []) (connectedClient 7 4321) connectedSession
          1600000000 1600000001 (Command.uint16 MsgEcho) [Value.uint32 123]).1
        (requestCycle (RegisterMsgsByID (svrBase.mk (fun _ => none)) msgs)
          (SessionCtxt.mk 0 0 4321 []) (connectedClient 7 4321) connectedSession
          1600000000 1600000001 (Command.uint16 MsgEcho) [Value.uint32 123]).2.1
        1600000002 1600000003 (Command.uint16 MsgEcho)
        [Value.uint32 124]).1.conn.written.drop 42)).1.sequenceNum = 7 ∧
    ∀ (c c1 c2 c3 : lrpc2Client) (conn : Conn) (now now2 : Nat) (cmd cmd2 : Command)
      (args args2 res : List Value),
      c.hdr.sequenceNum < 4294967296 →
      WriteRequest c now cmd args = (c1, none) →
      ReadResponse { c1 with conn := conn } = (c2, Reply.ok res) →
      WriteRequest c2 now2 cmd2 args2 = (c3, none) →
      ∃ (sent sent2 : lrpc2HeaderV4) (payload payload2 : List Byte),
        c1.conn.written = c.conn.written ++ ((encodeHeader sent []).2 ++ payload) ∧
        c3.conn.written = c2.conn.written ++ ((encodeHeader sent2 []).2 ++ payload2) ∧
        sent2.sequenceNum = sent.sequenceNum := by
  refine ⟨by decide, by decide, by decide, by decide, ?_⟩
  intro c c1 c2 c3 conn now now2 cmd cmd2 args args2 res hseq hW hR hW2
  obtain ⟨-, id, payload, sent, -, -, hs, hw, hn⟩ := WriteRequest_ok_inv c c1 now cmd args hW
  obtain ⟨-, id2, payload2, sent2, -, -, hs2, hw2, -⟩ :=
    WriteRequest_ok_inv c2 c3 now2 cmd2 args2 hW2
  have h2 := ReadResponse_ok_inv _ c2 res hR
  simp only at h2
  refine ⟨sent, sent2, payload, payload2, hw, hw2, ?_⟩
  rw [hs, hs2, h2, hn]
  omega

/-- C13 fails on the code as stated: when `SetDeadline` fails, `WriteRequest` returns
before its deferred call is registered and the sequence number stays 7. -/
theorem WriteRequest_deadline_keeps_sequenceNum :
    (WriteRequest
        { connectedClient 7 4321 with
          conn := { idleConn with deadlineErr := some (Err.transport "use of closed network connection") } }
        1600000000 (Command.uint16 MsgEcho) [Value.uint32 123]).1.hdr.sequenceNum = 7 ∧
    (WriteRequest
        { connectedClient 7 4321 with
          conn := { idleConn with deadlineErr := some (Err.transport "use of closed network connection") } }
        1600000000 (Command.uint16 MsgEcho) [Value.uint32 123]).2
      = some (Err.transport "use of closed network connection") ∧
    (7 + 1) % 4294967296 ≠ 7 := by
  decide

/-- C13 as amended: every call of `WriteRequest` in which `SetDeadline` succeeds
leaves the sequence number of the client at its value before the call plus one
modulo `2^32`, whatever the call returns; a call in which `SetDeadline` fails returns
that error and leaves the client as it was. -/
theorem WriteRequest_increments_sequenceNum (c : lrpc2Client) (now : Nat) (cmd : Command)
    (args : List Value) (hdl : c.conn.deadlineErr = none) :
    (WriteRequest c now cmd args).1.hdr.sequenceNum = (c.hdr.sequenceNum + 1) % 4294967296 ∧
    ∀ (c0 : lrpc2Client) (err : Err), c0.conn.deadlineErr = some err →
      WriteRequest c0 now cmd args = (c0, some err) :=
  ⟨WriteRequest_sequenceNum c now cmd args hdl,
    fun c0 err h => WriteRequest_deadline_failed c0 now cmd args err h⟩

/-- Witness of C13 as amended: a command that is out of range still moves the
sequence number from the largest `uint32` to 0. -/
theorem WriteRequest_increments_sequenceNum_witness :
    (connectedClient 4294967295 4321).conn.deadlineErr = none ∧
    (WriteRequest (connectedClient 4294967295 4321) 1600000000 (Command.int 65536)
      [Value.uint32 123]).2 = some Err.ErrLrpcServerCommandOutOfRange ∧
    (WriteRequest (connectedClient 4294967295 4321) 1600000000 (Command.int 65536)
      [Value.uint32 123]).1.hdr.sequenceNum = (4294967295 + 1) % 4294967296 :=
  ⟨rfl, by decide,
    (WriteRequest_increments_sequenceNum (connectedClient 4294967295 4321) 1600000000
      (Command.int 65536) [Value.uint32 123] rfl).1⟩

/-! ## Limits and ranges checked by `WriteRequest` -/

theorem WriteRequest_accepted (c : lrpc2Client) (now id : Nat) (cmd : Command)
    (args : List Value) (payload : List Byte) (hdl : c.conn.deadlineErr = none)
    (hcmd : requestID cmd = Except.ok id) (henc : encode id args = Except.ok payload) :
    WriteRequest c now cmd args =
      if payload.length > c.maxMsgDataLen then
        (setupNextRequest c ((c.hdr.sequenceNum + 1) % 4294967296),
          some Err.ErrLrpc2MsgTooLong)
      else
        (setupNextRequest
          { c with
            hdr := { c.hdr with
              msgDataLen := payload.length % 4294967296,
              timestamp := now % 18446744073709551616 },
            conn := (c.conn.Write ((encodeHeader { c.hdr with
              msgDataLen := payload.length % 4294967296,
              timestamp := now % 18446744073709551616 } []).2 ++ payload)).1 }
          ((c.hdr.sequenceNum + 1) % 4294967296),
          (c.conn.Write ((encodeHeader { c.hdr with
              msgDataLen := payload.length % 4294967296,
              timestamp := now % 18446744073709551616 } []).2 ++ payload)).2) := by
  simp only [WriteRequest, hdl, hcmd, henc]
  split_ifs
  · rfl
  · rw [encodeHeader_eq]

theorem Conn_Write_written (conn : Conn) (b : List Byte) :
    (conn.Write b).2 = conn.writeErr ∧
    (conn.writeErr = none → (conn.Write b).1.written = conn.written ++ b) ∧
    (conn.writeErr ≠ none → (conn.Write b).1 = conn) := by
  unfold Conn.Write
  cases h : conn.writeErr <;> simp

theorem doHandShake_ack (c : lrpc2Client) (rand pid m : Nat) (more : List (List Byte))
    (hm : m < 4294967296) (hdl : c.conn.deadlineErr = none) (hw : c.conn.writeErr = none)
    (hu : c.conn.unread = (leBytes 4 lrpc2Ack ++ leBytes 4 m) :: more) :
    (c.doHandShake rand pid).2 = none ∧ (c.doHandShake rand pid).1.maxMsgDataLen = m := by
  obtain ⟨hdr, ⟨dl, unread, re, we, wr⟩, mx, sp⟩ := c
  simp only at hdl hw hu
  subst hdl hw hu
  have hl : (leBytes 4 lrpc2Ack ++ leBytes 4 m).length = 8 := by
    simp [leBytes_length]
  have hrd := Conn_Read_whole
    (Conn.mk none ((leBytes 4 lrpc2Ack ++ leBytes 4 m) :: more) re none
      (wr ++ leBytes 4 lrpc2Version4))
    (leBytes 4 lrpc2Ack ++ leBytes 4 m) more (by omega) rfl
  rw [hl] at hrd
  have h8 : lrpc2HandshakeReplyV4Size = 8 := rfl
  have hmm : m % 256 ^ 4 = m := Nat.mod_eq_of_lt (by omega)
  have hack : lrpc2Ack % 256 ^ 4 ≠ lrpc2Nack := by decide
  have hm2 : binaryReadUint 4 0 (leBytes 4 m) = (m, none, []) := by
    have := binaryReadUint_leBytes 4 0 m []
    rwa [List.append_nil, hmm] at this
  simp only [lrpc2Client.doHandShake, Conn.Write, h8, hrd, binaryReadUint_leBytes, hack,
    if_false, hm2]
  trivial

/-- C14: for a request whose command is accepted and whose arguments encode, when
the payload is longer than the maximum payload size of the client, `WriteRequest`
returns `ErrLrpc2MsgTooLong` and leaves the connection as it was, with no byte
written; when the payload is not longer (for example of exactly that size) the
header and the payload are handed to `Write`, whose result is returned. The maximum
is the one the server advertised: after a handshake answered by an ack that carries
`m`, the maximum of the client is `m`. -/
theorem WriteRequest_payload_limit (c : lrpc2Client) (now id : Nat) (cmd : Command)
    (args : List Value) (payload : List Byte) (hdl : c.conn.deadlineErr = none)
    (hcmd : requestID cmd = Except.ok id) (henc : encode id args = Except.ok payload) :
    (c.maxMsgDataLen < payload.length →
      (WriteRequest c now cmd args).2 = some Err.ErrLrpc2MsgTooLong ∧
      (WriteRequest c now cmd args).1.conn = c.conn) ∧
    (payload.length ≤ c.maxMsgDataLen →
      (WriteRequest c now cmd args).2 = c.conn.writeErr ∧
      (c.conn.writeErr = none →
        ∃ sent : lrpc2HeaderV4, sent.msgDataLen = payload.length % 4294967296 ∧
          (WriteRequest c now cmd args).1.conn.written
            = c.conn.written ++ ((encodeHeader sent []).2 ++ payload))) ∧
    (∀ (c0 : lrpc2Client) (rand pid m : Nat) (more : List (List Byte)),
      m < 4294967296 → c0.conn.deadlineErr = none → c0.conn.writeErr = none →
      c0.conn.unread = (leBytes 4 lrpc2Ack ++ leBytes 4 m) :: more →
      (c0.doHandShake rand pid).2 = none ∧ (c0.doHandShake rand pid).1.maxMsgDataLen = m) := by
  have hW := WriteRequest_accepted c now id cmd args payload hdl hcmd henc
  refine ⟨?_, ?_, fun c0 rand pid m more hm h1 h2 h3 => doHandShake_ack c0 rand pid m more hm h1 h2 h3⟩
  · intro hlt
    have : payload.length > c.maxMsgDataLen := hlt
    rw [hW]
    simp only [this, if_true]
    exact ⟨trivial, rfl⟩
  · intro hle
    have : ¬ payload.length > c.maxMsgDataLen := by omega
    rw [hW]
    simp only [this, if_false]
    obtain ⟨w1, w2, -⟩ := Conn_Write_written c.conn ((encodeHeader { c.hdr with
              msgDataLen := payload.length % 4294967296,
              timestamp := now % 18446744073709551616 } []).2 ++ payload)
    refine ⟨w1, fun hw => ⟨_, ?_, w2 hw⟩⟩
    rfl

/-- Witness of C14: with a maximum of 8 bytes, a payload of 13 bytes is rejected and
nothing is written. -/
theorem WriteRequest_payload_limit_witness :
    ({ connectedClient 7 4321 with maxMsgDataLen := 8 } : lrpc2Client).maxMsgDataLen
      < ([100, 0, 3, 1, 0, 0, 0, 3, 2, 0, 0, 0, 0] : List Byte).length ∧
    (WriteRequest { connectedClient 7 4321 with maxMsgDataLen := 8 } 1600000000
      (Command.uint16 MsgEcho) [Value.uint32 1, Value.uint32 2]).2
      = some Err.ErrLrpc2MsgTooLong ∧
    (WriteRequest { connectedClient 7 4321 with maxMsgDataLen := 8 } 1600000000
      (Command.uint16 MsgEcho) [Value.uint32 1, Value.uint32 2]).1.conn
      = ({ connectedClient 7 4321 with maxMsgDataLen := 8 } : lrpc2Client).conn :=
  ⟨by decide,
    (WriteRequest_payload_limit { connectedClient 7 4321 with maxMsgDataLen := 8 } 1600000000
      MsgEcho (Command.uint16 MsgEcho) [Value.uint32 1, Value.uint32 2]
      [100, 0, 3, 1, 0, 0, 0, 3, 2, 0, 0, 0, 0] rfl rfl rfl).1 (by decide)⟩

theorem encodeArgs_extends (args : List Value) (buf out : List Byte)
    (h : encodeArgs buf args = Except.ok out) : buf <+: out := by
  induction args generalizing buf with
  | nil =>
    simp only [encodeArgs, Except.ok.injEq] at h
    rw [h]
  | cons v vs ih =>
    cases v with
    | other t => simp [encodeArgs] at h
    | uint32Slice l =>
      rw [encodeArgs, foldl_wireUint32s] at h
      exact (List.prefix_append _ _).trans (ih _ h)
    | stringSlice l =>
      rw [encodeArgs, foldl_wireEntries] at h
      exact (by simp only [List.append_assoc]; exact List.prefix_append _ _ :
        buf <+: _).trans (ih _ h)
    | stringMap l =>
      rw [encodeArgs, foldl_wirePairs] at h
      exact (by simp only [List.append_assoc]; exact List.prefix_append _ _ :
        buf <+: _).trans (ih _ h)
    | _ =>
      rw [encodeArgs] at h
      exact (by simp only [List.append_assoc]; exact List.prefix_append _ _ :
        buf <+: _).trans (ih _ h)

/-- What `encode` returns begins with the message ID in two little-endian bytes. -/
theorem encode_messageID (id : Nat) (args : List Value) (payload : List Byte)
    (hid : id < 65536) (h : encode id args = Except.ok payload) :
    ∃ t, payload = leBytes 2 id ++ t ∧ binaryReadUint 2 0 payload = (id, none, t) := by
  unfold encode at h
  split at h
  · simp at h
  · next buf hb =>
    simp only [Except.ok.injEq] at h
    obtain ⟨t, ht⟩ := encodeArgs_extends args _ _ hb
    refine ⟨t ++ [msgEnd], by rw [← h, ← ht, List.append_assoc], ?_⟩
    rw [← h, ← ht, List.append_assoc, binaryReadUint_leBytes, Nat.mod_eq_of_lt (by omega)]

theorem WriteRequest_out_of_range (c : lrpc2Client) (now : Nat) (cmd : Command)
    (args : List Value) (hdl : c.conn.deadlineErr = none)
    (h : requestID cmd = Except.error Err.ErrLrpcServerCommandOutOfRange) :
    (WriteRequest c now cmd args).2 = some Err.ErrLrpcServerCommandOutOfRange ∧
    (WriteRequest c now cmd args).1.conn = c.conn := by
  simp only [WriteRequest, hdl, h]
  exact ⟨trivial, rfl⟩

theorem WriteRequest_same_id (c : lrpc2Client) (now id : Nat) (cmd : Command)
    (args : List Value) (h : requestID cmd = Except.ok id) :
    WriteRequest c now cmd args = WriteRequest c now (Command.uint16 id) args := by
  have h2 : requestID (Command.uint16 id) = Except.ok id := rfl
  simp only [WriteRequest, h, h2]

/-! ## Short reads -/

/-- C16 fails on the code: a reply with header and payload `64 00 03 04 03 02 01 00`
(the value `uint32(16909060)`) is read in full when it comes in one piece; when the
last four bytes come in a second piece, `ReadResponse` takes only 38 of the 42 bytes
from the connection, decodes the value 4 from a buffer whose tail was never filled,
and leaves `03 02 01 00` unread; when the header comes in two pieces it decodes a
header whose tail is zero. One `Read` is issued per part and its count is ignored. -/
theorem ReadResponse_short_read :
    (ReadResponse
      { (WriteRequest (connectedClient 7 4321) 1600000000 (Command.uint16 MsgEcho)
          [Value.uint32 16909060]).1 with
        conn := { idleConn with unread :=
          [(encodeHeader (lrpc2HeaderV4.mk lrpc2MagicNum 34 4 4321 7 1600000001 8) []).2
            ++ [100, 0, 3, 4, 3, 2, 1, 0]] } }).2 = Reply.ok [Value.uint32 16909060] ∧
    (ReadResponse
      { (WriteRequest (connectedClient 7 4321) 1600000000 (Command.uint16 MsgEcho)
          [Value.uint32 16909060]).1 with
        conn := { idleConn with unread :=
          [(encodeHeader (lrpc2HeaderV4.mk lrpc2MagicNum 34 4 4321 7 1600000001 8) []).2
            ++ [100, 0, 3, 4], [3, 2, 1, 0]] } }).2 = Reply.ok [Value.uint32 4] ∧
    (ReadResponse
      { (WriteRequest (connectedClient 7 4321) 1600000000 (Command.uint16 MsgEcho)
          [Value.uint32 16909060]).1 with
        conn := { idleConn with unread :=
          [(encodeHeader (lrpc2HeaderV4.mk lrpc2MagicNum 34 4 4321 7 1600000001 8) []).2
            ++ [100, 0, 3, 4], [3, 2, 1, 0]] } }).1.conn.unread = [[3, 2, 1, 0]] ∧
    (ReadResponse
      { (WriteRequest (connectedClient 7 4321) 1600000000 (Command.uint16 MsgEcho)
          [Value.uint32 16909060]).1 with
        conn := { idleConn with unread :=
          [((encodeHeader (lrpc2HeaderV4.mk lrpc2MagicNum 34 4 4321 7 1600000001 8) []).2).take 20,
            ((encodeHeader (lrpc2HeaderV4.mk lrpc2MagicNum 34 4 4321 7 1600000001 8) []).2).drop 20
              ++ [100, 0, 3, 4, 3, 2, 1, 0]] } }).2
      = Reply.error (Err.readMsgID Err.EOF) := by
  decide

/-! ## Responses of the server -/

theorem leNat_lt (l : List Byte) : leNat l < 256 ^ l.length := by
  induction l with
  | nil => simp [leNat]
  | cons b bs ih =>
    have hb := b.isLt
    simp only [leNat, List.length_cons, pow_succ]
    omega

theorem binaryReadUint_lt {n cur v : Nat} {buf rest : List Byte}
    (h : binaryReadUint n cur buf = (v, none, rest)) : v < 256 ^ n := by
  obtain ⟨hle, hv, -⟩ := binaryReadUint_none h
  rw [hv]
  have := leNat_lt (buf.take n)
  rwa [List.length_take, Nat.min_eq_left hle] at this

/-- A header that `decodeHeader` read without error has its fields in the ranges of
their types. -/
theorem decodeHeader_inRange (h0 h : lrpc2HeaderV4) (buf rest : List Byte)
    (hd : decodeHeader h0 buf = (h, none, rest)) : h.InRange := by
  simp only [decodeHeader] at hd
  split at hd
  · simp at hd
  next v1 b1 e1 =>
  split at hd
  · simp at hd
  next v2 b2 e2 =>
  split at hd
  · simp at hd
  next v3 b3 e3 =>
  split at hd
  · simp at hd
  next v4 b4 e4 =>
  split at hd
  · simp at hd
  next v5 b5 e5 =>
  split at hd
  · simp at hd
  next v6 b6 e6 =>
  split at hd
  · simp at hd
  next v7 b7 e7 =>
  simp only [Prod.mk.injEq, and_true] at hd
  rw [← hd.1]
  exact ⟨binaryReadUint_lt e1, binaryReadUint_lt e2, binaryReadUint_lt e3,
    binaryReadUint_lt e4, binaryReadUint_lt e5, binaryReadUint_lt e6, binaryReadUint_lt e7⟩

theorem Conn_Read_keeps (conn : Conn) (n : Nat) :
    (conn.Read n).1.deadlineErr = conn.deadlineErr ∧
    (conn.Read n).1.writeErr = conn.writeErr ∧
    (conn.Read n).1.written = conn.written := by
  unfold Conn.Read
  split_ifs
  · exact ⟨rfl, rfl, rfl⟩
  · split <;> exact ⟨rfl, rfl, rfl⟩

theorem read_keeps (conn : Conn) (n : Nat) :
    (read conn n).1.deadlineErr = conn.deadlineErr ∧
    (read conn n).1.writeErr = conn.writeErr ∧
    (read conn n).1.written = conn.written := by
  have h := Conn_Read_keeps conn n
  unfold read
  split
  · next c1 p k e he => rw [he] at h; exact h
  · next c1 p k he => rw [he] at h; exact h

/-- What is known of a request that `ReadRequest` returned: the session is connected
and its deadline can be set, nothing was written, the session header is untouched,
and the request header has fields in range and passes `verifyHeader`. -/
theorem ReadRequest_ok_inv (s0 s : lrpc2Server) (h : lrpc2HeaderV4) (cmd : Nat)
    (args : List Value) (hreq : ReadRequest s0 = (s, Request.ok h cmd args)) :
    s.connected = true ∧ s.conn.deadlineErr = none ∧ s.hdr = s0.hdr ∧
    s.conn.writeErr = s0.conn.writeErr ∧ s.conn.written = s0.conn.written ∧
    h.InRange ∧ verifyHeader h = none := by
  simp only [ReadRequest] at hreq
  split at hreq
  · simp at hreq
  next hdl =>
  split at hreq
  · simp at hreq
  split_ifs at hreq with hc
  · simp at hreq
  split at hreq
  · simp at hreq
  next conn1 p1 k1 hr1 =>
  split at hreq
  · simp at hreq
  next hd r1 hdec =>
  split at hreq
  · simp at hreq
  next hv =>
  split at hreq
  · simp at hreq
  next conn2 p2 k2 hr2 =>
  have k1 := read_keeps s0.conn HeaderLen
  rw [hr1] at k1
  have k2 := read_keeps conn1 hd.msgDataLen
  rw [hr2] at k2
  simp only at k1 k2
  split at hreq <;> simp only [Prod.mk.injEq, Request.ok.injEq, reduceCtorEq, and_false] at hreq
  obtain ⟨hs, hh, -, -⟩ := hreq
  subst hs hh
  refine ⟨by simpa using hc, ?_, rfl, ?_, ?_, decodeHeader_inRange _ _ _ _ hdec, hv⟩
  · show conn2.deadlineErr = none
    rw [k2.1, k1.1, hdl]
  · show conn2.writeErr = s0.conn.writeErr
    rw [k2.2.1, k1.2.1]
  · show conn2.written = s0.conn.written
    rw [k2.2.2, k1.2.2]

/-- The reply that `WriteResponse` sends for a request header that `ReadRequest`
returned, when the results encode and the write succeeds. -/
theorem WriteResponse_sends (s0 s : lrpc2Server) (h : lrpc2HeaderV4) (cmd0 : Nat)
    (args0 : List Value) (now cmd : Nat) (results : List Value) (payload : List Byte)
    (hreq : ReadRequest s0 = (s, Request.ok h cmd0 args0))
    (hw : s.conn.writeErr = none)
    (henc : encode cmd results = Except.ok payload) :
    WriteResponse s now (some h) (Command.uint16 cmd) results =
      ({ s with
          hdr := { s.hdr with
            sequenceNum := h.sequenceNum, pid := h.pid,
            timestamp := now % 18446744073709551616,
            msgDataLen := payload.length % 4294967296 },
          conn := { s.conn with
            written := s.conn.written ++ ((encodeHeader { s.hdr with
              sequenceNum := h.sequenceNum, pid := h.pid,
              timestamp := now % 18446744073709551616,
              msgDataLen := payload.length % 4294967296 } []).2 ++ payload) } }, none) := by
  obtain ⟨hc, hdl, -, -, -, -, -⟩ := ReadRequest_ok_inv s0 s h cmd0 args0 hreq
  exact WriteResponse_uint16 s now cmd h results payload hdl hw hc henc

/-- A blob of 4294967288 bytes as only result encodes to `2^32` bytes, and the header
that `WriteResponse` sends for it has payload length 0. -/
theorem WriteResponse_blob_wraps (blob : List Byte) (hb : blob.length = 4294967288) :
    ∃ (payload : List Byte) (s1 : lrpc2Server),
      encode MsgEcho [Value.bytes blob] = Except.ok payload ∧
      payload.length = 4294967296 ∧
      WriteResponse connectedSession 1600000001
        (some (lrpc2HeaderV4.mk lrpc2MagicNum 34 4 4321 7 1600000000 8))
        (Command.uint16 MsgEcho) [Value.bytes blob] = (s1, none) ∧
      s1.conn.written = connectedSession.conn.written
        ++ ((encodeHeader (lrpc2HeaderV4.mk lrpc2MagicNum 34 4 4321 7 1600000001 0) []).2
          ++ payload) := by
  have henc : encode MsgEcho [Value.bytes blob]
      = Except.ok (wireFormat MsgEcho [Value.bytes blob]) :=
    encode_eq_wire _ _ (by simp [Value.IsOther])
  have hlen : (wireFormat MsgEcho [Value.bytes blob]).length = 4294967296 := by
    simp [wireFormat, wireValues, wireValue, littleEndianLayout_length, hb]
  have hW := WriteResponse_uint16 connectedSession 1600000001 MsgEcho
    (lrpc2HeaderV4.mk lrpc2MagicNum 34 4 4321 7 1600000000 8)
    [Value.bytes blob] _ rfl rfl rfl henc
  rw [hlen] at hW
  exact ⟨_, _, henc, hlen, hW, rfl⟩

/-- C17 fails on the code: for the request header with sequence number 7 and pid 4321
and a result list that is one blob of 4294967288 bytes, whose encoding has `2^32`
bytes, `WriteResponse` returns no error and sends a header whose payload length is 0,
followed by the `2^32` payload bytes; the claim has the payload length equal to the
length of the encoded results. In general, for every request header that
`ReadRequest` returned, every command and every result list that encodes,
`WriteResponse` on a session whose write succeeds sends the header with the sequence
number and the pid of the request and with the length of the encoded results reduced
modulo `2^32` as payload length, followed by the encoded results: the conversion
`uint32(msgData.Len())` is made without a check of the size, so the payload length is
right exactly for encodings shorter than `2^32` bytes. -/
theorem WriteResponse_length_wraps :
    (∃ (payload : List Byte) (s1 : lrpc2Server),
      encode MsgEcho [Value.bytes (List.replicate 4294967288 0)] = Except.ok payload ∧
      payload.length = 4294967296 ∧
      WriteResponse connectedSession 1600000001
        (some (lrpc2HeaderV4.mk lrpc2MagicNum 34 4 4321 7 1600000000 8))
        (Command.uint16 MsgEcho) [Value.bytes (List.replicate 4294967288 0)] = (s1, none) ∧
      s1.conn.written = connectedSession.conn.written
        ++ ((encodeHeader (lrpc2HeaderV4.mk lrpc2MagicNum 34 4 4321 7 1600000001 0) []).2
          ++ payload)) ∧
    (lrpc2HeaderV4.mk lrpc2MagicNum 34 4 4321 7 1600000001 0).msgDataLen ≠ 4294967296 ∧
    ∀ (s0 s : lrpc2Server) (h : lrpc2HeaderV4) (cmd0 : Nat) (args0 : List Value)
      (now cmd : Nat) (results : List Value) (payload : List Byte),
      ReadRequest s0 = (s, Request.ok h cmd0 args0) →
      s.conn.writeErr = none →
      encode cmd results = Except.ok payload →
      (WriteResponse s now (some h) (Command.uint16 cmd) results).2 = none ∧
      (WriteResponse s now (some h) (Command.uint16 cmd) results).1.conn.written
        = s.conn.written ++ ((encodeHeader (lrpc2HeaderV4.mk s.hdr.magicNum s.hdr.headerLen
            s.hdr.version h.pid h.sequenceNum (now % 18446744073709551616)
            (payload.length % 4294967296)) []).2 ++ payload) ∧
      (payload.length % 4294967296 = payload.length ↔ payload.length < 4294967296) := by
  refine ⟨WriteResponse_blob_wraps _ (List.length_replicate _ _), by decide, ?_⟩
  intro s0 s h cmd0 args0 now cmd results payload hreq hw henc
  rw [WriteResponse_sends s0 s h cmd0 args0 now cmd results payload hreq hw henc]
  refine ⟨rfl, rfl, ?_⟩
  constructor
  · intro h1
    have := Nat.mod_lt payload.length (by norm_num : 0 < 4294967296)
    omega
  · intro h1
    exact Nat.mod_eq_of_lt h1

/-- The reply to a request when the encoded results are shorter than `2^32` bytes: for
every request header `h` that `ReadRequest` returned, every 16-bit command and every
such result list, `WriteResponse` on a session that holds the protocol constants and
whose write succeeds returns no error and sends a 34-byte header followed by the
encoded results; the header has the sequence number and the pid of `h`, the protocol
constants as magic number, header length and version, and the length of the encoded
results as payload length, so it passes `verifyHeader` when that length is at most
1048576; and the payload begins with the command as message ID. -/
theorem WriteResponse_reply (s0 s : lrpc2Server) (h : lrpc2HeaderV4) (cmd0 : Nat)
    (args0 : List Value) (now cmd : Nat) (results : List Value) (payload : List Byte)
    (hreq : ReadRequest s0 = (s, Request.ok h cmd0 args0))
    (hs : s.hdr.magicNum = lrpc2MagicNum ∧ s.hdr.headerLen = lrpc2HeaderLengthV4 ∧
      s.hdr.version = lrpc2Version4)
    (hw : s.conn.writeErr = none) (hcmd : cmd < 65536)
    (henc : encode cmd results = Except.ok payload) (hlen : payload.length < 4294967296) :
    ∃ out : lrpc2HeaderV4,
      (WriteResponse s now (some h) (Command.uint16 cmd) results).2 = none ∧
      (WriteResponse s now (some h) (Command.uint16 cmd) results).1.conn.written
        = s.conn.written ++ ((encodeHeader out []).2 ++ payload) ∧
      (encodeHeader out []).2.length = 34 ∧
      (∀ (h0 : lrpc2HeaderV4) (rest : List Byte),
        decodeHeader h0 ((encodeHeader out []).2 ++ rest) = (out, none, rest)) ∧
      out.sequenceNum = h.sequenceNum ∧ out.pid = h.pid ∧
      out.magicNum = lrpc2MagicNum ∧ out.headerLen = lrpc2HeaderLengthV4 ∧
      out.version = lrpc2Version4 ∧ out.msgDataLen = payload.length ∧
      (payload.length ≤ 1048576 → verifyHeader out = none) ∧
      ∃ t, payload = leBytes 2 cmd ++ t ∧ binaryReadUint 2 0 payload = (cmd, none, t) := by
  obtain ⟨-, -, -, -, -, ⟨-, -, -, hp, hq, -, -⟩, -⟩ := ReadRequest_ok_inv s0 s h cmd0 args0 hreq
  obtain ⟨hs1, hs2, hs3⟩ := hs
  have hW := WriteResponse_sends s0 s h cmd0 args0 now cmd results payload hreq hw henc
  have hmod : payload.length % 4294967296 = payload.length := Nat.mod_eq_of_lt hlen
  simp only [hmod, hs1, hs2, hs3] at hW
  have hts : now % 18446744073709551616 < 2 ^ 64 := Nat.mod_lt _ (by norm_num)
  have hr := inRange_consts h.pid h.sequenceNum (now % 18446744073709551616) payload.length
    hp hq hts (by omega)
  refine ⟨lrpc2HeaderV4.mk lrpc2MagicNum lrpc2HeaderLengthV4 lrpc2Version4 h.pid h.sequenceNum
    (now % 18446744073709551616) payload.length, ?_, ?_, encodeHeader_length _,
    fun h0 rest => decodeHeader_encodeHeader _ h0 rest hr, rfl, rfl, rfl, rfl, rfl, rfl,
    fun hle => verifyHeader_consts _ _ _ _ hle, encode_messageID cmd results payload hcmd henc⟩
  · rw [hW]
  · rw [hW]

/-- An instance: the reply to the request of the echo test. -/
theorem WriteResponse_reply_example :
    ∃ out : lrpc2HeaderV4,
      (WriteResponse connectedSession 1600000001
        (some (lrpc2HeaderV4.mk lrpc2MagicNum 34 4 4321 7 1600000000 8))
        (Command.uint16 MsgEcho) [Value.uint32 123]).2 = none ∧
      (WriteResponse connectedSession 1600000001
        (some (lrpc2HeaderV4.mk lrpc2MagicNum 34 4 4321 7 1600000000 8))
        (Command.uint16 MsgEcho) [Value.uint32 123]).1.conn.written
        = connectedSession.conn.written
          ++ ((encodeHeader out []).2 ++ [100, 0, 3, 123, 0, 0, 0, 0]) ∧
      out.sequenceNum = 7 ∧ out.pid = 4321 ∧ out.msgDataLen = 8 ∧
      verifyHeader out = none := by
  obtain ⟨out, h1, h2, -, -, h3, h4, -, -, -, h5, h6, -⟩ :=
    WriteResponse_reply
      { connectedSession with conn := { idleConn with unread :=
        [(encodeHeader (lrpc2HeaderV4.mk lrpc2MagicNum 34 4 4321 7 1600000000 8) []).2
          ++ [100, 0, 3, 123, 0, 0, 0, 0]] } }
      connectedSession (lrpc2HeaderV4.mk lrpc2MagicNum 34 4 4321 7 1600000000 8) MsgEcho
      [Value.uint32 123] 1600000001 MsgEcho [Value.uint32 123] [100, 0, 3, 123, 0, 0, 0, 0]
      (by decide) ⟨rfl, rfl, rfl⟩ rfl (by decide) rfl (by decide)
  exact ⟨out, h1, h2, h3, h4, h5, h6 (by decide)⟩

theorem RegisterMsgsByID_other (m : List (Nat × Registered)) (s : svrBase) (id : Nat)
    (h : ∀ kv ∈ m, kv.1 ≠ id) :
    (RegisterMsgsByID s m).messageMapByID id = s.messageMapByID id := by
  induction m generalizing s with
  | nil => rfl
  | cons kv rest ih =>
    have h1 : kv.1 ≠ id := h kv (List.mem_cons_self _ _)
    have h2 := ih (RegisterMsgByID s kv.1 kv.2) (fun x hx => h x (List.mem_cons_of_mem _ hx))
    simp only [RegisterMsgsByID, List.foldl_cons] at h2 ⊢
    rw [h2]
    simp only [RegisterMsgByID]
    rw [if_neg (fun e => h1 e.symm)]

theorem RegisterMsgsByID_last (m rest : List (Nat × Registered)) (s : svrBase) (id : Nat)
    (v : Registered) (h : ∀ kv ∈ rest, kv.1 ≠ id) :
    (RegisterMsgsByID s (m ++ (id, v) :: rest)).messageMapByID id = some v := by
  have h2 := RegisterMsgsByID_other rest
    (RegisterMsgByID (RegisterMsgsByID s m) id v) id h
  simp only [RegisterMsgsByID, List.foldl_append, List.foldl_cons] at h2 ⊢
  rw [h2]
  simp [RegisterMsgByID]

/-- What `dispatch` does for a 16-bit message ID, by what the map holds for it. It
returns without error exactly when the map holds a function of the unnamed handler
type that is not nil; it then returns the result of that function applied to the
session context and the arguments given, unchanged, also when the ID arrives as a
`uint32`. For an ID that the map does not hold, or holds with a nil interface, it
returns the error "not supported" and no results. It panics exactly when the map holds
a nil function, a value of the named type `CommandHandler` or a value of another type.
The value that the map holds is the one registered last for the ID, by
`RegisterMsgByID` or as the last pair with this ID of `RegisterMsgsByID`, and a
registration for another ID leaves the value of this ID and the result of `dispatch`
for it as they were. -/
theorem dispatch_registered_handler (s : svrBase) (ctxt : SessionCtxt) (id : Nat)
    (args : List Value) (hid : id < 65536) :
    ((∃ r, dispatch s ctxt (Command.uint16 id) args = Dispatched.ok r)
      ↔ ∃ ff, s.messageMapByID id = some (Registered.func ff)) ∧
    (∀ ff, s.messageMapByID id = some (Registered.func ff) →
      dispatch s ctxt (Command.uint16 id) args = Dispatched.ok (ff ctxt args) ∧
      dispatch s ctxt (Command.uint32 id) args = Dispatched.ok (ff ctxt args)) ∧
    (s.messageMapByID id = none ∨ s.messageMapByID id = some Registered.nil →
      dispatch s ctxt (Command.uint16 id) args = Dispatched.error (Err.msgNotSupported id) ∧
      dispatch s ctxt (Command.uint32 id) args = Dispatched.error (Err.msgNotSupported id)) ∧
    (dispatch s ctxt (Command.uint16 id) args = Dispatched.panic
      ↔ s.messageMapByID id = some Registered.nilFunc ∨
        (∃ f, s.messageMapByID id = some (Registered.commandHandler f)) ∨
        ∃ t, s.messageMapByID id = some (Registered.other t)) ∧
    (∀ v w : Registered,
      (RegisterMsgByID s id v).messageMapByID id = some v ∧
      (RegisterMsgByID (RegisterMsgByID s id v) id w).messageMapByID id = some w) ∧
    (∀ (k : Nat) (v : Registered), k ≠ id →
      (RegisterMsgByID s k v).messageMapByID id = s.messageMapByID id ∧
      dispatch (RegisterMsgByID s k v) ctxt (Command.uint16 id) args
        = dispatch s ctxt (Command.uint16 id) args) ∧
    (∀ (m rest : List (Nat × Registered)) (v : Registered),
      (∀ kv ∈ rest, kv.1 ≠ id) →
      (RegisterMsgsByID s (m ++ (id, v) :: rest)).messageMapByID id = some v) ∧
    (∀ m : List (Nat × Registered), (∀ kv ∈ m, kv.1 ≠ id) →
      dispatch (RegisterMsgsByID s m) ctxt (Command.uint16 id) args
        = dispatch s ctxt (Command.uint16 id) args) := by
  have hmod : id % 65536 = id := Nat.mod_eq_of_lt hid
  refine ⟨?_, ?_, ?_, ?_, ?_, ?_, ?_, ?_⟩
  · cases hm : s.messageMapByID id with
    | none => simp [dispatch, hm]
    | some v => cases v <;> simp [dispatch, hm]
  · intro ff hff
    refine ⟨dispatch_registered s ctxt id ff args hff, ?_⟩
    simp [dispatch, hmod, hff]
  · rintro (hn | hn)
    · constructor
      · simp [dispatch, hn]
      · simp [dispatch, hmod, hn]
    · constructor
      · simp [dispatch, hn]
      · simp [dispatch, hmod, hn]
  · cases hm : s.messageMapByID id with
    | none => simp [dispatch, hm]
    | some v => cases v <;> simp [dispatch, hm]
  · intro v w
    constructor <;> simp [RegisterMsgByID]
  · intro k v hk
    have hmap : (RegisterMsgByID s k v).messageMapByID id = s.messageMapByID id := by
      simp only [RegisterMsgByID]
      rw [if_neg (fun e => hk e.symm)]
    refine ⟨hmap, ?_⟩
    simp only [dispatch, hmap]
  · intro m rest v hrest
    exact RegisterMsgsByID_last m rest s id v hrest
  · intro m hm
    simp only [dispatch, RegisterMsgsByID_other m s id hm]

/-- An instance for the server of the tests, which registers `msgs`: it dispatches
message 100 to `echo` and has no handler for message 101. -/
theorem dispatch_registered_handler_example :
    dispatch (RegisterMsgsByID (svrBase.mk (fun _ => none)) msgs) (SessionCtxt.mk 0 0 0 [])
        (Command.uint16 MsgEcho) [Value.uint32 123] = Dispatched.ok (some [Value.uint32 123]) ∧
    dispatch (RegisterMsgsByID (svrBase.mk (fun _ => none)) msgs) (SessionCtxt.mk 0 0 0 [])
        (Command.uint16 101) [Value.uint32 123] = Dispatched.error (Err.msgNotSupported 101) :=
  ⟨((dispatch_registered_handler (RegisterMsgsByID (svrBase.mk (fun _ => none)) msgs)
      (SessionCtxt.mk 0 0 0 []) MsgEcho [Value.uint32 123] (by decide)).2.1 echo rfl).1,
   ((dispatch_registered_handler (RegisterMsgsByID (svrBase.mk (fun _ => none)) msgs)
      (SessionCtxt.mk 0 0 0 []) 101 [Value.uint32 123] (by decide)).2.2.1 (Or.inl rfl)).1⟩

/-- C18 fails on the code: with the handler `echo` registered for message 100 as a
value of the named type `CommandHandler`, which is how the package documentation asks
for handlers, `dispatch` of message 100 panics in its type assertion and neither
invokes the handler nor returns its result; registered as a function of the unnamed
type, as the tests do, the same handler is invoked and its result returned. In
general `dispatch` panics for every 16-bit ID for which the map holds a value of the
named type, a nil function or a value of another type, whether the ID arrives as
`uint16` or `uint32`, and the pass of the connection loop that dispatches it panics.
For the other IDs the claim holds: a function of the unnamed type is invoked with the
session context and the arguments and its result is returned unchanged with no error,
an ID without registered value gives the error "not supported", the value registered
last for an ID is the one the map holds, and a registration for one ID does not change
what the map holds for another. -/
theorem dispatch_CommandHandler_panics :
    dispatch (RegisterMsgByID (svrBase.mk (fun _ => none)) MsgEcho
        (Registered.commandHandler echo)) (SessionCtxt.mk 0 0 4321 [])
        (Command.uint16 MsgEcho) [Value.uint32 123] = Dispatched.panic ∧
    dispatch (RegisterMsgByID (svrBase.mk (fun _ => none)) MsgEcho
        (Registered.func echo)) (SessionCtxt.mk 0 0 4321 [])
        (Command.uint16 MsgEcho) [Value.uint32 123] = Dispatched.ok (some [Value.uint32 123]) ∧
    (∀ (s : svrBase) (ctxt : SessionCtxt) (id : Nat) (args : List Value), id < 65536 →
      (s.messageMapByID id = some Registered.nilFunc ∨
        (∃ f, s.messageMapByID id = some (Registered.commandHandler f)) ∨
        ∃ t, s.messageMapByID id = some (Registered.other t)) →
      dispatch s ctxt (Command.uint16 id) args = Dispatched.panic ∧
      dispatch s ctxt (Command.uint32 id) args = Dispatched.panic ∧
      ∀ (now : Nat) (s0 m1 : lrpc2Server) (h : lrpc2HeaderV4),
        ReadRequest s0 = (m1, Request.ok h id args) →
        handleConnectionBody s ctxt now s0 = (m1, LoopStep.panic)) ∧
    (∀ (s : svrBase) (ctxt : SessionCtxt) (id : Nat) (args : List Value), id < 65536 →
      (∀ ff, s.messageMapByID id = some (Registered.func ff) →
        dispatch s ctxt (Command.uint16 id) args = Dispatched.ok (ff ctxt args) ∧
        dispatch s ctxt (Command.uint32 id) args = Dispatched.ok (ff ctxt args)) ∧
      (s.messageMapByID id = none ∨ s.messageMapByID id = some Registered.nil →
        dispatch s ctxt (Command.uint16 id) args
          = Dispatched.error (Err.msgNotSupported id) ∧
        dispatch s ctxt (Command.uint32 id) args
          = Dispatched.error (Err.msgNotSupported id)) ∧
      (∀ v w : Registered,
        (RegisterMsgByID s id v).messageMapByID id = some v ∧
        (RegisterMsgByID (RegisterMsgByID s id v) id w).messageMapByID id = some w) ∧
      (∀ (k : Nat) (v : Registered), k ≠ id →
        (RegisterMsgByID s k v).messageMapByID id = s.messageMapByID id)) := by
  refine ⟨rfl, by decide, ?_, ?_⟩
  · intro s ctxt id args hid hreg
    have hmod : id % 65536 = id := Nat.mod_eq_of_lt hid
    have h16 : dispatch s ctxt (Command.uint16 id) args = Dispatched.panic := by
      rcases hreg with h | ⟨f, h⟩ | ⟨t, h⟩ <;> simp [dispatch, h]
    have h32 : dispatch s ctxt (Command.uint32 id) args = Dispatched.panic := by
      rcases hreg with h | ⟨f, h⟩ | ⟨t, h⟩ <;> simp [dispatch, hmod, h]
    refine ⟨h16, h32, ?_⟩
    intro now s0 m1 h hreq
    simp only [handleConnectionBody, hreq, h16]
  · intro s ctxt id args hid
    obtain ⟨-, h2, h3, -, h5, h6, -, -⟩ := dispatch_registered_handler s ctxt id args hid
    exact ⟨h2, h3, h5, fun k v hk => (h6 k v hk).1⟩

/-- C19: in one pass of the connection loop in which `ReadRequest` returned a request
and `dispatch` found its handler: when the handler returns nil, `WriteResponse` is not
called, the bytes written to the connection are those written before, and the loop
goes on to read the next request from the session as `ReadRequest` left it; when the
handler returns a list that is not nil, the pass is the call of `WriteResponse` with
the request header, the command and that list, and the loop goes on when it returns
no error and ends when it returns one; when the write succeeds, the bytes sent are a
header followed by the encoded list, and for the empty list these are the 2 bytes of
the message ID and the end tag, which decode to no values. -/
theorem handleConnection_writes_response (s : svrBase) (ctxt : SessionCtxt) (now : Nat)
    (s0 m1 : lrpc2Server) (h : lrpc2HeaderV4) (cmd : Nat) (args : List Value)
    (ff : CommandHandler)
    (hreq : ReadRequest s0 = (m1, Request.ok h cmd args))
    (hreg : s.messageMapByID cmd = some (Registered.func ff)) :
    (ff ctxt args = none →
      handleConnectionBody s ctxt now s0 = (m1, LoopStep.next) ∧
      m1.conn.written = s0.conn.written ∧
      ∀ (fuel : Nat) (clock : Nat → Nat),
        handleConnection (fuel + 1) s ctxt true clock s0
          = handleConnection fuel s ctxt true clock m1) ∧
    (∀ results : List Value, ff ctxt args = some results →
      (handleConnectionBody s ctxt now s0).1
        = (WriteResponse m1 now (some h) (Command.uint16 cmd) results).1 ∧
      (handleConnectionBody s ctxt now s0).2
        = (if (WriteResponse m1 now (some h) (Command.uint16 cmd) results).2 = none
            then LoopStep.next else LoopStep.done) ∧
      ∀ payload : List Byte, s0.conn.writeErr = none →
        encode cmd results = Except.ok payload →
        ∃ out : lrpc2HeaderV4,
          (handleConnectionBody s ctxt now s0).2 = LoopStep.next ∧
          (handleConnectionBody s ctxt now s0).1.conn.written
            = s0.conn.written ++ ((encodeHeader out []).2 ++ payload) ∧
          (encodeHeader out []).2.length = 34 ∧
          out.sequenceNum = h.sequenceNum ∧
          out.msgDataLen = payload.length % 4294967296) ∧
    (encode cmd [] = Except.ok (littleEndianLayout 2 cmd ++ [msgEnd]) ∧
      (cmd < 65536 →
        decode (littleEndianLayout 2 cmd ++ [msgEnd]) = DecodeResult.ok cmd [])) := by
  obtain ⟨hc, hdl, -, hwe, hwr, -, -⟩ := ReadRequest_ok_inv s0 m1 h cmd args hreq
  have hd := dispatch_registered s ctxt cmd ff args hreg
  refine ⟨?_, ?_, ?_, ?_⟩
  · intro hnil
    have hb : handleConnectionBody s ctxt now s0 = (m1, LoopStep.next) := by
      simp only [handleConnectionBody, hreq, hd, hnil]
    refine ⟨hb, hwr, fun fuel clock => ?_⟩
    have hb2 : handleConnectionBody s ctxt (clock fuel) s0 = (m1, LoopStep.next) := by
      simp only [handleConnectionBody, hreq, hd, hnil]
    simp only [handleConnection, hb2]
    simp
  · intro results hres
    have hb : handleConnectionBody s ctxt now s0
        = match WriteResponse m1 now (some h) (Command.uint16 cmd) results with
          | (m2, some _) => (m2, LoopStep.done)
          | (m2, none) => (m2, LoopStep.next) := by
      simp only [handleConnectionBody, hreq, hd, hres]
    refine ⟨?_, ?_, ?_⟩
    · rw [hb]
      split <;> next hW => rw [hW]
    · rw [hb]
      split <;> next hW => (rw [hW]; simp)
    · intro payload hw henc
      have hW := WriteResponse_uint16 m1 now cmd h results payload hdl (hwe.trans hw) hc henc
      rw [hb, hW, hwr]
      exact ⟨_, rfl, rfl, encodeHeader_length _, rfl, rfl⟩
  · have := encode_eq_wire cmd [] (by simp)
    simpa [wireFormat, wireValues, msgEnd] using this
  · intro hcmd
    have := decode_wireFormat cmd [] hcmd (by simp)
    simpa [wireFormat, wireValues, msgEnd] using this

/-- Witness of C19: the request of `TestAsync`, whose handler returns nil; the pass
writes nothing and the loop goes on. -/
theorem handleConnection_writes_response_witness :
    handleConnectionBody (RegisterMsgsByID (svrBase.mk (fun _ => none)) msgs)
        (SessionCtxt.mk 0 0 0 []) 1600000001
        { connectedSession with conn := { idleConn with unread :=
          [(encodeHeader (lrpc2HeaderV4.mk lrpc2MagicNum 34 4 4321 7 1600000000 3) []).2
            ++ [102, 0, 0]] } }
      = (connectedSession, LoopStep.next) ∧
    connectedSession.conn.written = [] :=
  ⟨((handleConnection_writes_response (RegisterMsgsByID (svrBase.mk (fun _ => none)) msgs)
      (SessionCtxt.mk 0 0 0 []) 1600000001
      { connectedSession with conn := { idleConn with unread :=
        [(encodeHeader (lrpc2HeaderV4.mk lrpc2MagicNum 34 4 4321 7 1600000000 3) []).2
          ++ [102, 0, 0]] } }
      connectedSession (lrpc2HeaderV4.mk lrpc2MagicNum 34 4 4321 7 1600000000 3) MsgAsync []
      async (by decide) rfl).1 rfl).1, rfl⟩

/-- C20 fails on the code as stated: the nack that `replyNACK` sends is 4 bytes, the
word 0 alone, with no maximum payload size after it. -/
theorem replyNACK_four_bytes :
    replyNACK (initLrpc2ServerSession idleConn)
      = ({ initLrpc2ServerSession idleConn with
            conn := { idleConn with written := [0, 0, 0, 0] } }, none) ∧
    (replyNACK (initLrpc2ServerSession idleConn)).1.conn.written.length = 4 ∧
    (replyNACK (initLrpc2ServerSession idleConn)).1.conn.written.length ≠ 8 := by
  decide

/-- C20 as amended: on a session whose write succeeds, `replyACK` sends exactly 8
bytes, the 32-bit little-endian word 1 followed by the 32-bit little-endian maximum
payload size 1048576, and `replyNACK` sends exactly 4 bytes, the 32-bit little-endian
word 0 and nothing after it; both return no error and change nothing else of the
session. -/
theorem handshake_reply_layout (s : lrpc2Server) (hw : s.conn.writeErr = none) :
    replyACK s = ({ s with conn := { s.conn with
      written := s.conn.written ++ (littleEndianLayout 4 1 ++ littleEndianLayout 4 1048576) } },
      none) ∧
    (littleEndianLayout 4 1 ++ littleEndianLayout 4 1048576
      : List Byte) = [1, 0, 0, 0, 0, 0, 16, 0] ∧
    replyNACK s = ({ s with conn := { s.conn with
      written := s.conn.written ++ littleEndianLayout 4 0 } }, none) ∧
    (littleEndianLayout 4 0 : List Byte) = [0, 0, 0, 0] := by
  refine ⟨?_, by decide, ?_, by decide⟩
  · simp only [replyACK, sendBuf, write, Conn.Write, hw, List.foldl_cons, List.foldl_nil,
      List.nil_append, leBytes_eq_layout, lrpc2Ack, lrpc2MaxMsgLen]
  · simp only [replyNACK, sendBuf, write, Conn.Write, hw, List.foldl_cons, List.foldl_nil,
      List.nil_append, leBytes_eq_layout, lrpc2Nack]

/-- Witness of C20 as amended: the two replies on a fresh session. -/
theorem handshake_reply_layout_witness :
    (replyACK (initLrpc2ServerSession idleConn)).1.conn.written = [1, 0, 0, 0, 0, 0, 16, 0] ∧
    (replyNACK (initLrpc2ServerSession idleConn)).1.conn.written = [0, 0, 0, 0] := by
  obtain ⟨h1, -, h2, -⟩ := handshake_reply_layout (initLrpc2ServerSession idleConn) rfl
  rw [h1, h2]
  decide

/-! ## The handshake of the server -/

theorem Conn_Read_length (conn : Conn) (n : Nat) : (conn.Read n).2.1.length = n := by
  unfold Conn.Read
  split_ifs with h0
  · simp [h0]
  · split
    · simp
    · simp only [List.length_append, List.length_take, List.length_replicate]
      omega

theorem read_length (conn : Conn) (n : Nat) : (read conn n).2.1.length = n := by
  have h := Conn_Read_length conn n
  unfold read
  split
  · next c1 p k e he => rw [he] at h; exact h
  · next c1 p k he => rw [he] at h; exact h

/-- C21: for a handshake whose deadline was set and whose request was read as `n` bytes
without a read error. If `n` is 4, the bytes hold version 4 in little-endian order and
the write succeeds, `doHandShake` sends the ack `01 00 00 00` with the maximum payload
size 1048576 (`00 00 10 00`), leaves the handshake error as it was and marks the
session connected. If `n` is 4 and the version is not 4, it calls `replyNACK` (which
sends `00 00 00 00` when the write succeeds), records `ErrMsgBadVersion` and leaves the
session not connected. If `n` is not 4 it does the same with `ErrMsgBadHandshakeSize`.
In every case the session is no longer in handshake afterwards and exactly one value
is sent on `doneHandShake`. -/
theorem doHandShake_outcome (s : lrpc2Server) (conn1 : Conn) (bytes : List Byte) (n : Nat)
    (hdl : s.conn.deadlineErr = none)
    (hread : read s.conn lrpc2HandshakeRequestSize = (conn1, bytes, n, none)) :
    (n = 4 → leNat bytes = 4 → conn1.writeErr = none →
      s.doHandShake = ({ s with
        conn := { conn1 with written := conn1.written ++ [1, 0, 0, 0, 0, 0, 16, 0] },
        inHandShake := false, connected := true }, 1)) ∧
    (n = 4 → leNat bytes ≠ 4 →
      s.doHandShake = ({ (replyNACK { s with conn := conn1 }).1 with
        inHandShake := false, connected := false,
        handShakeError := some Err.ErrMsgBadVersion }, 1)) ∧
    (n ≠ 4 →
      s.doHandShake = ({ (replyNACK { s with conn := conn1 }).1 with
        inHandShake := false, connected := false,
        handShakeError := some Err.ErrMsgBadHandshakeSize }, 1)) ∧
    (conn1.writeErr = none →
      (replyNACK { s with conn := conn1 }).1
        = { s with conn := { conn1 with written := conn1.written ++ [0, 0, 0, 0] } }) ∧
    (s.doHandShake).1.inHandShake = false ∧ (s.doHandShake).2 = 1 := by
  have hlen : bytes.length = 4 := by
    have := read_length s.conn lrpc2HandshakeRequestSize
    rw [hread] at this
    exact this
  have hrd : binaryReadUint 4 0 bytes = (leNat bytes, none, []) := by
    have h4 : 4 ≤ bytes.length := by omega
    simp only [binaryReadUint, h4, if_true]
    rw [List.take_of_length_le (by omega), List.drop_of_length_le (by omega)]
  have h4 : lrpc2HandshakeRequestSize = 4 := rfl
  have hv : lrpc2Version4 = 4 := rfl
  rw [h4] at hread
  have hack : ∀ (hw : conn1.writeErr = none), replyACK { s with conn := conn1 }
      = ({ s with conn := { conn1 with written := conn1.written ++ [1, 0, 0, 0, 0, 0, 16, 0] } },
        none) := by
    intro hw
    simp only [replyACK, sendBuf, write, Conn.Write, hw, List.foldl_cons, List.foldl_nil,
      List.nil_append]
    rfl
  refine ⟨?_, ?_, ?_, ?_, ?_⟩
  · intro hn hver hw
    subst hn
    simp only [lrpc2Server.doHandShake, hdl, hread, h4, hrd, hver, hv, hack hw]
    simp
  · intro hn hver
    subst hn
    simp only [lrpc2Server.doHandShake, hdl, hread, h4, hrd, hv, setHandShakeErr]
    simp [hver]
  · intro hn
    simp only [lrpc2Server.doHandShake, hdl, hread, h4, setHandShakeErr]
    simp [hn]
  · intro hw
    simp only [replyNACK, sendBuf, write, Conn.Write, hw, List.foldl_cons, List.foldl_nil,
      List.nil_append]
    rfl
  · simp only [lrpc2Server.doHandShake, hdl, hread, h4, hrd, hv, setHandShakeErr]
    split_ifs
    · exact ⟨rfl, rfl⟩
    · exact ⟨rfl, rfl⟩
    · split <;> exact ⟨rfl, rfl⟩

/-- Witness of C21: a client that sends version 4 in one piece is acknowledged, and a
client that sends version 3 is refused. -/
theorem doHandShake_outcome_witness :
    (acceptedSession { idleConn with unread := [[4, 0, 0, 0]] }).doHandShake
      = ({ acceptedSession { idleConn with written := [1, 0, 0, 0, 0, 0, 16, 0] } with
          inHandShake := false, connected := true }, 1) ∧
    (acceptedSession { idleConn with unread := [[3, 0, 0, 0]] }).doHandShake
      = ({ acceptedSession { idleConn with written := [0, 0, 0, 0] } with
          inHandShake := false, connected := false,
          handShakeError := some Err.ErrMsgBadVersion }, 1) :=
  ⟨(doHandShake_outcome (acceptedSession { idleConn with unread := [[4, 0, 0, 0]] })
      idleConn [4, 0, 0, 0] 4 rfl rfl).1 rfl rfl rfl,
   (doHandShake_outcome (acceptedSession { idleConn with unread := [[3, 0, 0, 0]] })
      idleConn [3, 0, 0, 0] 4 rfl rfl).2.1 rfl (by decide)⟩

/-! ## The size limit and replies -/

/-- A reply whose header holds the protocol constants and states a payload longer than
`lrpc2MaxMsgLen` makes `ReadResponse` return `ErrLrpc2BadMsgLen` with the payload left
unread, whatever its sequence number is. -/
theorem ReadResponse_long_reply (c : lrpc2Client) (h : lrpc2HeaderV4) (rest : List Byte)
    (more : List (List Byte))
    (hdl : c.conn.deadlineErr = none) (hr : h.InRange)
    (hm : h.magicNum = lrpc2MagicNum) (hh : h.headerLen = lrpc2HeaderLengthV4)
    (hv : h.version = lrpc2Version4) (hlen : h.msgDataLen > lrpc2MaxMsgLen)
    (hu : c.conn.unread = ((encodeHeader h []).2 ++ rest) :: more) :
    ReadResponse c = ({ c with
      conn := { c.conn with unread := if rest.length = 0 then more else rest :: more },
      hdr := h }, Reply.error Err.ErrLrpc2BadMsgLen) := by
  have hver : verifyHeader h = some Err.ErrLrpc2BadMsgLen := by
    simp [verifyHeader, hm, hh, hv, hlen]
  rw [ReadResponse_header c h rest more hdl hr hu, hver]

/-- C26 fails on the code: a client that sent a request with sequence number 7 and gets
a reply whose header holds the protocol constants, the sequence number 7 and the payload
length 1048577 returns `ErrLrpc2BadMsgLen` from `ReadResponse`, while the same header
with payload length 1048576 passes `verifyHeader`. In general `ReadResponse` returns
that error for every reply header that holds the protocol constants and a payload
length above 1048576, and leaves the payload unread. The server sets no such limit: for
a result that is one blob of 1048570 bytes `WriteResponse` sends a reply of 1048578
payload bytes without error, and `ReadResponse` of the client that asked returns
`ErrLrpc2BadMsgLen` for it. -/
theorem ReadResponse_rejects_long_reply :
    (ReadResponse
      { (WriteRequest (connectedClient 7 4321) 1600000000 (Command.uint16 MsgEcho)
          [Value.uint32 123]).1 with
        conn := { idleConn with unread :=
          [(encodeHeader (lrpc2HeaderV4.mk lrpc2MagicNum 34 4 4321 7 1600000001 1048577)
            []).2] } }).2 = Reply.error Err.ErrLrpc2BadMsgLen ∧
    verifyHeader (lrpc2HeaderV4.mk lrpc2MagicNum 34 4 4321 7 1600000001 1048576) = none ∧
    (∀ (c : lrpc2Client) (h : lrpc2HeaderV4) (rest : List Byte) (more : List (List Byte)),
      c.conn.deadlineErr = none → h.InRange →
      h.magicNum = lrpc2MagicNum → h.headerLen = lrpc2HeaderLengthV4 →
      h.version = lrpc2Version4 → h.msgDataLen > 1048576 →
      c.conn.unread = ((encodeHeader h []).2 ++ rest) :: more →
      (ReadResponse c).2 = Reply.error Err.ErrLrpc2BadMsgLen ∧
      (ReadResponse c).1.conn.unread = if rest.length = 0 then more else rest :: more) ∧
    (∀ blob : List Byte, blob.length = 1048570 →
      ∃ (s1 : lrpc2Server) (payload : List Byte),
        encode MsgEcho [Value.bytes blob] = Except.ok payload ∧
        payload.length = 1048578 ∧
        WriteResponse connectedSession 1600000001
          (some (lrpc2HeaderV4.mk lrpc2MagicNum 34 4 4321 7 1600000000 8))
          (Command.uint16 MsgEcho) [Value.bytes blob] = (s1, none) ∧
        s1.conn.written
          = (encodeHeader (lrpc2HeaderV4.mk lrpc2MagicNum 34 4 4321 7 1600000001 1048578)
              []).2 ++ payload ∧
        (ReadResponse
          { (WriteRequest (connectedClient 7 4321) 1600000000 (Command.uint16 MsgEcho)
              [Value.uint32 123]).1 with
            conn := { idleConn with unread := [s1.conn.written] } }).2
          = Reply.error Err.ErrLrpc2BadMsgLen) := by
  refine ⟨by decide, by decide, ?_, ?_⟩
  · intro c h rest more hdl hr hm hh hv hlen hu
    rw [ReadResponse_long_reply c h rest more hdl hr hm hh hv hlen hu]
    exact ⟨rfl, rfl⟩
  · intro blob hb
    have henc : encode MsgEcho [Value.bytes blob]
        = Except.ok (wireFormat MsgEcho [Value.bytes blob]) :=
      encode_eq_wire _ _ (by simp [Value.IsOther])
    have hlen : (wireFormat MsgEcho [Value.bytes blob]).length = 1048578 := by
      simp [wireFormat, wireValues, wireValue, littleEndianLayout_length, hb]
    have hW := WriteResponse_uint16 connectedSession 1600000001 MsgEcho
      (lrpc2HeaderV4.mk lrpc2MagicNum 34 4 4321 7 1600000000 8)
      [Value.bytes blob] _ rfl rfl rfl henc
    rw [hlen] at hW
    refine ⟨_, _, henc, hlen, hW, rfl, ?_⟩
    have hR := ReadResponse_long_reply
      { (WriteRequest (connectedClient 7 4321) 1600000000 (Command.uint16 MsgEcho)
          [Value.uint32 123]).1 with
        conn := { idleConn with unread :=
          [(encodeHeader (lrpc2HeaderV4.mk lrpc2MagicNum 34 4 4321 7 1600000001 1048578)
            []).2 ++ wireFormat MsgEcho [Value.bytes blob]] } }
      (lrpc2HeaderV4.mk lrpc2MagicNum 34 4 4321 7 1600000001 1048578)
      (wireFormat MsgEcho [Value.bytes blob]) [] rfl (by decide) rfl rfl rfl (by decide) rfl
    exact congrArg Prod.snd hR

/-! ## Slices of `uint32` -/

theorem encodeArgs_uint32Slice (l : List Nat) (buf : List Byte) (rest : List Value) :
    encodeArgs buf (Value.uint32Slice l :: rest)
      = encodeArgs buf (l.map Value.uint32 ++ rest) := by
  induction l generalizing buf with
  | nil => simp [encodeArgs]
  | cons i is ih =>
    have h := ih (buf ++ [msgDataTypeUint32] ++ leBytes 4 i)
    simp only [encodeArgs, List.foldl_cons, List.map_cons, List.cons_append] at h ⊢
    exact h

theorem encodeArgs_congr (pre a b : List Value)
    (h : ∀ buf, encodeArgs buf a = encodeArgs buf b) (buf : List Byte) :
    encodeArgs buf (pre ++ a) = encodeArgs buf (pre ++ b) := by
  induction pre generalizing buf with
  | nil => exact h buf
  | cons v vs ih =>
    cases v <;> simp only [List.cons_append, encodeArgs] <;> exact ih _

/-- C27: for every message ID and every argument list, `encode` of a list that holds
the slice `[a1, ..., an]` of `uint32` returns what it returns for the list with the
`n` separate `uint32` values `a1`, ..., `an` in its place, and an empty slice counts
for nothing; so when the other arguments are of the codec kinds and fit their types,
`encode` succeeds and `decode` of its bytes returns the `n` separate `uint32` values
between the other arguments, and no slice. -/
theorem encode_uint32Slice (cmd : Nat) (before after : List Value) (l : List Nat) :
    encode cmd (before ++ Value.uint32Slice l :: after)
      = encode cmd (before ++ (l.map Value.uint32 ++ after)) ∧
    encode cmd (before ++ Value.uint32Slice [] :: after) = encode cmd (before ++ after) ∧
    (cmd < 65536 → (∀ v ∈ before, v.Representable) → (∀ v ∈ after, v.Representable) →
      (∀ i ∈ l, i < 4294967296) →
      ∃ payload : List Byte,
        encode cmd (before ++ Value.uint32Slice l :: after) = Except.ok payload ∧
        decode payload = DecodeResult.ok cmd (before ++ (l.map Value.uint32 ++ after)) ∧
        ∀ w, Value.uint32Slice w ∉ before ++ (l.map Value.uint32 ++ after)) := by
  have key : ∀ (l : List Nat), encode cmd (before ++ Value.uint32Slice l :: after)
      = encode cmd (before ++ (l.map Value.uint32 ++ after)) := by
    intro l
    simp only [encode]
    rw [encodeArgs_congr before _ _ (fun buf => encodeArgs_uint32Slice l buf after)]
  refine ⟨key l, by simpa using key [], ?_⟩
  intro hcmd hb ha hl
  have hrep : ∀ v ∈ before ++ (l.map Value.uint32 ++ after), v.Representable := by
    intro v hv
    simp only [List.mem_append, List.mem_map] at hv
    rcases hv with hv | ⟨i, hi, rfl⟩ | hv
    · exact hb v hv
    · exact hl i hi
    · exact ha v hv
  refine ⟨wireFormat cmd (before ++ (l.map Value.uint32 ++ after)), ?_,
    decode_wireFormat cmd _ hcmd hrep, ?_⟩
  · rw [key l]
    exact encode_eq_wire cmd _ (fun v hv => not_isOther_of_representable (hrep v hv))
  · intro w hw
    exact hrep _ hw

/-- Witness of C27: the slice `[1, 2]` between a bool and a string. -/
theorem encode_uint32Slice_witness :
    encode 100 [Value.bool true, Value.uint32Slice [1, 2], Value.string [97]]
      = encode 100 [Value.bool true, Value.uint32 1, Value.uint32 2, Value.string [97]] ∧
    ∃ payload : List Byte,
      encode 100 [Value.bool true, Value.uint32Slice [1, 2], Value.string [97]]
        = Except.ok payload ∧
      decode payload = DecodeResult.ok 100
        [Value.bool true, Value.uint32 1, Value.uint32 2, Value.string [97]] :=
  ⟨(encode_uint32Slice 100 [Value.bool true] [Value.string [97]] [1, 2]).1,
   by
    obtain ⟨p, h1, h2, -⟩ := (encode_uint32Slice 100 [Value.bool true] [Value.string [97]]
      [1, 2]).2.2 (by decide) (by decide) (by decide) (by decide)
    exact ⟨p, h1, h2⟩⟩

/-! ## Claims that meet the single `Read` -/

/-- C2 fails on the code: the client sends the echo request for `[uint32(16909060)]`
(message 100, registered to `echo`; 34 header bytes and the 8 payload bytes
`64 00 03 04 03 02 01 00`), and the transport hands it to the server in two pieces,
the first 38 bytes and then the last 4. `ReadRequest` issues one `Read` for the
payload, gets 4 of its 8 bytes and returns the arguments `[uint32(4)]`; the handler
echoes them, `WriteResponse` sends them, and `ReadResponse` of the client returns
`[uint32(4)]` with no error, which is not the argument list. Handed over in one piece
the same request comes back as `[uint32(16909060)]`. -/
theorem echo_roundtrip_short_read :
    (WriteRequest (connectedClient 7 4321) 1600000000 (Command.uint16 MsgEcho)
      [Value.uint32 16909060]).2 = none ∧
    (WriteRequest (connectedClient 7 4321) 1600000000 (Command.uint16 MsgEcho)
      [Value.uint32 16909060]).1.conn.written
      = (encodeHeader (lrpc2HeaderV4.mk lrpc2MagicNum 34 4 4321 7 1600000000 8) []).2
        ++ [100, 0, 3, 4, 3, 2, 1, 0] ∧
    (ReadRequest { connectedSession with conn := { idleConn with unread :=
        [(encodeHeader (lrpc2HeaderV4.mk lrpc2MagicNum 34 4 4321 7 1600000000 8) []).2
          ++ [100, 0, 3, 4], [3, 2, 1, 0]] } }).2
      = Request.ok (lrpc2HeaderV4.mk lrpc2MagicNum 34 4 4321 7 1600000000 8) 100
          [Value.uint32 4] ∧
    (handleConnectionBody (RegisterMsgsByID (svrBase.mk (fun _ => none)) msgs)
      (SessionCtxt.mk 0 0 4321 []) 1600000001
      { connectedSession with conn := { idleConn with unread :=
        [(encodeHeader (lrpc2HeaderV4.mk lrpc2MagicNum 34 4 4321 7 1600000000 8) []).2
          ++ [100, 0, 3, 4], [3, 2, 1, 0]] } }).2 = LoopStep.next ∧
    (handleConnectionBody (RegisterMsgsByID (svrBase.mk (fun _ => none)) msgs)
      (SessionCtxt.mk 0 0 4321 []) 1600000001
      { connectedSession with conn := { idleConn with unread :=
        [(encodeHeader (lrpc2HeaderV4.mk lrpc2MagicNum 34 4 4321 7 1600000000 8) []).2
          ++ [100, 0, 3, 4], [3, 2, 1, 0]] } }).1.conn.written
      = (encodeHeader (lrpc2HeaderV4.mk lrpc2MagicNum 34 4 4321 7 1600000001 8) []).2
        ++ [100, 0, 3, 4, 0, 0, 0, 0] ∧
    (ReadResponse
      { (WriteRequest (connectedClient 7 4321) 1600000000 (Command.uint16 MsgEcho)
          [Value.uint32 16909060]).1 with
        conn := { idleConn with unread :=
          [(handleConnectionBody (RegisterMsgsByID (svrBase.mk (fun _ => none)) msgs)
            (SessionCtxt.mk 0 0 4321 []) 1600000001
            { connectedSession with conn := { idleConn with unread :=
              [(encodeHeader (lrpc2HeaderV4.mk lrpc2MagicNum 34 4 4321 7 1600000000 8) []).2
                ++ [100, 0, 3, 4], [3, 2, 1, 0]] } }).1.conn.written] } }).2
      = Reply.ok [Value.uint32 4] ∧
    (requestCycle (RegisterMsgsByID (svrBase.mk (fun _ => none)) msgs)
      (SessionCtxt.mk 0 0 4321 []) (connectedClient 7 4321) connectedSession
      1600000000 1600000001 (Command.uint16 MsgEcho) [Value.uint32 16909060]).2.2
      = Reply.ok [Value.uint32 16909060] := by
  decide

theorem WriteRequest_ok_sent (c c1 : lrpc2Client) (now : Nat) (cmd : Command)
    (args : List Value) (h : WriteRequest c now cmd args = (c1, none)) :
    c.conn.deadlineErr = none ∧ c.conn.writeErr = none ∧
    ∃ (id : Nat) (payload : List Byte),
      requestID cmd = Except.ok id ∧ encode id args = Except.ok payload ∧
      payload.length ≤ c.maxMsgDataLen ∧
      c1.conn.written = c.conn.written ++ ((encodeHeader (lrpc2HeaderV4.mk c.hdr.magicNum
        c.hdr.headerLen c.hdr.version c.hdr.pid c.hdr.sequenceNum
        (now % 18446744073709551616) (payload.length % 4294967296)) []).2 ++ payload) ∧
      c1.hdr.sequenceNum = (c.hdr.sequenceNum + 1) % 4294967296 := by
  cases hdl : c.conn.deadlineErr with
  | some err => rw [WriteRequest_deadline_failed c now cmd args err hdl] at h; simp at h
  | none =>
    simp only [WriteRequest, hdl] at h
    split at h
    · simp at h
    · next id hid =>
      split at h
      · simp at h
      · next payload henc =>
        split at h
        · simp at h
        · next hfit =>
          rw [encodeHeader_eq] at h
          simp only [Conn.Write] at h
          cases hw : c.conn.writeErr with
          | some err => simp [hw] at h
          | none =>
            simp only [hw, Prod.mk.injEq, and_true] at h
            subst h
            exact ⟨rfl, rfl, id, payload, hid, henc, by omega, rfl, rfl⟩

/-- C12 fails on the code: a client sent a request with sequence number 7 and gets a
reply whose header passes `verifyHeader` and carries the sequence number 65543. In one
piece `ReadResponse` returns `ErrLrpc2SeqNumMismatch`; with the header handed over in
two pieces (20 bytes, then the rest) it decodes the sequence number 7 from a buffer
whose tail was never filled, lets the reply pass the check and returns the decode
error of the message ID. In the same way a reply that carries the number 65543 sent
is rejected with `ErrLrpc2SeqNumMismatch` when its header comes in two pieces. When
the first `Read` hands over the whole header the claim holds: for a client whose
header fields fit their types, the header sent by the preceding `WriteRequest` decodes
to the sequence number the client had, and `ReadResponse` returns
`ErrLrpc2SeqNumMismatch` exactly when the number in the reply header differs from it,
with the payload left unread on a mismatch (the error of the transport is taken not to
be that sentinel). -/
theorem ReadResponse_sequence_check :
    verifyHeader (lrpc2HeaderV4.mk lrpc2MagicNum 34 4 4321 65543 1600000001 8) = none ∧
    (ReadResponse
      { (WriteRequest (connectedClient 7 4321) 1600000000 (Command.uint16 MsgEcho)
          [Value.uint32 123]).1 with
        conn := { idleConn with unread :=
          [(encodeHeader (lrpc2HeaderV4.mk lrpc2MagicNum 34 4 4321 65543 1600000001 8) []).2
            ++ [100, 0, 3, 123, 0, 0, 0, 0]] } }).2
      = Reply.error Err.ErrLrpc2SeqNumMismatch ∧
    (ReadResponse
      { (WriteRequest (connectedClient 7 4321) 1600000000 (Command.uint16 MsgEcho)
          [Value.uint32 123]).1 with
        conn := { idleConn with unread :=
          [((encodeHeader (lrpc2HeaderV4.mk lrpc2MagicNum 34 4 4321 65543 1600000001 8)
              []).2).take 20,
            ((encodeHeader (lrpc2HeaderV4.mk lrpc2MagicNum 34 4 4321 65543 1600000001 8)
              []).2).drop 20 ++ [100, 0, 3, 123, 0, 0, 0, 0]] } }).2
      = Reply.error (Err.readMsgID Err.EOF) ∧
    (ReadResponse
      { (WriteRequest (connectedClient 65543 4321) 1600000000 (Command.uint16 MsgEcho)
          [Value.uint32 123]).1 with
        conn := { idleConn with unread :=
          [((encodeHeader (lrpc2HeaderV4.mk lrpc2MagicNum 34 4 4321 65543 1600000001 8)
              []).2).take 20,
            ((encodeHeader (lrpc2HeaderV4.mk lrpc2MagicNum 34 4 4321 65543 1600000001 8)
              []).2).drop 20 ++ [100, 0, 3, 123, 0, 0, 0, 0]] } }).2
      = Reply.error Err.ErrLrpc2SeqNumMismatch ∧
    (ReadResponse
      { (WriteRequest (connectedClient 65543 4321) 1600000000 (Command.uint16 MsgEcho)
          [Value.uint32 123]).1 with
        conn := { idleConn with unread :=
          [(encodeHeader (lrpc2HeaderV4.mk lrpc2MagicNum 34 4 4321 65543 1600000001 8) []).2
            ++ [100, 0, 3, 123, 0, 0, 0, 0]] } }).2
      = Reply.ok [Value.uint32 123] ∧
    ∀ (c c1 : lrpc2Client) (now : Nat) (cmd : Command) (args : List Value) (conn : Conn)
      (h : lrpc2HeaderV4) (rest : List Byte) (more : List (List Byte)),
      c.hdr.InRange →
      WriteRequest c now cmd args = (c1, none) →
      h.InRange → verifyHeader h = none →
      conn.deadlineErr = none →
      conn.unread = ((encodeHeader h []).2 ++ rest) :: more →
      conn.readErr ≠ Err.ErrLrpc2SeqNumMismatch →
      (∀ h0 : lrpc2HeaderV4,
        (decodeHeader h0 (c1.conn.written.drop c.conn.written.length)).2.1 = none ∧
        (decodeHeader h0 (c1.conn.written.drop c.conn.written.length)).1.sequenceNum
          = c.hdr.sequenceNum) ∧
      ((ReadResponse { c1 with conn := conn }).2 = Reply.error Err.ErrLrpc2SeqNumMismatch
        ↔ h.sequenceNum ≠ c.hdr.sequenceNum) ∧
      (h.sequenceNum ≠ c.hdr.sequenceNum →
        (ReadResponse { c1 with conn := conn }).1.conn.unread
          = if rest.length = 0 then more else rest :: more) := by
  refine ⟨by decide, by decide, by decide, by decide, by decide, ?_⟩
  intro c c1 now cmd args conn h rest more hcr hW hr hv hdl hu hre
  obtain ⟨-, -, id, payload, -, -, -, hw, hn⟩ := WriteRequest_ok_sent c c1 now cmd args hW
  obtain ⟨r1, r2, r3, r4, r5, -, -⟩ := hcr
  have hsentR : (lrpc2HeaderV4.mk c.hdr.magicNum c.hdr.headerLen c.hdr.version c.hdr.pid
      c.hdr.sequenceNum (now % 18446744073709551616) (payload.length % 4294967296)).InRange :=
    ⟨r1, r2, r3, r4, r5, Nat.mod_lt _ (by norm_num), Nat.mod_lt _ (by norm_num)⟩
  have hexp : (c1.hdr.sequenceNum + 4294967295) % 4294967296 = c.hdr.sequenceNum := by
    rw [hn]
    have : c.hdr.sequenceNum < 4294967296 := r5
    omega
  refine ⟨?_, ?_⟩
  · intro h0
    rw [hw, List.drop_left, decodeHeader_encodeHeader _ h0 payload hsentR]
    exact ⟨rfl, rfl⟩
  · have hR := ReadResponse_header { c1 with conn := conn } h rest more hdl hr hu
    simp only [hv, hexp] at hR
    rw [hR]
    by_cases hne : h.sequenceNum = c.hdr.sequenceNum
    · simp only [hne, ne_eq, not_true_eq_false, if_false, iff_false, false_implies, and_true]
      split
      · next conn2 p k err hrd =>
        have := Conn_Read_err _ _ _ _ _ _ hrd
        simp only at this
        subst this
        simpa using hre
      · next conn2 p k hrd =>
        have hd := decode_error_ne p
        split <;> simp_all
    · simp [hne]

/-! ## The command of a request -/

theorem encodeArgs_error (args : List Value) (buf : List Byte) (e : Err)
    (h : encodeArgs buf args = Except.error e) : e = Err.ErrLrpc2TypeNotSupported := by
  induction args generalizing buf with
  | nil => simp [encodeArgs] at h
  | cons v vs ih =>
    cases v <;> simp only [encodeArgs] at h
    all_goals first
      | exact ih _ h
      | (simp only [Except.error.injEq] at h; exact h.symm)

theorem encode_error (id : Nat) (args : List Value) (e : Err)
    (h : encode id args = Except.error e) : e = Err.ErrLrpc2TypeNotSupported := by
  unfold encode at h
  split at h
  · next err he =>
    simp only [Except.error.injEq] at h
    subst h
    exact encodeArgs_error args _ _ he
  · simp at h

/-- A command that `requestID` accepts is never the reason for
`ErrLrpcServerCommandOutOfRange`: when the transport does not fail with that very
error, `WriteRequest` does not return it. -/
theorem WriteRequest_not_out_of_range (c : lrpc2Client) (now id : Nat) (cmd : Command)
    (args : List Value) (hdl : c.conn.deadlineErr = none)
    (hwe : c.conn.writeErr ≠ some Err.ErrLrpcServerCommandOutOfRange)
    (hcmd : requestID cmd = Except.ok id) :
    (WriteRequest c now cmd args).2 ≠ some Err.ErrLrpcServerCommandOutOfRange := by
  cases henc : encode id args with
  | error e =>
    have he := encode_error id args e henc
    subst he
    simp [WriteRequest, hdl, hcmd, henc]
  | ok payload =>
    rw [WriteRequest_accepted c now id cmd args payload hdl hcmd henc]
    split_ifs
    · simp
    · simp only [(Conn_Write_written c.conn _).1]
      exact hwe

/-- What `WriteRequest` does with a command that `requestID` accepts as `id`: it
returns the error of `encode` if there is one; otherwise the payload begins with the
two bytes of `id`, a payload over the limit gives `ErrLrpc2MsgTooLong`, and a payload
within the limit is sent after its header, with no error when the write succeeds. -/
theorem WriteRequest_sends_id (c : lrpc2Client) (now id : Nat) (cmd : Command)
    (args : List Value) (hdl : c.conn.deadlineErr = none) (hid : id < 65536)
    (hcmd : requestID cmd = Except.ok id) :
    (∀ e, encode id args = Except.error e → (WriteRequest c now cmd args).2 = some e) ∧
    ∀ payload, encode id args = Except.ok payload →
      (∃ t, payload = leBytes 2 id ++ t ∧ binaryReadUint 2 0 payload = (id, none, t)) ∧
      (payload.length > c.maxMsgDataLen →
        (WriteRequest c now cmd args).2 = some Err.ErrLrpc2MsgTooLong) ∧
      (payload.length ≤ c.maxMsgDataLen → c.conn.writeErr = none →
        (WriteRequest c now cmd args).2 = none ∧
        (WriteRequest c now cmd args).1.conn.written
          = c.conn.written ++ ((encodeHeader (lrpc2HeaderV4.mk c.hdr.magicNum
              c.hdr.headerLen c.hdr.version c.hdr.pid c.hdr.sequenceNum
              (now % 18446744073709551616) (payload.length % 4294967296)) []).2
            ++ payload)) := by
  constructor
  · intro e henc
    simp [WriteRequest, hdl, hcmd, henc]
  · intro payload henc
    refine ⟨encode_messageID id args payload hid henc, ?_, ?_⟩
    · intro hlong
      rw [WriteRequest_accepted c now id cmd args payload hdl hcmd henc, if_pos hlong]
    · intro hfit hw
      rw [WriteRequest_same_id c now id cmd args hcmd,
        WriteRequest_uint16 c now id args payload hdl hw henc hfit]
      exact ⟨rfl, rfl⟩

/-- C15: on a connection whose deadline can be set and whose write does not fail with
`ErrLrpcServerCommandOutOfRange` itself, `WriteRequest` returns
`ErrLrpcServerCommandOutOfRange` for a command given as an `int`, a `uint` or a
`uint32` exactly when its value lies outside 0..65535, and then leaves the connection
as it was, with nothing written; it never returns that error for a `uint16` command.
For a command of any of the four types with a value `v` in 0..65535: the error of
`encode` is returned if the arguments do not encode; otherwise the payload begins with
the two little-endian bytes of `v`, which `decode` reads back as the message ID `v`;
a payload over the limit gives `ErrLrpc2MsgTooLong`; and a payload within the limit
is written to the connection after its header, with no error when the write
succeeds. -/
theorem WriteRequest_command_range (c : lrpc2Client) (now : Nat) (args : List Value)
    (hdl : c.conn.deadlineErr = none)
    (hwe : c.conn.writeErr ≠ some Err.ErrLrpcServerCommandOutOfRange) :
    (∀ v : Int, -9223372036854775808 ≤ v → v < 9223372036854775808 →
      ((WriteRequest c now (Command.int v) args).2 = some Err.ErrLrpcServerCommandOutOfRange
        ↔ ¬ (0 ≤ v ∧ v < 65536)) ∧
      (¬ (0 ≤ v ∧ v < 65536) → (WriteRequest c now (Command.int v) args).1.conn = c.conn)) ∧
    (∀ v : Nat, v < 18446744073709551616 →
      ((WriteRequest c now (Command.uint v) args).2 = some Err.ErrLrpcServerCommandOutOfRange
        ↔ ¬ v < 65536) ∧
      (¬ v < 65536 → (WriteRequest c now (Command.uint v) args).1.conn = c.conn)) ∧
    (∀ v : Nat, v < 4294967296 →
      ((WriteRequest c now (Command.uint32 v) args).2
          = some Err.ErrLrpcServerCommandOutOfRange ↔ ¬ v < 65536) ∧
      (¬ v < 65536 → (WriteRequest c now (Command.uint32 v) args).1.conn = c.conn)) ∧
    (∀ v : Nat, v < 65536 →
      (WriteRequest c now (Command.uint16 v) args).2
        ≠ some Err.ErrLrpcServerCommandOutOfRange) ∧
    (∀ (cmd : Command) (v : Nat), v < 65536 →
      (cmd = Command.int (v : Int) ∨ cmd = Command.uint v ∨ cmd = Command.uint32 v ∨
        cmd = Command.uint16 v) →
      (∀ e, encode v args = Except.error e → (WriteRequest c now cmd args).2 = some e) ∧
      ∀ payload, encode v args = Except.ok payload →
        (∃ t, payload = leBytes 2 v ++ t ∧ binaryReadUint 2 0 payload = (v, none, t)) ∧
        (payload.length > c.maxMsgDataLen →
          (WriteRequest c now cmd args).2 = some Err.ErrLrpc2MsgTooLong) ∧
        (payload.length ≤ c.maxMsgDataLen → c.conn.writeErr = none →
          (WriteRequest c now cmd args).2 = none ∧
          (WriteRequest c now cmd args).1.conn.written
            = c.conn.written ++ ((encodeHeader (lrpc2HeaderV4.mk c.hdr.magicNum
                c.hdr.headerLen c.hdr.version c.hdr.pid c.hdr.sequenceNum
                (now % 18446744073709551616) (payload.length % 4294967296)) []).2
              ++ payload))) := by
  have hint : ∀ v : Int, 0 ≤ v → v < 65536 → requestID (Command.int v) = Except.ok v.toNat := by
    intro v h0 h1
    have e1 : (v % 65536).toNat = v.toNat := by omega
    have e2 : (v % 18446744073709551616).toNat = v.toNat := by omega
    simp only [requestID, e1, e2, ne_eq, not_true_eq_false, if_false]
  have huint : ∀ v : Nat, v < 65536 → requestID (Command.uint v) = Except.ok v := by
    intro v hv
    have e1 : v % 65536 = v := by omega
    have e2 : v % 18446744073709551616 = v := by omega
    simp only [requestID, e1, e2, ne_eq, not_true_eq_false, if_false]
  have huint32 : ∀ v : Nat, v < 65536 → requestID (Command.uint32 v) = Except.ok v := by
    intro v hv
    have e1 : v % 65536 = v := by omega
    have e2 : v % 18446744073709551616 = v := by omega
    simp only [requestID, e1, e2, ne_eq, not_true_eq_false, if_false]
  refine ⟨?_, ?_, ?_, ?_, ?_⟩
  · intro v hlo hhi
    by_cases hv : 0 ≤ v ∧ v < 65536
    · have hreq := hint v hv.1 hv.2
      have := WriteRequest_not_out_of_range c now _ _ args hdl hwe hreq
      exact ⟨⟨fun h => absurd h this, fun h => absurd hv h⟩, fun h => absurd hv h⟩
    · have hreq : requestID (Command.int v)
          = Except.error Err.ErrLrpcServerCommandOutOfRange := by
        have e : (v % 65536).toNat ≠ (v % 18446744073709551616).toNat := by omega
        simp only [requestID, e, ne_eq, not_false_eq_true, if_true]
      have := WriteRequest_out_of_range c now _ args hdl hreq
      exact ⟨⟨fun _ => hv, fun _ => this.1⟩, fun _ => this.2⟩
  · intro v hhi
    by_cases hv : v < 65536
    · have := WriteRequest_not_out_of_range c now _ _ args hdl hwe (huint v hv)
      exact ⟨⟨fun h => absurd h this, fun h => absurd hv h⟩, fun h => absurd hv h⟩
    · have hreq : requestID (Command.uint v)
          = Except.error Err.ErrLrpcServerCommandOutOfRange := by
        have e : v % 65536 ≠ v % 18446744073709551616 := by omega
        simp only [requestID, e, ne_eq, not_false_eq_true, if_true]
      have := WriteRequest_out_of_range c now _ args hdl hreq
      exact ⟨⟨fun _ => hv, fun _ => this.1⟩, fun _ => this.2⟩
  · intro v hhi
    by_cases hv : v < 65536
    · have := WriteRequest_not_out_of_range c now _ _ args hdl hwe (huint32 v hv)
      exact ⟨⟨fun h => absurd h this, fun h => absurd hv h⟩, fun h => absurd hv h⟩
    · have hreq : requestID (Command.uint32 v)
          = Except.error Err.ErrLrpcServerCommandOutOfRange := by
        have e : v % 65536 ≠ v % 18446744073709551616 := by omega
        simp only [requestID, e, ne_eq, not_false_eq_true, if_true]
      have := WriteRequest_out_of_range c now _ args hdl hreq
      exact ⟨⟨fun _ => hv, fun _ => this.1⟩, fun _ => this.2⟩
  · intro v _
    exact WriteRequest_not_out_of_range c now v _ args hdl hwe rfl
  · intro cmd v hv hcmd
    have hreq : requestID cmd = Except.ok v := by
      rcases hcmd with rfl | rfl | rfl | rfl
      · have := hint (v : Int) (by omega) (by omega)
        simpa using this
      · exact huint v hv
      · exact huint32 v hv
      · rfl
    exact WriteRequest_sends_id c now v cmd args hdl hv hreq

/-- Witness of C15: the `int` command 100 of the tests is accepted and the request is
sent with message ID 100; the `int` command -1 is rejected and nothing is written. -/
theorem WriteRequest_command_range_witness :
    (WriteRequest (connectedClient 7 4321) 1600000000 (Command.int 100)
      [Value.uint32 123]).2 = none ∧
    (WriteRequest (connectedClient 7 4321) 1600000000 (Command.int 100)
      [Value.uint32 123]).1.conn.written
      = (encodeHeader (lrpc2HeaderV4.mk lrpc2MagicNum 34 4 4321 7 1600000000 8) []).2
        ++ [100, 0, 3, 123, 0, 0, 0, 0] ∧
    (WriteRequest (connectedClient 7 4321) 1600000000 (Command.int (-1))
      [Value.uint32 123]).2 = some Err.ErrLrpcServerCommandOutOfRange ∧
    (WriteRequest (connectedClient 7 4321) 1600000000 (Command.int (-1))
      [Value.uint32 123]).1.conn = (connectedClient 7 4321).conn :=
  ⟨((((WriteRequest_command_range (connectedClient 7 4321) 1600000000 [Value.uint32 123]
      rfl (by decide)).2.2.2.2 (Command.int 100) 100 (by decide) (Or.inl rfl)).2
      [100, 0, 3, 123, 0, 0, 0, 0] rfl).2.2 (by decide) rfl).1,
   ((((WriteRequest_command_range (connectedClient 7 4321) 1600000000 [Value.uint32 123]
      rfl (by decide)).2.2.2.2 (Command.int 100) 100 (by decide) (Or.inl rfl)).2
      [100, 0, 3, 123, 0, 0, 0, 0] rfl).2.2 (by decide) rfl).2,
   (((WriteRequest_command_range (connectedClient 7 4321) 1600000000 [Value.uint32 123]
      rfl (by decide)).1 (-1) (by decide) (by decide)).1.mpr (by decide)),
   (((WriteRequest_command_range (connectedClient 7 4321) 1600000000 [Value.uint32 123]
      rfl (by decide)).1 (-1) (by decide) (by decide)).2 (by decide))⟩

end Lrpc

namespace Securemessage

/-! ## Chunks -/

theorem chunks_toNat (L : Nat) :
    (if Int.tdiv ((L : Int) - 1) (msgLimit : Nat) + 1 < 1 then (1 : Int)
      else Int.tdiv ((L : Int) - 1) (msgLimit : Nat) + 1).toNat = chunkCount L := by
  simp only [msgLimit, chunkCount]
  rcases Nat.eq_zero_or_pos L with h | h
  · subst h
    decide
  · have h1 : (0 : Int) ≤ (L : Int) - 1 := by omega
    rw [Int.tdiv_eq_ediv h1 (by decide)]
    have h2 : ((L : Int) - 1) / ((62 : Nat) : Int) = (((L - 1) / 62 : Nat) : Int) := by
      have : ((L : Int) - 1) = ((L - 1 : Nat) : Int) := by omega
      rw [this]
      norm_cast
    rw [h2]
    have h3 : ¬ ((((L - 1) / 62 : Nat) : Int) + 1 < 1) := by omega
    rw [if_neg h3]
    have h4 : max L 1 = L := by omega
    rw [h4]
    have h5 : (L + 61) / 62 = (L - 1) / 62 + 1 := by omega
    rw [h5]
    omega

theorem chunkCount_bound (L : Nat) : 62 * (chunkCount L - 1) ≤ L ∧ 0 < chunkCount L ∧
    L ≤ 62 * chunkCount L := by
  simp only [chunkCount]
  omega

theorem chunkText_length_le (payload : GoString) (i : Nat) :
    (chunkText payload i).length ≤ msgLimit := by
  simp only [chunkText, msgLimit, List.length_drop, List.length_take]
  omega

theorem encryptLoop_ok (lib : Library) (pub : PublicKey) (payload label : GoString)
    (n : Nat) : ∀ (chunk : Nat) (done : List GoString), done.length = chunk →
    (n = 0 ∨ 62 * (chunk + n - 1) ≤ payload.length) →
    (∀ c, chunk ≤ c → c < chunk + n →
      ∃ x, lib.EncryptOAEP c pub (chunkText payload c) label = Except.ok x) →
    encryptLoop lib pub payload label payload.length n chunk (62 * chunk)
        (done ++ List.replicate n [])
      = EncryptResult.ok
          (done ++ (List.range' chunk n).map (encryptedChunk lib pub payload label)) := by
  induction n with
  | zero =>
    intro chunk done _ _ _
    simp [encryptLoop]
  | succ n ih =>
    intro chunk done hdone hb hs
    have hle : 62 * chunk ≤ payload.length := by
      rcases hb with h | h
      · omega
      · have : chunk + (n + 1) - 1 = chunk + n := by omega
        rw [this] at h
        omega
    obtain ⟨x, hx⟩ := hs chunk (le_refl _) (by omega)
    have hend : (if 62 * chunk + msgLimit > payload.length then payload.length
        else 62 * chunk + msgLimit) = min (62 * (chunk + 1)) payload.length := by
      simp only [msgLimit]
      split_ifs <;> omega
    have hnp : ¬ (min (62 * (chunk + 1)) payload.length < 62 * chunk ∨
        payload.length < min (62 * (chunk + 1)) payload.length) := by omega
    have hslice : (payload.take (min (62 * (chunk + 1)) payload.length)).drop (62 * chunk)
        = chunkText payload chunk := rfl
    have hset : (done ++ List.replicate (n + 1) ([] : GoString)).set chunk
        (lib.EncodeToString x) = (done ++ [lib.EncodeToString x]) ++ List.replicate n [] := by
      rw [List.set_append, if_neg (by omega), hdone, Nat.sub_self]
      simp [List.replicate_succ]
    have hec : encryptedChunk lib pub payload label chunk = lib.EncodeToString x := by
      simp only [encryptedChunk, hx]
    rw [encryptLoop]
    simp only [hend, hnp, if_false, hslice, hx, hset]
    by_cases hlast : n = 0
    · subst hlast
      simp [encryptLoop, hec]
    · have hmin : min (62 * (chunk + 1)) payload.length = 62 * (chunk + 1) := by
        rcases hb with h | h
        · omega
        · have : chunk + (n + 1) - 1 = chunk + n := by omega
          rw [this] at h
          have : 62 * (chunk + 1) ≤ 62 * (chunk + n) := by
            apply Nat.mul_le_mul_left
            omega
          omega
      rw [hmin, ih (chunk + 1) (done ++ [lib.EncodeToString x]) (by simp [hdone])
        (Or.inr (by
          have : chunk + 1 + n - 1 = chunk + (n + 1) - 1 := by omega
          rw [this]
          rcases hb with h | h
          · omega
          · exact h))
        (fun c h1 h2 => hs c (by omega) (by omega))]
      simp [List.range', hec]

/-- When every chunk can be encrypted, `EncryptString` returns one text per chunk, in
order: the encoding of the ciphertext of chunk `i` at position `i`. -/
theorem EncryptString_ok (lib : Library) (pub : PublicKey) (payload label : GoString)
    (hs : ∀ c, c < chunkCount payload.length →
      ∃ x, lib.EncryptOAEP c pub (chunkText payload c) label = Except.ok x) :
    EncryptString lib payload label (some pub)
      = EncryptResult.ok ((List.range (chunkCount payload.length)).map
          (encryptedChunk lib pub payload label)) := by
  have hb := chunkCount_bound payload.length
  have h := encryptLoop_ok lib pub payload label (chunkCount payload.length) 0 [] rfl
    (Or.inr (by simpa using hb.1)) (fun c _ h2 => hs c (by omega))
  simp only [EncryptString, chunks_toNat]
  simpa [List.range_eq_range'] using h

theorem chunkText_join_take (payload : GoString) (k : Nat) :
    ((List.range k).map (chunkText payload)).flatten = payload.take (62 * k) := by
  induction k with
  | zero => simp
  | succ k ih =>
    rw [List.range_succ, List.map_append, List.flatten_append, ih]
    simp only [List.map_singleton, List.flatten_cons, List.flatten_nil, List.append_nil, chunkText]
    have h1 : payload.take (min (62 * (k + 1)) payload.length) = payload.take (62 * (k + 1)) := by
      rcases Nat.le_total (62 * (k + 1)) payload.length with h | h
      · rw [Nat.min_eq_left h]
      · rw [Nat.min_eq_right h, List.take_of_length_le (le_refl _), List.take_of_length_le h]
    rw [h1]
    have h2 : payload.take (62 * k) = (payload.take (62 * (k + 1))).take (62 * k) := by
      rw [List.take_take, Nat.min_eq_left (by omega)]
    rw [h2, List.take_append_drop]

theorem encryptLoop_step (lib : Library) (pub : PublicKey) (payload label : GoString)
    (n chunk : Nat) (ret : List GoString) (hle : 62 * chunk ≤ payload.length) :
    encryptLoop lib pub payload label payload.length (n + 1) chunk (62 * chunk) ret
      = match lib.EncryptOAEP chunk pub (chunkText payload chunk) label with
        | Except.error err => EncryptResult.error err
        | Except.ok cipher =>
          encryptLoop lib pub payload label payload.length n (chunk + 1)
            (min (62 * (chunk + 1)) payload.length) (ret.set chunk (lib.EncodeToString cipher)) := by
  have hend : (if 62 * chunk + msgLimit > payload.length then payload.length
      else 62 * chunk + msgLimit) = min (62 * (chunk + 1)) payload.length := by
    simp only [msgLimit]
    split_ifs <;> omega
  have hnp : ¬ (min (62 * (chunk + 1)) payload.length < 62 * chunk ∨
      payload.length < min (62 * (chunk + 1)) payload.length) := by omega
  have hslice : (payload.take (min (62 * (chunk + 1)) payload.length)).drop (62 * chunk)
      = chunkText payload chunk := rfl
  rw [encryptLoop]
  simp only [hend, hnp, if_false, hslice]

theorem encryptLoop_error (lib : Library) (pub : PublicKey) (payload label : GoString)
    (e : Err) (k : Nat) : ∀ (n chunk : Nat) (ret : List GoString), k < n →
    62 * (chunk + k) ≤ payload.length →
    (∀ c, chunk ≤ c → c < chunk + k →
      ∃ x, lib.EncryptOAEP c pub (chunkText payload c) label = Except.ok x) →
    lib.EncryptOAEP (chunk + k) pub (chunkText payload (chunk + k)) label = Except.error e →
    encryptLoop lib pub payload label payload.length n chunk (62 * chunk) ret
      = EncryptResult.error e := by
  induction k with
  | zero =>
    intro n chunk ret hn hle _ he
    obtain ⟨m, rfl⟩ : ∃ m, n = m + 1 := ⟨n - 1, by omega⟩
    rw [encryptLoop_step lib pub payload label m chunk ret (by omega)]
    simp only [Nat.add_zero] at he
    rw [he]
  | succ k ih =>
    intro n chunk ret hn hle hs he
    obtain ⟨m, rfl⟩ : ∃ m, n = m + 1 := ⟨n - 1, by omega⟩
    rw [encryptLoop_step lib pub payload label m chunk ret (by omega)]
    obtain ⟨x, hx⟩ := hs chunk (le_refl _) (by omega)
    rw [hx]
    have hmin : min (62 * (chunk + 1)) payload.length = 62 * (chunk + 1) := by omega
    simp only [hmin]
    have e1 : chunk + 1 + k = chunk + (k + 1) := by omega
    exact ih m (chunk + 1) _ (by omega) (by rw [e1]; exact hle)
      (fun c h1 h2 => hs c (by omega) (by omega)) (by rw [e1]; exact he)

theorem chunkText_getElem (payload : GoString) (i j : Nat) :
    (chunkText payload i)[j]? = if j < 62 then payload[62 * i + j]? else none := by
  simp only [chunkText, List.getElem?_drop, List.getElem?_take]
  by_cases hj : j < 62
  · simp only [hj, if_true]
    by_cases hL : 62 * i + j < payload.length
    · rw [if_pos (by omega)]
    · rw [if_neg (by omega)]
      exact (List.getElem?_eq_none (by omega)).symm
  · simp only [hj, if_false]
    rw [if_neg (by omega)]

theorem chunkText_length_full (payload : GoString) (i : Nat)
    (h : i + 1 < chunkCount payload.length) : (chunkText payload i).length = 62 := by
  have hb := chunkCount_bound payload.length
  simp only [chunkText, List.length_drop, List.length_take]
  omega

theorem chunkText_flatten (payload : GoString) :
    ((List.range (chunkCount payload.length)).map (chunkText payload)).flatten = payload := by
  rw [chunkText_join_take]
  exact List.take_of_length_le (chunkCount_bound payload.length).2.2

theorem decryptLoop_ok (lib : Library) (priv : Option PrivateKey) (label : GoString)
    (ciphers plains : List GoString)
    (h : List.Forall₂ (fun c p => ∃ b, lib.DecodeString c = Except.ok b ∧
      lib.DecryptOAEP priv b label = Except.ok p) ciphers plains) (ret : GoString) :
    decryptLoop lib priv label ciphers ret = (ret ++ plains.flatten, none) := by
  induction h generalizing ret with
  | nil => simp [decryptLoop]
  | cons hcp _ ih =>
    obtain ⟨b, h1, h2⟩ := hcp
    simp only [decryptLoop, h1, h2, ih, List.flatten_cons, List.append_assoc]

theorem decryptLoop_first_failure (lib : Library) (priv : Option PrivateKey)
    (label : GoString) (before plains : List GoString) (c : GoString) (after : List GoString)
    (e : Err)
    (h : List.Forall₂ (fun c p => ∃ b, lib.DecodeString c = Except.ok b ∧
      lib.DecryptOAEP priv b label = Except.ok p) before plains)
    (hc : lib.DecodeString c = Except.error e ∨
      ∃ b, lib.DecodeString c = Except.ok b ∧ lib.DecryptOAEP priv b label = Except.error e)
    (ret : GoString) :
    decryptLoop lib priv label (before ++ c :: after) ret = ([], some e) := by
  induction h generalizing ret with
  | nil =>
    rcases hc with h1 | ⟨b, h1, h2⟩
    · simp only [List.nil_append, decryptLoop, h1]
    · simp only [List.nil_append, decryptLoop, h1, h2]
  | cons hcp _ ih =>
    obtain ⟨b, h1, h2⟩ := hcp
    simp only [List.cons_append, decryptLoop, h1, h2]
    exact ih _

theorem decryptLoop_failure (lib : Library) (priv : Option PrivateKey) (label : GoString)
    (ciphers : List GoString)
    (h : ∃ c ∈ ciphers, (∃ e, lib.DecodeString c = Except.error e) ∨
      ∃ b e, lib.DecodeString c = Except.ok b ∧ lib.DecryptOAEP priv b label = Except.error e)
    (ret : GoString) :
    ∃ e, decryptLoop lib priv label ciphers ret = ([], some e) := by
  induction ciphers generalizing ret with
  | nil => simp at h
  | cons c rest ih =>
    cases h1 : lib.DecodeString c with
    | error e => exact ⟨e, by simp only [decryptLoop, h1]⟩
    | ok b =>
      cases h2 : lib.DecryptOAEP priv b label with
      | error e => exact ⟨e, by simp only [decryptLoop, h1, h2]⟩
      | ok p =>
        have hrest : ∃ c ∈ rest, (∃ e, lib.DecodeString c = Except.error e) ∨
            ∃ b e, lib.DecodeString c = Except.ok b ∧
              lib.DecryptOAEP priv b label = Except.error e := by
          obtain ⟨c0, hmem, hf⟩ := h
          rcases List.mem_cons.mp hmem with rfl | hmem
          · rcases hf with ⟨e, he⟩ | ⟨b0, e, hb0, he⟩
            · rw [h1] at he; cases he
            · rw [h1] at hb0
              cases hb0
              rw [h2] at he; cases he
          · exact ⟨c0, hmem, hf⟩
        obtain ⟨e, he⟩ := ih hrest (ret ++ p)
        exact ⟨e, by simp only [decryptLoop, h1, h2, he]⟩

/-- C22: for every payload of `L` bytes and every public key that is not nil, when
`EncryptOAEP` succeeds for every message of at most 62 bytes, `EncryptString` returns
exactly `ceil(max(L,1)/62)` chunks, which is `(L-1)/62+1` with the division that
truncates toward zero: 1 chunk for `L` = 0, 61, 62, 2 chunks for 63, 123, 124 and 3
chunks for 125; with a nil public key it returns `ErrNoPublicKey` and no chunks. -/
theorem EncryptString_chunk_count (lib : Library) (pub : PublicKey)
    (payload label : GoString)
    (hs : ∀ (c : Nat) (m : GoString), m.length ≤ msgLimit →
      ∃ x, lib.EncryptOAEP c pub m label = Except.ok x) :
    (∃ chunks : List GoString,
      EncryptString lib payload label (some pub) = EncryptResult.ok chunks ∧
      chunks.length = chunkCount payload.length ∧
      (chunks.length : Int) = Int.tdiv ((payload.length : Int) - 1) 62 + 1) ∧
    (62 * (chunkCount payload.length - 1) < max payload.length 1 ∧
      max payload.length 1 ≤ 62 * chunkCount payload.length) ∧
    EncryptString lib payload label none = EncryptResult.error Err.ErrNoPublicKey ∧
    chunkCount 0 = 1 ∧ chunkCount 61 = 1 ∧ chunkCount 62 = 1 ∧ chunkCount 63 = 2 ∧
    chunkCount 123 = 2 ∧ chunkCount 124 = 2 ∧ chunkCount 125 = 3 := by
  have hok := EncryptString_ok lib pub payload label
    (fun c _ => hs c _ (chunkText_length_le payload c))
  have hn := chunks_toNat payload.length
  have hpos := (chunkCount_bound payload.length).2.1
  refine ⟨⟨_, hok, by simp, ?_⟩, ?_, rfl, by decide, by decide, by decide, by decide,
    by decide, by decide, by decide⟩
  · simp only [List.length_map, List.length_range]
    simp only [msgLimit] at hn
    split_ifs at hn with h1
    · have h2 : chunkCount payload.length = 1 := by
        rw [← hn]
        rfl
      rcases Nat.eq_zero_or_pos payload.length with h | h
      · rw [h2, h]
        decide
      · exfalso
        have h3 : (0 : Int) ≤ (payload.length : Int) - 1 := by omega
        have h4 := Int.tdiv_nonneg h3 (by decide : (0 : Int) ≤ ((62 : Nat) : Int))
        omega
    · rw [← hn]
      have h5 : (0 : Int) ≤ Int.tdiv ((payload.length : Int) - 1) ((62 : Nat) : Int) + 1 := by
        omega
      rw [Int.toNat_of_nonneg h5]
      rfl
  · simp only [chunkCount]
    omega

/-- Witness of C22: a payload of 63 bytes gives 2 chunks. -/
theorem EncryptString_chunk_count_witness :
    ∃ chunks : List GoString,
      EncryptString exampleLibrary (List.replicate 63 97) [108] (some examplePrivateKey.PublicKey)
        = EncryptResult.ok chunks ∧
      chunks.length = 2 := by
  obtain ⟨⟨chunks, h1, h2, -⟩, -⟩ := EncryptString_chunk_count exampleLibrary
    examplePrivateKey.PublicKey (List.replicate 63 97) [108]
    (fun c m hm => ⟨m.reverse, by simp [exampleLibrary, hm]⟩)
  exact ⟨chunks, h1, by rw [h2]; decide⟩

/-- C30: `EncryptString` hands `EncryptOAEP` consecutive slices of the payload that do
not overlap: the text it returns at position `i` is the encoding of the ciphertext of
chunk `i`, the bytes from position `62*i` up to `min(62*(i+1), L)`, and the first
chunk that cannot be encrypted makes it return that error. Every chunk has at most 62
bytes, every chunk but the last has exactly 62, and the chunks in order make up the
payload. 62 is `k - 2*hLen - 2` for a key of 1024 bits (`k` = 128 bytes) and SHA-256
(`hLen` = 32). -/
theorem EncryptString_slices (lib : Library) (pub : PublicKey) (payload label : GoString) :
    ((∀ c, c < chunkCount payload.length →
        ∃ x, lib.EncryptOAEP c pub (chunkText payload c) label = Except.ok x) →
      EncryptString lib payload label (some pub)
        = EncryptResult.ok ((List.range (chunkCount payload.length)).map
            (fun i => match lib.EncryptOAEP i pub (chunkText payload i) label with
              | Except.ok cipher => lib.EncodeToString cipher
              | Except.error _ => []))) ∧
    (∀ (k : Nat) (e : Err), k < chunkCount payload.length →
      (∀ c, c < k → ∃ x, lib.EncryptOAEP c pub (chunkText payload c) label = Except.ok x) →
      lib.EncryptOAEP k pub (chunkText payload k) label = Except.error e →
      EncryptString lib payload label (some pub) = EncryptResult.error e) ∧
    (∀ i j : Nat, (chunkText payload i)[j]?
      = if j < 62 ∧ 62 * i + j < min (62 * (i + 1)) payload.length
        then payload[62 * i + j]? else none) ∧
    (∀ i, (chunkText payload i).length ≤ 62) ∧
    (∀ i, i + 1 < chunkCount payload.length → (chunkText payload i).length = 62) ∧
    ((List.range (chunkCount payload.length)).map (chunkText payload)).flatten = payload ∧
    msgLimit = keysize / 8 - 2 * 32 - 2 := by
  refine ⟨fun hs => EncryptString_ok lib pub payload label hs, ?_, ?_,
    fun i => chunkText_length_le payload i, fun i h => chunkText_length_full payload i h,
    chunkText_flatten payload, by decide⟩
  · intro k e hk hs he
    have hb := chunkCount_bound payload.length
    have h := encryptLoop_error lib pub payload label e k (chunkCount payload.length) 0
      (List.replicate (chunkCount payload.length) []) hk
      (by
        have : 62 * k ≤ 62 * (chunkCount payload.length - 1) := by
          apply Nat.mul_le_mul_left
          omega
        omega)
      (fun c _ h2 => hs c (by omega)) (by simpa using he)
    simp only [EncryptString, chunks_toNat]
    simpa using h
  · intro i j
    rw [chunkText_getElem]
    by_cases hj : j < 62
    · by_cases hL : 62 * i + j < payload.length
      · rw [if_pos hj, if_pos ⟨hj, by omega⟩]
      · rw [if_pos hj, if_neg (by omega)]
        exact List.getElem?_eq_none (by omega)
    · rw [if_neg hj, if_neg (by omega)]

/-- Witness of C30: a payload of 63 bytes is encrypted as a chunk of 62 bytes and a
chunk of 1 byte. -/
theorem EncryptString_slices_witness :
    EncryptString exampleLibrary (List.replicate 63 97) [108]
        (some examplePrivateKey.PublicKey)
      = EncryptResult.ok [List.replicate 62 97, [97]] := by
  have h := (EncryptString_slices exampleLibrary examplePrivateKey.PublicKey
    (List.replicate 63 97) [108]).1
    (fun c _ => ⟨(chunkText (List.replicate 63 97) c).reverse, by
      simp [exampleLibrary, chunkText_length_le]⟩)
  rw [h]
  decide

/-- C24: once `checkKey` has returned no error, `DecryptString` returns the texts of
the chunks joined in the order of the list and no error when every chunk decodes and
decrypts; when a chunk fails base64 decoding or decryption, it returns an error and
the empty text, and the error is that of the first chunk that fails. -/
theorem DecryptString_all_or_nothing (lib : Library) (ks ks1 : keyInfo)
    (generated : Except Err PrivateKey) (int31 : Nat) (ciphers : List GoString)
    (label : GoString) (hkey : checkKey ks generated int31 = (ks1, none)) :
    (∀ plains : List GoString,
      List.Forall₂ (fun c p => ∃ b, lib.DecodeString c = Except.ok b ∧
        lib.DecryptOAEP ks1.priv b label = Except.ok p) ciphers plains →
      DecryptString lib ks generated int31 ciphers label = (ks1, plains.flatten, none)) ∧
    ((∃ c ∈ ciphers, (∃ e, lib.DecodeString c = Except.error e) ∨
        ∃ b e, lib.DecodeString c = Except.ok b ∧
          lib.DecryptOAEP ks1.priv b label = Except.error e) →
      ∃ e, DecryptString lib ks generated int31 ciphers label = (ks1, [], some e)) ∧
    (∀ (before plains : List GoString) (c : GoString) (after : List GoString) (e : Err),
      ciphers = before ++ c :: after →
      List.Forall₂ (fun c p => ∃ b, lib.DecodeString c = Except.ok b ∧
        lib.DecryptOAEP ks1.priv b label = Except.ok p) before plains →
      (lib.DecodeString c = Except.error e ∨
        ∃ b, lib.DecodeString c = Except.ok b ∧
          lib.DecryptOAEP ks1.priv b label = Except.error e) →
      DecryptString lib ks generated int31 ciphers label = (ks1, [], some e)) := by
  refine ⟨?_, ?_, ?_⟩
  · intro plains h
    simp only [DecryptString, hkey, decryptLoop_ok lib ks1.priv label ciphers plains h,
      List.nil_append]
  · intro h
    obtain ⟨e, he⟩ := decryptLoop_failure lib ks1.priv label ciphers h []
    exact ⟨e, by simp only [DecryptString, hkey, he]⟩
  · intro before plains c after e hc h hf
    subst hc
    simp only [DecryptString, hkey,
      decryptLoop_first_failure lib ks1.priv label before plains c after e h hf]

/-- Witness of C24: with a key in the store, two chunks decrypt to their texts joined,
and a store without private key makes the decryption of a chunk fail. -/
theorem DecryptString_all_or_nothing_witness :
    DecryptString exampleLibrary keyStore0 (Except.ok examplePrivateKey) 5
        [[98, 97], [99]] [108]
      = ({ hasKey := true, err := none, priv := some examplePrivateKey, keyID := 5 },
          [97, 98, 99], none) :=
  (DecryptString_all_or_nothing exampleLibrary keyStore0
    { hasKey := true, err := none, priv := some examplePrivateKey, keyID := 5 }
    (Except.ok examplePrivateKey) 5 [[98, 97], [99]] [108] rfl).1 [[97, 98], [99]]
    (List.Forall₂.cons ⟨[98, 97], rfl, rfl⟩ (List.Forall₂.cons ⟨[99], rfl, rfl⟩ List.Forall₂.nil))

/-- C23: for every text and every label, when `GetPublicKey` has returned the public
key of the process, base64 decoding inverts base64 encoding, and decryption with the
private key of the store and the label inverts encryption of every message of at most
62 bytes with its public key and the label: `EncryptString` with that public key
returns chunks, and `DecryptString` with the same label returns the text for them and
no error. -/
theorem DecryptString_EncryptString (lib : Library) (ks ks1 : keyInfo)
    (generated generated2 : Except Err PrivateKey) (int31 int31b : Nat)
    (pub : PublicKey) (keyID : Nat) (text label : GoString)
    (hkey : GetPublicKey ks generated int31 = (ks1, KeyResult.ok pub keyID))
    (hb64 : ∀ b, lib.DecodeString (lib.EncodeToString b) = Except.ok b)
    (hrsa : ∀ (c : Nat) (m : GoString), m.length ≤ msgLimit →
      ∃ x, lib.EncryptOAEP c pub m label = Except.ok x ∧
        lib.DecryptOAEP ks1.priv x label = Except.ok m) :
    ∃ chunks : List GoString,
      EncryptString lib text label (some pub) = EncryptResult.ok chunks ∧
      DecryptString lib ks1 generated2 int31b chunks label = (ks1, text, none) := by
  have hck : checkKey ks generated int31 = (ks1, none) ∧ ks1.hasKey = true ∧ ks1.err = none := by
    simp only [GetPublicKey] at hkey
    split at hkey
    · simp at hkey
    · next ks2 hc =>
      split at hkey
      · simp at hkey
      · simp only [Prod.mk.injEq] at hkey
        obtain ⟨rfl, -⟩ := hkey
        refine ⟨hc, ?_⟩
        simp only [checkKey] at hc
        split at hc
        · simp at hc
        · next herr =>
          split_ifs at hc with hh
          · split at hc
            · simp at hc
            · simp only [Prod.mk.injEq, and_true] at hc
              subst hc
              exact ⟨rfl, herr⟩
          · simp only [Prod.mk.injEq, and_true] at hc
            subst hc
            simp only [Bool.not_eq_true, Bool.not_eq_false_eq_eq_true] at hh
            exact ⟨by simpa using hh, herr⟩
  obtain ⟨-, hhas, herr⟩ := hck
  have hck2 : checkKey ks1 generated2 int31b = (ks1, none) := by
    simp [checkKey, herr, hhas]
  have hok := EncryptString_ok lib pub text label
    (fun c _ => (hrsa c _ (chunkText_length_le text c)).imp (fun _ h => h.1))
  refine ⟨_, hok, ?_⟩
  have hF : List.Forall₂ (fun c p => ∃ b, lib.DecodeString c = Except.ok b ∧
      lib.DecryptOAEP ks1.priv b label = Except.ok p)
      ((List.range (chunkCount text.length)).map (encryptedChunk lib pub text label))
      ((List.range (chunkCount text.length)).map (chunkText text)) := by
    rw [List.forall₂_map_left_iff, List.forall₂_map_right_iff]
    apply List.forall₂_same.mpr
    intro i _
    obtain ⟨x, hx1, hx2⟩ := hrsa i _ (chunkText_length_le text i)
    exact ⟨x, by simp only [encryptedChunk, hx1, hb64], hx2⟩
  simp only [DecryptString, hck2, decryptLoop_ok lib ks1.priv label _ _ hF, List.nil_append,
    chunkText_flatten]

/-- Witness of C23: a text of 63 bytes, which needs two chunks. -/
theorem DecryptString_EncryptString_witness :
    ∃ chunks : List GoString,
      EncryptString exampleLibrary (List.replicate 63 97) [108]
        (some examplePrivateKey.PublicKey) = EncryptResult.ok chunks ∧
      DecryptString exampleLibrary
        { hasKey := true, err := none, priv := some examplePrivateKey, keyID := 5 }
        (Except.error (Err.library "not called")) 0 chunks [108]
        = ({ hasKey := true, err := none, priv := some examplePrivateKey, keyID := 5 },
            List.replicate 63 97, none) :=
  DecryptString_EncryptString exampleLibrary keyStore0
    { hasKey := true, err := none, priv := some examplePrivateKey, keyID := 5 }
    (Except.ok examplePrivateKey) (Except.error (Err.library "not called")) 5 0
    examplePrivateKey.PublicKey 5 (List.replicate 63 97) [108] rfl (fun _ => rfl)
    (fun c m hm => ⟨m.reverse, by simp [exampleLibrary, hm], by simp [exampleLibrary]⟩)

/-- C25: for a key store in which no generation has happened yet. When the generation
succeeds, `checkKey` stores the key pair and a key ID, and every later `GetPublicKey`
returns that public key and that key ID and leaves the store as it is, whatever a
further generation would return, so none is made. When the generation fails with an
error, every later `GetPublicKey` and `DecryptString` returns that error (the latter
with the empty text) and leaves the store as it is, whatever a further generation would
return. -/
theorem checkKey_permanent (lib : Library) (ks : keyInfo) (int31 : Nat)
    (hfresh : ks.err = none ∧ ks.hasKey = false) :
    (∀ priv : PrivateKey, ∃ ks1 : keyInfo,
      checkKey ks (Except.ok priv) int31 = (ks1, none) ∧
      ks1.priv = some priv ∧ ks1.keyID = int31 % 4294967296 ∧
      ∀ (generated2 : Except Err PrivateKey) (int31b : Nat),
        checkKey ks1 generated2 int31b = (ks1, none) ∧
        GetPublicKey ks1 generated2 int31b
          = (ks1, KeyResult.ok priv.PublicKey (int31 % 4294967296))) ∧
    (∀ e : Err, ∃ ks1 : keyInfo,
      checkKey ks (Except.error e) int31 = (ks1, some e) ∧
      ∀ (generated2 : Except Err PrivateKey) (int31b : Nat) (ciphers : List GoString)
        (label : GoString),
        checkKey ks1 generated2 int31b = (ks1, some e) ∧
        GetPublicKey ks1 generated2 int31b = (ks1, KeyResult.error e) ∧
        DecryptString lib ks1 generated2 int31b ciphers label = (ks1, [], some e)) := by
  obtain ⟨h1, h2⟩ := hfresh
  constructor
  · intro priv
    refine ⟨keyInfo.mk true ks.err (some priv) (int31 % 4294967296),
      by simp [checkKey, h1, h2], rfl, rfl, ?_⟩
    intro generated2 int31b
    have hc : checkKey (keyInfo.mk true ks.err (some priv) (int31 % 4294967296))
        generated2 int31b
        = (keyInfo.mk true ks.err (some priv) (int31 % 4294967296), none) := by
      simp [checkKey, h1]
    exact ⟨hc, by simp only [GetPublicKey, hc]⟩
  · intro e
    refine ⟨{ ks with err := some e }, by simp [checkKey, h1, h2], ?_⟩
    intro generated2 int31b ciphers label
    have hc : checkKey { ks with err := some e } generated2 int31b
        = ({ ks with err := some e }, some e) := by
      simp [checkKey]
    exact ⟨hc, by simp only [GetPublicKey, hc], by simp only [DecryptString, hc]⟩

/-- Witness of C25: the key store of a fresh process, with a generation that succeeds. -/
theorem checkKey_permanent_witness :
    ∃ ks1 : keyInfo,
      checkKey keyStore0 (Except.ok examplePrivateKey) 5 = (ks1, none) ∧
      GetPublicKey ks1 (Except.error (Err.library "not called")) 6
        = (ks1, KeyResult.ok examplePrivateKey.PublicKey 5) := by
  obtain ⟨ks1, h1, -, -, h2⟩ :=
    (checkKey_permanent exampleLibrary keyStore0 5 ⟨rfl, rfl⟩).1 examplePrivateKey
  exact ⟨ks1, h1, (h2 _ 6).2⟩

end Securemessage

namespace Cversion

/-! ## Comparison -/

theorem Compare_earlier_iff (a b : Version) :
    a.Compare b = Earlier ↔ a.Major < b.Major ∨ (a.Major = b.Major ∧
      (a.Minor < b.Minor ∨ (a.Minor = b.Minor ∧ a.BuildNumber < b.BuildNumber))) := by
  simp only [Version.Compare, Earlier, Equal, Subsequent]
  split_ifs <;> simp <;> omega

theorem Compare_subsequent_iff (a b : Version) :
    a.Compare b = Subsequent ↔ a.Major > b.Major ∨ (a.Major = b.Major ∧
      (a.Minor > b.Minor ∨ (a.Minor = b.Minor ∧ a.BuildNumber > b.BuildNumber))) := by
  simp only [Version.Compare, Earlier, Equal, Subsequent]
  split_ifs <;> simp <;> omega

theorem Compare_equal_iff (a b : Version) :
    a.Compare b = Equal ↔
      a.Major = b.Major ∧ a.Minor = b.Minor ∧ a.BuildNumber = b.BuildNumber := by
  simp only [Version.Compare, Earlier, Equal, Subsequent]
  split_ifs <;> simp <;> omega

/-- C29: `Compare` orders versions lexicographically by major version, minor version
and build number and ignores `Debug` and `NotYet`: the result is `Earlier` when the
triple of the receiver is smaller, `Subsequent` when it is larger and `Equal` when the
triples are the same; `a.Compare(b)` is `Earlier` exactly when `b.Compare(a)` is
`Subsequent`; and `Compare` is transitive for each of the three results. -/
theorem Compare_lexicographic (a b c : Version) :
    (a.Compare b = Earlier ↔ a.Major < b.Major ∨ (a.Major = b.Major ∧
      (a.Minor < b.Minor ∨ (a.Minor = b.Minor ∧ a.BuildNumber < b.BuildNumber)))) ∧
    (a.Compare b = Subsequent ↔ a.Major > b.Major ∨ (a.Major = b.Major ∧
      (a.Minor > b.Minor ∨ (a.Minor = b.Minor ∧ a.BuildNumber > b.BuildNumber)))) ∧
    (a.Compare b = Equal ↔
      a.Major = b.Major ∧ a.Minor = b.Minor ∧ a.BuildNumber = b.BuildNumber) ∧
    (a.Compare b = Earlier ∨ a.Compare b = Equal ∨ a.Compare b = Subsequent) ∧
    (∀ d1 n1 d2 n2 : Bool,
      (Version.mk a.Major a.Minor a.BuildNumber d1 n1).Compare
        (Version.mk b.Major b.Minor b.BuildNumber d2 n2) = a.Compare b) ∧
    (a.Compare b = Earlier ↔ b.Compare a = Subsequent) ∧
    (a.Compare b = Earlier → b.Compare c = Earlier → a.Compare c = Earlier) ∧
    (a.Compare b = Subsequent → b.Compare c = Subsequent → a.Compare c = Subsequent) ∧
    (a.Compare b = Equal → b.Compare c = Equal → a.Compare c = Equal) := by
  refine ⟨Compare_earlier_iff a b, Compare_subsequent_iff a b, Compare_equal_iff a b, ?_,
    fun _ _ _ _ => rfl, ?_, ?_, ?_, ?_⟩
  · rw [Compare_earlier_iff, Compare_equal_iff, Compare_subsequent_iff]
    omega
  · rw [Compare_earlier_iff, Compare_subsequent_iff]
    omega
  · rw [Compare_earlier_iff, Compare_earlier_iff, Compare_earlier_iff]
    omega
  · rw [Compare_subsequent_iff, Compare_subsequent_iff, Compare_subsequent_iff]
    omega
  · rw [Compare_equal_iff, Compare_equal_iff, Compare_equal_iff]
    omega

/-- Witness of C29: the version 10.5.100 of the tests against 11.0.0 and 10.5.99. -/
theorem Compare_lexicographic_witness :
    (Version.mk 10 5 100 false false).Compare (Version.mk 11 0 0 false false) = Earlier ∧
    (Version.mk 10 5 100 false false).Compare (Version.mk 10 5 99 true false)
      = Subsequent :=
  ⟨(Compare_lexicographic (Version.mk 10 5 100 false false) (Version.mk 11 0 0 false false)
      (Version.mk 11 0 0 false false)).1.mpr (by decide),
   (Compare_lexicographic (Version.mk 10 5 100 false false) (Version.mk 10 5 99 true false)
      (Version.mk 11 0 0 false false)).2.1.mpr (by decide)⟩

/-! ## Formatting and parsing -/

theorem digitsValue_snoc (ds : GoString) (d : Fin 256) :
    digitsValue (ds ++ [d]) = 10 * digitsValue ds + (d.val - 48) := by
  simp [digitsValue, List.foldl_append]

theorem formatDigits_spec (fuel : Nat) : ∀ (n : Nat) (acc : GoString), n < fuel →
    ∃ ds : GoString, formatDigits fuel n acc = ds ++ acc ∧ ds ≠ [] ∧
      (∀ c ∈ ds, isDigit c = true) ∧ digitsValue ds = n := by
  induction fuel with
  | zero => intro n acc h; omega
  | succ fuel ih =>
    intro n acc h
    by_cases h10 : n < 10
    · refine ⟨[⟨48 + n % 10, by omega⟩], by simp [formatDigits, h10], by simp, ?_, ?_⟩
      · intro c hc
        simp only [List.mem_singleton] at hc
        subst hc
        simp only [isDigit, decide_eq_true_eq]
        omega
      · simp only [digitsValue, List.foldl_cons, List.foldl_nil]
        omega
    · obtain ⟨ds, h1, -, h3, h4⟩ := ih (n / 10) (⟨48 + n % 10, by omega⟩ :: acc) (by omega)
      refine ⟨ds ++ [⟨48 + n % 10, by omega⟩], ?_, by simp, ?_, ?_⟩
      · simp only [formatDigits, h10, if_false, h1, List.append_assoc, List.singleton_append]
      · intro c hc
        rcases List.mem_append.mp hc with hc | hc
        · exact h3 c hc
        · simp only [List.mem_singleton] at hc
          subst hc
          simp only [isDigit, decide_eq_true_eq]
          omega
      · rw [digitsValue_snoc, h4]
        simp only
        omega

theorem formatInt_spec (n : Int) (h : 0 ≤ n) :
    formatInt n ≠ [] ∧ (∀ c ∈ formatInt n, isDigit c = true) ∧
    (digitsValue (formatInt n) : Int) = n := by
  obtain ⟨ds, h1, h2, h3, h4⟩ := formatDigits_spec (n.natAbs + 1) n.natAbs [] (by omega)
  have hf : formatInt n = ds := by
    simp only [formatInt, if_neg (not_lt.mpr h), h1, List.append_nil]
  rw [hf]
  refine ⟨h2, h3, ?_⟩
  rw [h4]
  omega

theorem takeWhile_digits (ds rest : GoString) (hds : ∀ c ∈ ds, isDigit c = true)
    (hrest : ∀ c, rest.head? = some c → isDigit c = false) :
    (ds ++ rest).takeWhile isDigit = ds ∧ (ds ++ rest).dropWhile isDigit = rest := by
  induction ds with
  | nil =>
    cases rest with
    | nil => simp
    | cons c r =>
      have := hrest c rfl
      simp [List.takeWhile, List.dropWhile, this]
  | cons d ds ih =>
    have hd := hds d (List.mem_cons_self _ _)
    have := ih (fun c hc => hds c (List.mem_cons_of_mem _ hc))
    simp [List.takeWhile, List.dropWhile, hd, this]

theorem Atoi_digits (ds : GoString) (hne : ds ≠ []) (hds : ∀ c ∈ ds, isDigit c = true)
    (hv : digitsValue ds ≤ 9223372036854775807) :
    Atoi ds = ((digitsValue ds : Int), none) := by
  obtain ⟨d, r, rfl⟩ := List.exists_cons_of_ne_nil hne
  have hd := hds d (List.mem_cons_self _ _)
  simp only [isDigit, decide_eq_true_eq] at hd
  have h45 : d ≠ 45 := by
    intro h; subst h; revert hd; decide
  have h43 : d ≠ 43 := by
    intro h; subst h; revert hd; decide
  have hall : (d :: r).all isDigit = true := by
    rw [List.all_eq_true]
    exact hds
  simp only [Atoi, List.head?_cons, Option.some.injEq, h45, h43, or_self, if_false, hall]
  simp [Nat.not_lt.mpr hv]

theorem FindStringSubmatch_three (dM dm db suffix : GoString)
    (hM : dM ≠ []) (hMd : ∀ c ∈ dM, isDigit c = true)
    (hm : dm ≠ []) (hmd : ∀ c ∈ dm, isDigit c = true)
    (hbd : ∀ c ∈ db, isDigit c = true)
    (hs : ∀ c, suffix.head? = some c → isDigit c = false) :
    FindStringSubmatch (dM ++ 46 :: (dm ++ 46 :: (db ++ suffix)))
      = some [dM ++ [46] ++ dm ++ [46] ++ db
          ++ (match matchFold tagDebug suffix with
              | some m => m
              | none =>
                match matchFold tagRelease suffix with
                | some m => m
                | none => ([], suffix)).1
          ++ (match matchFold tagNotYet
                (match matchFold tagDebug suffix with
                  | some m => m
                  | none =>
                    match matchFold tagRelease suffix with
                    | some m => m
                    | none => ([], suffix)).2 with
              | some m => m.1
              | none => []),
        dM, dm, [46], db,
        (match matchFold tagDebug suffix with
          | some m => m
          | none =>
            match matchFold tagRelease suffix with
            | some m => m
            | none => ([], suffix)).1,
        (match matchFold tagNotYet
            (match matchFold tagDebug suffix with
              | some m => m
              | none =>
                match matchFold tagRelease suffix with
                | some m => m
                | none => ([], suffix)).2 with
          | some m => m.1
          | none => [])] := by
  have h1 := takeWhile_digits dM (46 :: (dm ++ 46 :: (db ++ suffix))) hMd
    (by intro c hc; simp at hc; subst hc; decide)
  have h2 := takeWhile_digits dm (46 :: (db ++ suffix)) hmd
    (by intro c hc; simp at hc; subst hc; decide)
  have h3 := takeWhile_digits db suffix hbd hs
  simp only [FindStringSubmatch, h1.1, h1.2, h2.1, h2.2, hM, hm, if_false, ne_eq,
    not_true_eq_false, List.head?_cons, true_or, if_true, List.take_succ_cons, List.take_zero,
    List.length_singleton, List.drop_succ_cons, List.drop_zero, h3.1, h3.2]

theorem FindStringSubmatch_two (dM dm : GoString)
    (hM : dM ≠ []) (hMd : ∀ c ∈ dM, isDigit c = true)
    (hm : dm ≠ []) (hmd : ∀ c ∈ dm, isDigit c = true) :
    FindStringSubmatch (dM ++ 46 :: dm) = some [dM ++ [46] ++ dm, dM, dm, [], [], [], []] := by
  have h1 := takeWhile_digits dM (46 :: dm) hMd
    (by intro c hc; simp at hc; subst hc; decide)
  have h2 := takeWhile_digits dm [] hmd (by simp)
  rw [List.append_nil] at h2
  simp only [FindStringSubmatch, h1.1, h1.2, h2.1, h2.2, hM, hm, if_false, ne_eq,
    not_true_eq_false]
  simp [matchFold, tagDebug, tagRelease, tagNotYet, matchFoldByte]

theorem matchFold_tags :
    matchFold tagDebug [] = none ∧ matchFold tagRelease [] = none ∧
    matchFold tagNotYet [] = none ∧ matchFold tagDebug tagNotYet = none ∧
    matchFold tagRelease tagNotYet = none ∧
    matchFold tagNotYet tagNotYet = some (tagNotYet, []) ∧
    matchFold tagDebug tagDebug = some (tagDebug, []) ∧
    matchFold tagDebug (tagDebug ++ tagNotYet) = some (tagDebug, tagNotYet) ∧
    EqualFold tagDebug tagDebug = true ∧ EqualFold [] tagDebug = false ∧
    tagNotYet ≠ [] := by
  decide

/-- C28: for every `Version` whose major version, minor version and build number are
not negative (and are values of Go `int`), with any `Debug` and `NotYet`: `Parse` of
the text that `String` returns gives no error and the version itself, so it compares
`Equal` to the original and has the same `Debug` and `NotYet`; and `Parse` of the text
that `MajorMinorString` returns gives no error, the same major and minor version and
the build number 0. -/
theorem Parse_String (v : Version) (hr : v.InRange)
    (h0 : 0 ≤ v.Major ∧ 0 ≤ v.Minor ∧ 0 ≤ v.BuildNumber) :
    Parse v.String = (v, none) ∧
    (Parse v.String).1.Compare v = Equal ∧ v.Compare (Parse v.String).1 = Equal ∧
    (Parse v.String).1.Debug = v.Debug ∧ (Parse v.String).1.NotYet = v.NotYet ∧
    Parse v.MajorMinorString = (Version.mk v.Major v.Minor 0 false false, none) := by
  obtain ⟨M, m, b, dbg, ny⟩ := v
  simp only [Version.InRange] at hr
  simp only at h0
  obtain ⟨-, hM2, -, hm2, -, hb2⟩ := hr
  obtain ⟨hM0, hm0, hb0⟩ := h0
  obtain ⟨fM1, fM2, fM3⟩ := formatInt_spec M hM0
  obtain ⟨fm1, fm2, fm3⟩ := formatInt_spec m hm0
  obtain ⟨fb1, fb2, fb3⟩ := formatInt_spec b hb0
  have aM := Atoi_digits (formatInt M) fM1 fM2 (by omega)
  have am := Atoi_digits (formatInt m) fm1 fm2 (by omega)
  have ab := Atoi_digits (formatInt b) fb1 fb2 (by omega)
  rw [fM3] at aM
  rw [fm3] at am
  rw [fb3] at ab
  have hP : Parse (Version.mk M m b dbg ny).String = (Version.mk M m b dbg ny, none) := by
    have hstr : (Version.mk M m b dbg ny).String
        = formatInt M ++ 46 :: (formatInt m ++ 46 :: (formatInt b
            ++ ((if dbg then tagDebug else []) ++ (if ny then tagNotYet else [])))) := by
      simp [Version.String]
    have hsuf : ∀ c, ((if dbg then tagDebug else []) ++ (if ny then tagNotYet else [])
        : GoString).head? = some c → isDigit c = false := by
      cases dbg <;> cases ny <;> simp [tagDebug, tagNotYet] <;> decide
    rw [hstr]
    simp only [Parse, FindStringSubmatch_three _ _ _ _ fM1 fM2 fm1 fm2 fb2 hsuf]
    simp only [List.length_cons, List.length_nil, List.getD_cons_succ, List.getD_cons_zero,
      aM, am, ab, fb1]
    obtain ⟨t1, t2, t3, t4, t5, t6, t7, t8, t9, t10, t11⟩ := matchFold_tags
    cases dbg <;> cases ny <;>
      simp [fb1, t1, t2, t3, t4, t5, t6, t7, t8, t9, t10, t11]
  have hMM : Parse (Version.mk M m b dbg ny).MajorMinorString
      = (Version.mk M m 0 false false, none) := by
    have hstr : (Version.mk M m b dbg ny).MajorMinorString = formatInt M ++ 46 :: formatInt m := by
      simp [Version.MajorMinorString]
    rw [hstr]
    simp only [Parse, FindStringSubmatch_two _ _ fM1 fM2 fm1 fm2]
    simp only [List.length_cons, List.length_nil, List.getD_cons_succ, List.getD_cons_zero,
      aM, am]
    simp
    decide
  refine ⟨hP, ?_, ?_, ?_, ?_, hMM⟩
  · rw [hP]; exact (Compare_equal_iff _ _).mpr ⟨rfl, rfl, rfl⟩
  · rw [hP]; exact (Compare_equal_iff _ _).mpr ⟨rfl, rfl, rfl⟩
  · rw [hP]
  · rw [hP]

/-- Witness of C28: the version 10.5.100-Debug-NotYet of the tests. -/
theorem Parse_String_witness :
    Parse (Version.mk 10 5 100 true true).String = (Version.mk 10 5 100 true true, none) ∧
    Parse (Version.mk 10 5 100 true true).MajorMinorString
      = (Version.mk 10 5 0 false false, none) :=
  ⟨(Parse_String (Version.mk 10 5 100 true true) (by decide) (by decide)).1,
   (Parse_String (Version.mk 10 5 100 true true) (by decide) (by decide)).2.2.2.2.2⟩

end Cversion
